import Mathlib

/-!
Verification of the radv shader-memory arena allocator
(`src/amd/vulkan/radv_shader.c`: `radv_alloc_shader_memory`,
`radv_free_shader_memory`, `get_size_class`, `add_hole`, `remove_hole`,
`alloc_block_obj`, `free_block_obj`, `get_hole`, `radv_init_shader_arenas`,
`radv_find_shader`).

The allocator state is embedded shallowly:
* a `Block` is one contiguous byte range inside one arena, either free or
  allocated to an owner token (in the C source free-ness is encoded by the
  null-ness of `freelist.prev`, and the owner pointer is stashed in
  `freelist.next`; here it is an explicit sum `BlockState`);
* an `Arena` owns a backing buffer (`base`, `size`) plus the ordered intrusive
  list `entries` of its blocks, represented as a `List Block` ordered by offset;
* a `Device` carries the arena list, the per-size-class free lists
  (`shader_free_lists`, represented as lists of references
  `(arena id, block offset)` identifying the linked free blocks, in list order:
  `list_addtail` appends at the tail, iteration starts at the head), the
  non-emptiness bitmask `shader_free_list_mask`, the growth counter
  `shader_arena_shift`, a fresh-id counter standing in for pointer identity of
  arenas, and the size of the block-descriptor pool `shader_block_obj_pool`
  (descriptors are interchangeable, so the pool is modelled by its size).

Fallible external calls (`calloc`, `buffer_create`, `buffer_map`, `malloc`)
are driven by an oracle `AllocEnv`, which also supplies the device address of
a freshly created buffer.
-/

namespace Radv

/-- Modelled from the spec: `RADV_SHADER_ALLOC_ALIGNMENT` is declared in
`radv_shader.h`, which is not part of the sources at hand; the spec only says
blocks are aligned to `ALLOC_ALIGNMENT`.  The concrete value is irrelevant to
the claims; we fix a power of two. -/
def RADV_SHADER_ALLOC_ALIGNMENT : Nat := 256

/-- Modelled from the spec: `RADV_SHADER_ALLOC_MIN_SIZE_CLASS` from
`radv_shader.h` (not in the sources at hand); the lowest size-class shift
(`MIN_SHIFT` in the spec). -/
def RADV_SHADER_ALLOC_MIN_SIZE_CLASS : Nat := 8

/-- Modelled from the spec: `RADV_SHADER_ALLOC_NUM_FREE_LISTS` from
`radv_shader.h` (not in the sources at hand); the number of segregated
free lists (`NUM_FREE_LISTS` in the spec). -/
def RADV_SHADER_ALLOC_NUM_FREE_LISTS : Nat := 8

/-- Modelled from the spec: `RADV_SHADER_ALLOC_MIN_ARENA_SIZE` from
`radv_shader.h` (not in the sources at hand); the base arena size
(`BASE_ARENA_SIZE` in the spec). -/
def RADV_SHADER_ALLOC_MIN_ARENA_SIZE : Nat := 256 * 1024

/-- Modelled from the spec: `RADV_SHADER_ALLOC_MAX_ARENA_SIZE_SHIFT` from
`radv_shader.h` (not in the sources at hand); the growth-shift cap
(`MAX_GROWTH_SHIFT` in the spec). -/
def RADV_SHADER_ALLOC_MAX_ARENA_SIZE_SHIFT : Nat := 8

/-- `align(value, alignment)` from `u_math.h`: round `value` up to the next
multiple of the power-of-two `alignment`. -/
def align (value alignment : Nat) : Nat :=
  ((value + alignment - 1) / alignment) * alignment

/-- `BITFIELD_MASK(b)`: the low `b` bits set. -/
def BITFIELD_MASK (b : Nat) : Nat := (1 <<< b) - 1

/-- Fuel-driven floor of the base-2 logarithm; `log2Aux fuel n = ⌊log₂ n⌋`
whenever `n ≤ fuel` (the recursion halves `n` each step). -/
def log2Aux : Nat → Nat → Nat
  | 0, _ => 0
  | fuel + 1, n => if n ≤ 1 then 0 else log2Aux fuel (n / 2) + 1

/-- `util_logbase2` from `u_math.h`: `31 - clz(n | 1)`, i.e. `⌊log₂ n⌋` with
`util_logbase2 0 = 0`. -/
def util_logbase2 (n : Nat) : Nat := log2Aux n (n ||| 1)

/-- `util_logbase2_ceil` from `u_math.h`: `⌈log₂ n⌉` with value 0 for
`n ≤ 1`. -/
def util_logbase2_ceil (n : Nat) : Nat :=
  if n ≤ 1 then 0 else util_logbase2 (n - 1) + 1

/-- Fuel-driven find-first-set; `ffsAux fuel n` is correct when `n ≤ fuel`. -/
def ffsAux : Nat → Nat → Nat
  | 0, _ => 0
  | fuel + 1, n =>
    if n = 0 then 0
    else if n % 2 = 1 then 1
    else ffsAux fuel (n / 2) + 1

/-- `ffs`: index (1-based) of the least significant set bit, 0 if none. -/
def ffs (n : Nat) : Nat := ffsAux n n

/-- `get_size_class` from `radv_shader.c`: map a byte size to one of the
`RADV_SHADER_ALLOC_NUM_FREE_LISTS` logarithmic size classes, rounding the
logarithm up (when searching) or down (when filing a hole). -/
def get_size_class (size : Nat) (round_up : Bool) : Nat :=
  let s := if round_up then util_logbase2_ceil size else util_logbase2 size
  min (max s RADV_SHADER_ALLOC_MIN_SIZE_CLASS - RADV_SHADER_ALLOC_MIN_SIZE_CLASS)
    (RADV_SHADER_ALLOC_NUM_FREE_LISTS - 1)

/-- Owner tokens are opaque to the allocator (`void *ptr` in the source). -/
abbrev Owner := Nat

/-- Block state: in the C source a block is free iff its `freelist.prev` link
is non-null; an allocated block stores the owner pointer in
`freelist.next`. -/
inductive BlockState
  | free
  | allocated (owner : Owner)
deriving DecidableEq, Repr

/-- One `radv_shader_arena_block`: a contiguous byte range
`[offset, offset + size)` inside its arena. -/
structure Block where
  offset : Nat
  size : Nat
  state : BlockState
deriving DecidableEq, Repr

/-- One `radv_shader_arena`: `id` models pointer identity, `base` the device
address of the backing buffer `bo`, `size` the buffer size, and `entries` the
ordered intrusive block list covering the arena. -/
structure Arena where
  id : Nat
  base : Nat
  size : Nat
  entries : List Block
deriving DecidableEq, Repr

/-- A reference to a block: (owning arena id, block offset).  Stands in for
the block pointers stored in the segregated free lists. -/
abbrev BlockRef := Nat × Nat

/-- The allocator-relevant state of `radv_device`. -/
structure Device where
  arenas : List Arena
  freeLists : List (List BlockRef)
  freeListMask : Nat
  arenaShift : Nat
  nextArenaId : Nat
  blockPool : Nat
deriving DecidableEq, Repr

/-- `radv_init_shader_arenas`: empty arena list, empty free lists, zero
mask, empty block pool. -/
def radv_init_shader_arenas : Device :=
  { arenas := []
    freeLists := List.replicate RADV_SHADER_ALLOC_NUM_FREE_LISTS []
    freeListMask := 0
    arenaShift := 0
    nextArenaId := 0
    blockPool := 0 }

/-- Whether a block is a hole (its `freelist.prev` is non-null). -/
def isFreeB (b : Block) : Bool :=
  match b.state with
  | .free => true
  | .allocated _ => false

/-- `remove_hole`: unlink a hole of size `holeSize` (referenced by `r`) from
its size-class list, clearing the mask bit if the list drained.  The C `~`
is a 32-bit complement; the mask always fits 32 bits. -/
def remove_hole (d : Device) (r : BlockRef) (holeSize : Nat) : Device :=
  let k := get_size_class holeSize false
  let l := (d.freeLists.getD k []).erase r
  { d with
    freeLists := d.freeLists.set k l
    freeListMask :=
      if l.isEmpty then d.freeListMask &&& (BITFIELD_MASK 32 ^^^ (1 <<< k))
      else d.freeListMask }

/-- `add_hole`: append a hole reference at the tail of its size-class list
(`list_addtail`) and set the mask bit. -/
def add_hole (d : Device) (r : BlockRef) (holeSize : Nat) : Device :=
  let k := get_size_class holeSize false
  { d with
    freeLists := d.freeLists.set k ((d.freeLists.getD k []) ++ [r])
    freeListMask := d.freeListMask ||| (1 <<< k) }

/-- `alloc_block_obj`: pop a pooled descriptor if the pool is non-empty, else
`malloc` a fresh one.  The pool is modelled by its size; `malloc` outcomes
are drawn from the oracle list `oks` (exhausted list = success).  Returns
(success, new pool size, remaining oracle). -/
def alloc_block_obj (pool : Nat) (oks : List Bool) : Bool × Nat × List Bool :=
  if 0 < pool then (true, pool - 1, oks)
  else
    match oks with
    | [] => (true, 0, [])
    | ok :: rest => (ok, 0, rest)

/-- Look a block reference up: find the arena with the referenced id, then the
entry at the referenced offset. -/
def lookupRef (d : Device) (r : BlockRef) : Option Block :=
  match d.arenas.find? (fun a => a.id == r.1) with
  | none => none
  | some a => a.entries.find? (fun b => b.offset == r.2)

/-- The `list_for_each_entry` scan over one free list in
`radv_alloc_shader_memory`: skip holes with `hole->size < size`, return the
first fitting hole together with its reference.  (Dangling references cannot
occur in well-formed states; they are skipped.) -/
def findFit (d : Device) (refs : List BlockRef) (size : Nat) :
    Option (BlockRef × Block) :=
  match refs with
  | [] => none
  | r :: rest =>
    match lookupRef d r with
    | none => findFit d rest size
    | some b => if b.size < size then findFit d rest size else some (r, b)

/-- Apply `f` to the entry list of the arena with id `aid`. -/
def updateArena (d : Device) (aid : Nat) (f : List Block → List Block) :
    Device :=
  { d with
    arenas := d.arenas.map fun a =>
      if a.id = aid then { a with entries := f a.entries } else a }

/-- Flip the block at offset `off` to `Allocated owner`, leaving others
unchanged. -/
def flipAt (off : Nat) (owner : Owner) (b : Block) : Block :=
  if b.offset = off then { b with state := .allocated owner } else b

/-- Mark the block at offset `r.2` of arena `r.1` allocated to `owner`
(the exact-fit path: `hole->freelist.next = ptr`). -/
def markAllocated (d : Device) (r : BlockRef) (owner : Owner) : Device :=
  updateArena d r.1 fun es => es.map (flipAt r.2 owner)

/-- Split the hole at offset `off` into an allocated block of `size` bytes
followed by the shrunk hole (`list_addtail(&alloc->list, &hole->list)` inserts
the allocated block immediately before the hole; the hole then advances by
`size`). -/
def splitEntries (off size : Nat) (owner : Owner) (es : List Block) :
    List Block :=
  es.flatMap fun b =>
    if b.offset = off then
      [{ offset := off, size := size, state := .allocated owner },
       { offset := off + size, size := b.size - size, state := .free }]
    else [b]

/-- Oracle for the external calls made by one `radv_alloc_shader_memory`
call: success of the arena `calloc`, of `buffer_create`, of `buffer_map`,
the outcomes of successive `malloc` calls for block descriptors, and the
device address of a freshly created buffer. -/
structure AllocEnv where
  arenaCallocOk : Bool := true
  bufferCreateOk : Bool := true
  bufferMapOk : Bool := true
  mallocOks : List Bool := []
  newBase : Nat := 0
deriving Repr

instance : Inhabited AllocEnv := ⟨{}⟩

/-- The size chosen for a new arena:
`MAX2(MIN_ARENA_SIZE << MIN2(MAX_ARENA_SIZE_SHIFT, shader_arena_shift), size)`. -/
def newArenaSize (shift size : Nat) : Nat :=
  max (RADV_SHADER_ALLOC_MIN_ARENA_SIZE <<<
    min RADV_SHADER_ALLOC_MAX_ARENA_SIZE_SHIFT shift) size

/-- The new-arena path of `radv_alloc_shader_memory` (from
`struct radv_shader_arena *arena = calloc(...)` to the end).  `size` is
already aligned.  On any failure the partially constructed arena is unwound:
the buffer (if created) is destroyed and the block descriptors are `free`d —
note: `free`d to the host allocator, not returned to the pool. -/
def allocNewArena (env : AllocEnv) (d : Device) (size : Nat) (owner : Owner) :
    Option BlockRef × Device :=
  if !env.arenaCallocOk then (none, d)
  else
    let arena_size := newArenaSize d.arenaShift size
    if !env.bufferCreateOk then (none, d)
    else if !env.bufferMapOk then (none, d)
    else
      match alloc_block_obj d.blockPool env.mallocOks with
      | (ok1, pool1, oks1) =>
        match (if 0 < arena_size - size then alloc_block_obj pool1 oks1
            else (ok1, pool1, oks1)) with
        | (ok2, pool2, _) =>
          if !ok1 || !ok2 then (none, { d with blockPool := pool2 })
          else
            let aid := d.nextArenaId
            let allocB : Block := { offset := 0, size := size, state := .allocated owner }
            let newArena : Arena :=
              { id := aid, base := env.newBase, size := arena_size
                entries :=
                  if 0 < arena_size - size then
                    [allocB,
                     { offset := size, size := arena_size - size, state := .free }]
                  else [allocB] }
            let d1 := { d with
              arenas := d.arenas ++ [newArena]
              blockPool := pool2
              arenaShift := d.arenaShift + 1
              nextArenaId := aid + 1 }
            let d2 :=
              if 0 < arena_size - size then
                add_hole d1 (aid, size) (arena_size - size)
              else d1
            (some (aid, 0), d2)

/-- `radv_alloc_shader_memory`: round the request up to the allocation
alignment, scan the lowest non-empty size class at or above the request's
class for a fitting hole (taking it whole on an exact fit, else splitting
it), and otherwise create a new arena.  Returns the reference of the
allocated block (`none` on failure) and the new state. -/
def radv_alloc_shader_memory (env : AllocEnv) (d : Device) (size0 : Nat)
    (owner : Owner) : Option BlockRef × Device :=
  let size := align size0 RADV_SHADER_ALLOC_ALIGNMENT
  let m := d.freeListMask &&&
    (BITFIELD_MASK RADV_SHADER_ALLOC_NUM_FREE_LISTS <<< get_size_class size true)
  let viaHole : Option (Option BlockRef × Device) :=
    if ffs m = 0 then none
    else
      match findFit d (d.freeLists.getD (ffs m - 1) []) size with
      | none => none
      | some (r, hole) =>
        if hole.size = size then
          some (some r, markAllocated (remove_hole d r hole.size) r owner)
        else
          match alloc_block_obj d.blockPool env.mallocOks with
          | (ok, pool1, _) =>
            if ok then
              let d1 := remove_hole { d with blockPool := pool1 } r hole.size
              let d2 := updateArena d1 r.1 (splitEntries r.2 size owner)
              some (some r, add_hole d2 (r.1, r.2 + size) (hole.size - size))
            else some (none, { d with blockPool := pool1 })
  match viaHole with
  | some res => res
  | none => allocNewArena env d size owner

/-- `get_hole`: a neighboring entry is a hole iff its `freelist.prev` link is
non-null, i.e. iff it is free; `none` at the arena boundary. -/
def get_hole : Option Block → Option Block
  | none => none
  | some b => if isFreeB b then some b else none

/-- Split an entry list at the block with the given offset. -/
def splitAtOffset (off : Nat) : List Block → Option (List Block × Block × List Block)
  | [] => none
  | b :: bs =>
    if b.offset = off then some ([], b, bs)
    else
      match splitAtOffset off bs with
      | none => none
      | some (p, x, s) => some (b :: p, x, s)

/-- `radv_free_shader_memory`: merge the freed block with its free left and
right neighbors (unlinking them from their size classes and releasing their
descriptors to the pool); if the merged hole is the sole entry of its arena,
destroy the arena (releasing the hole's descriptor and the backing buffer),
else file the hole into its size class. -/
def radv_free_shader_memory (d : Device) (r : BlockRef) : Device :=
  match d.arenas.find? (fun a => a.id == r.1) with
  | none => d
  | some a =>
    match splitAtOffset r.2 a.entries with
    | none => d
    | some (pre, b, post) =>
      let s1 : List Block × Block × Device :=
        match get_hole pre.getLast? with
        | some p =>
          let d' := remove_hole d (r.1, p.offset) p.size
          (pre.dropLast,
           { offset := p.offset, size := p.size + b.size, state := .free },
           { d' with blockPool := d'.blockPool + 1 })
        | none => (pre, { b with state := .free }, d)
      match s1 with
      | (pre1, cur1, d1) =>
        let s2 : List Block × Block × Device :=
          match get_hole post.head? with
          | some n =>
            let d' := remove_hole d1 (r.1, n.offset) n.size
            (post.tail,
             { offset := n.offset - cur1.size, size := n.size + cur1.size,
               state := .free },
             { d' with blockPool := d'.blockPool + 1 })
          | none => (post, cur1, d1)
        match s2 with
        | (post1, cur2, d2) =>
          let entries' := pre1 ++ cur2 :: post1
          if entries'.length = 1 then
            { d2 with
              arenas := d2.arenas.filter (fun a2 => a2.id != r.1)
              blockPool := d2.blockPool + 1 }
          else
            add_hole (updateArena d2 r.1 (fun _ => entries')) (r.1, cur2.offset)
              cur2.size

/-- `radv_find_shader` restricted to the allocator abstraction: walk the
arenas and their entries, and return the owner token of the first allocated
block whose absolute range `[base + offset, base + offset + size)` contains
`pc`. -/
def radv_find_shader (d : Device) (pc : Nat) : Option Owner :=
  d.arenas.findSome? fun a =>
    a.entries.findSome? fun b =>
      match b.state with
      | .free => none
      | .allocated o =>
        if a.base + b.offset ≤ pc ∧ pc < a.base + b.offset + b.size then some o
        else none

/-! ## Specification predicates -/

/-- The entry list `bs` exactly tiles the byte range `[s, e)`: the first block
starts at `s`, each block is followed immediately by the next, the last block
ends at `e`; block sizes are positive multiples of the allocation
alignment. -/
def tilesFrom : Nat → List Block → Nat → Prop
  | s, [], e => s = e
  | s, b :: bs, e =>
    b.offset = s ∧ 0 < b.size ∧ b.size % RADV_SHADER_ALLOC_ALIGNMENT = 0 ∧
      tilesFrom (s + b.size) bs e

instance instDecTilesFrom : (s : Nat) → (bs : List Block) → (e : Nat) →
    Decidable (tilesFrom s bs e)
  | s, [], e => inferInstanceAs (Decidable (s = e))
  | s, b :: bs, e =>
    haveI := instDecTilesFrom (s + b.size) bs e
    inferInstanceAs (Decidable (b.offset = s ∧ 0 < b.size ∧
      b.size % RADV_SHADER_ALLOC_ALIGNMENT = 0 ∧ tilesFrom (s + b.size) bs e))

/-- Two consecutive entries are not both free. -/
def BlocksSep (a b : Block) : Prop :=
  ¬(a.state = BlockState.free ∧ b.state = BlockState.free)

instance : DecidableRel BlocksSep := fun a b =>
  inferInstanceAs
    (Decidable (¬(a.state = BlockState.free ∧ b.state = BlockState.free)))

/-- No two adjacent entries are both free. -/
def noAdjFree (bs : List Block) : Prop := List.Chain' BlocksSep bs

instance instDecChainBS : (a : Block) → (l : List Block) →
    Decidable (List.Chain BlocksSep a l)
  | _, [] => isTrue List.Chain.nil
  | a, b :: l =>
    haveI := instDecChainBS b l
    decidable_of_iff (BlocksSep a b ∧ List.Chain BlocksSep b l)
      List.chain_cons.symm

instance (bs : List Block) : Decidable (noAdjFree bs) :=
  match bs with
  | [] => isTrue trivial
  | a :: l => instDecChainBS a l

/-- Well-formedness of one arena: its entries tile `[0, size)`, holes are
never adjacent, and at least one entry is allocated (a fully free arena is
destroyed eagerly, so it never persists). -/
def ArenaWF (a : Arena) : Prop :=
  tilesFrom 0 a.entries a.size ∧ noAdjFree a.entries ∧
    ∃ b ∈ a.entries, b.state ≠ BlockState.free

instance (a : Arena) : Decidable (ArenaWF a) :=
  inferInstanceAs (Decidable (tilesFrom 0 a.entries a.size ∧
    noAdjFree a.entries ∧ ∃ b ∈ a.entries, b.state ≠ BlockState.free))

/-- There are exactly `NUM_FREE_LISTS` free lists. -/
def flLenOK (d : Device) : Prop :=
  d.freeLists.length = RADV_SHADER_ALLOC_NUM_FREE_LISTS

/-- Every arena is well formed. -/
def arenasOK (d : Device) : Prop := ∀ a ∈ d.arenas, ArenaWF a

/-- Arena ids are distinct and below the fresh-id counter. -/
def idsOK (d : Device) : Prop :=
  (d.arenas.map Arena.id).Nodup ∧ ∀ a ∈ d.arenas, a.id < d.nextArenaId

/-- Every reference in free list `k` denotes an existing free block whose
size files into class `k`. -/
def refsOK (d : Device) : Prop :=
  ∀ k, k < RADV_SHADER_ALLOC_NUM_FREE_LISTS → ∀ r ∈ d.freeLists.getD k [],
    ∃ a ∈ d.arenas, a.id = r.1 ∧ ∃ b ∈ a.entries,
      b.offset = r.2 ∧ b.state = BlockState.free ∧
        get_size_class b.size false = k

/-- No reference occurs twice across the free lists. -/
def refsNodup (d : Device) : Prop := d.freeLists.flatten.Nodup

/-- Bit `k` of the mask is set iff free list `k` is non-empty, and no bit at
or above `NUM_FREE_LISTS` is ever set. -/
def maskOK (d : Device) : Prop :=
  (∀ k, k < RADV_SHADER_ALLOC_NUM_FREE_LISTS →
    (d.freeListMask.testBit k ↔ d.freeLists.getD k [] ≠ [])) ∧
  d.freeListMask < 2 ^ RADV_SHADER_ALLOC_NUM_FREE_LISTS

/-- Well-formedness of the allocator state. -/
def DeviceWF (d : Device) : Prop :=
  flLenOK d ∧ arenasOK d ∧ idsOK d ∧ refsOK d ∧ refsNodup d ∧ maskOK d

instance (d : Device) : Decidable (flLenOK d) :=
  inferInstanceAs
    (Decidable (d.freeLists.length = RADV_SHADER_ALLOC_NUM_FREE_LISTS))

instance (d : Device) : Decidable (arenasOK d) :=
  inferInstanceAs (Decidable (∀ a ∈ d.arenas, ArenaWF a))

instance (d : Device) : Decidable (idsOK d) :=
  inferInstanceAs (Decidable ((d.arenas.map Arena.id).Nodup ∧
    ∀ a ∈ d.arenas, a.id < d.nextArenaId))

instance (d : Device) : Decidable (refsOK d) :=
  inferInstanceAs (Decidable (∀ k, k < RADV_SHADER_ALLOC_NUM_FREE_LISTS →
    ∀ r ∈ d.freeLists.getD k [],
      ∃ a ∈ d.arenas, a.id = r.1 ∧ ∃ b ∈ a.entries,
        b.offset = r.2 ∧ b.state = BlockState.free ∧
          get_size_class b.size false = k))

instance (d : Device) : Decidable (refsNodup d) :=
  inferInstanceAs (Decidable d.freeLists.flatten.Nodup)

instance (d : Device) : Decidable (maskOK d) :=
  inferInstanceAs (Decidable
    ((∀ k, k < RADV_SHADER_ALLOC_NUM_FREE_LISTS →
      (d.freeListMask.testBit k ↔ d.freeLists.getD k [] ≠ [])) ∧
     d.freeListMask < 2 ^ RADV_SHADER_ALLOC_NUM_FREE_LISTS))

instance (d : Device) : Decidable (DeviceWF d) :=
  inferInstanceAs (Decidable (flLenOK d ∧ arenasOK d ∧ idsOK d ∧
    refsOK d ∧ refsNodup d ∧ maskOK d))

/-- A valid argument to `radv_free_shader_memory`: the reference denotes a
currently allocated block (the caller contract; freeing anything else is
undefined behavior at this layer). -/
def validFree (d : Device) (r : BlockRef) : Prop :=
  ∃ a ∈ d.arenas, a.id = r.1 ∧ ∃ b ∈ a.entries,
    b.offset = r.2 ∧ b.state ≠ BlockState.free

instance (d : Device) (r : BlockRef) : Decidable (validFree d r) :=
  inferInstanceAs (Decidable (∃ a ∈ d.arenas, a.id = r.1 ∧
    ∃ b ∈ a.entries, b.offset = r.2 ∧ b.state ≠ BlockState.free))

/-- States reachable from the initialized empty state by `alloc` calls with
positive size (any oracle outcome, successful or failed) and `free` calls
respecting the caller contract. -/
inductive Reachable : Device → Prop
  | init : Reachable radv_init_shader_arenas
  | alloc (env : AllocEnv) (size : Nat) (owner : Owner) {d : Device}
      (hd : Reachable d) (hs : 0 < size) :
      Reachable (radv_alloc_shader_memory env d size owner).2
  | free (r : BlockRef) {d : Device} (hd : Reachable d)
      (hv : validFree d r) :
      Reachable (radv_free_shader_memory d r)

/-- The backing buffers of distinct arenas occupy disjoint device-address
ranges (a property of the buffer backend, assumed where absolute addresses
matter). -/
def basesDisjoint (d : Device) : Prop :=
  d.arenas.Pairwise fun a b =>
    a.base + a.size ≤ b.base ∨ b.base + b.size ≤ a.base

instance (d : Device) : Decidable (basesDisjoint d) :=
  inferInstanceAs (Decidable (d.arenas.Pairwise fun (a b : Arena) =>
    a.base + a.size ≤ b.base ∨ b.base + b.size ≤ a.base))

/-- Observable equivalence in the sense of the round-trip property:
the same arenas (ids, bases, sizes and entry lists) and the same free-list
contents (each class holds the same holes; the order inside a class list is
not observable through the allocator's guarantees), hence also the same
mask. -/
def ObsEquiv (d1 d2 : Device) : Prop :=
  d1.arenas = d2.arenas ∧
  d1.freeLists.length = d2.freeLists.length ∧
  (∀ k, (d1.freeLists.getD k []).Perm (d2.freeLists.getD k [])) ∧
  d1.freeListMask = d2.freeListMask

/-! ## Toolbox: free-list tables -/

theorem getD_set_self {β : Type _} {L : List (List β)} {k : Nat} {v : List β}
    (h : k < L.length) : (L.set k v).getD k [] = v := by
  simp [List.getD_eq_getElem?_getD, List.getElem?_set_self h]

theorem getD_set_ne {β : Type _} {L : List (List β)} {k j : Nat} {v : List β}
    (h : k ≠ j) : (L.set k v).getD j [] = L.getD j [] := by
  simp [List.getD_eq_getElem?_getD, List.getElem?_set_ne h]

theorem flatten_decomp {β : Type _} (L : List (List β)) (k : Nat)
    (h : k < L.length) :
    L.flatten = (L.take k).flatten ++ L.getD k [] ++ (L.drop (k + 1)).flatten := by
  induction L generalizing k with
  | nil => simp at h
  | cons x xs ih =>
    cases k with
    | zero => simp
    | succ k' =>
      simp only [List.take_succ_cons, List.drop_succ_cons, List.flatten_cons,
        List.getD_cons_succ]
      rw [ih k' (by simpa using h)]
      simp

theorem flatten_set_decomp {β : Type _} (L : List (List β)) (k : Nat)
    (v : List β) (h : k < L.length) :
    (L.set k v).flatten =
      (L.take k).flatten ++ v ++ (L.drop (k + 1)).flatten := by
  induction L generalizing k with
  | nil => simp at h
  | cons x xs ih =>
    cases k with
    | zero => simp
    | succ k' =>
      simp only [List.set_cons_succ, List.take_succ_cons, List.drop_succ_cons,
        List.flatten_cons]
      rw [ih k' (by simpa using h)]
      simp

theorem mem_getD_mem_flatten {β : Type _} {L : List (List β)} {k : Nat}
    {r : β} (h : r ∈ L.getD k []) : r ∈ L.flatten := by
  by_cases hk : k < L.length
  · rw [flatten_decomp L k hk]
    exact List.mem_append_left _ (List.mem_append_right _ h)
  · rw [List.getD_eq_getElem?_getD, List.getElem?_eq_none (by omega)] at h
    simp at h

/-! ## Toolbox: tiling -/

theorem tilesFrom_le {bs : List Block} : ∀ {s e : Nat}, tilesFrom s bs e → s ≤ e := by
  induction bs with
  | nil => intro s e h; exact Nat.le_of_eq h
  | cons b rest ih =>
    intro s e h
    obtain ⟨-, hpos, -, ht⟩ := h
    have := ih ht
    omega

theorem tilesFrom_append {xs ys : List Block} {s e : Nat} :
    tilesFrom s (xs ++ ys) e ↔ ∃ m, tilesFrom s xs m ∧ tilesFrom m ys e := by
  induction xs generalizing s with
  | nil =>
    simp only [List.nil_append]
    constructor
    · intro h; exact ⟨s, rfl, h⟩
    · rintro ⟨m, rfl, h⟩; exact h
  | cons b rest ih =>
    simp only [List.cons_append]
    show (_ ∧ _ ∧ _ ∧ tilesFrom _ (rest ++ ys) e) ↔ _
    rw [ih]
    constructor
    · rintro ⟨h1, h2, h3, m, h4, h5⟩; exact ⟨m, ⟨h1, h2, h3, h4⟩, h5⟩
    · rintro ⟨m, ⟨h1, h2, h3, h4⟩, h5⟩; exact ⟨h1, h2, h3, m, h4, h5⟩

theorem tilesFrom_bounds {bs : List Block} :
    ∀ {s e : Nat}, tilesFrom s bs e → ∀ b ∈ bs,
      s ≤ b.offset ∧ b.offset + b.size ≤ e ∧ 0 < b.size ∧
        b.size % RADV_SHADER_ALLOC_ALIGNMENT = 0 := by
  induction bs with
  | nil => intro s e _ b hb; simp at hb
  | cons c rest ih =>
    intro s e h b hb
    obtain ⟨hoff, hpos, hmod, ht⟩ := h
    have hrest_le := tilesFrom_le ht
    rcases List.mem_cons.1 hb with rfl | hb'
    · exact ⟨Nat.le_of_eq hoff.symm, by omega, hpos, hmod⟩
    · have := ih ht b hb'
      refine ⟨by omega, this.2⟩

theorem tilesFrom_offset_mod {bs : List Block} :
    ∀ {s e : Nat}, tilesFrom s bs e → s % RADV_SHADER_ALLOC_ALIGNMENT = 0 →
      ∀ b ∈ bs, b.offset % RADV_SHADER_ALLOC_ALIGNMENT = 0 := by
  induction bs with
  | nil => intro s e _ _ b hb; simp at hb
  | cons c rest ih =>
    intro s e h hs b hb
    obtain ⟨hoff, hpos, hmod, ht⟩ := h
    rcases List.mem_cons.1 hb with rfl | hb'
    · rw [hoff]; exact hs
    · exact ih ht (by simp [Nat.add_mod, hs, hmod]) b hb'

theorem tilesFrom_disjoint {bs : List Block} :
    ∀ {s e : Nat}, tilesFrom s bs e → ∀ b1 ∈ bs, ∀ b2 ∈ bs,
      b1.offset ≠ b2.offset →
      b1.offset + b1.size ≤ b2.offset ∨ b2.offset + b2.size ≤ b1.offset := by
  induction bs with
  | nil => intro s e _ b1 hb1; simp at hb1
  | cons c rest ih =>
    intro s e h b1 hb1 b2 hb2 hne
    obtain ⟨hoff, hpos, hmod, ht⟩ := h
    rcases List.mem_cons.1 hb1 with rfl | hb1' <;>
      rcases List.mem_cons.1 hb2 with rfl | hb2'
    · exact absurd rfl hne
    · have := tilesFrom_bounds ht b2 hb2'
      left; omega
    · have := tilesFrom_bounds ht b1 hb1'
      right; omega
    · exact ih ht b1 hb1' b2 hb2' hne

/-- Under tiling, `find?` by offset retrieves exactly the member block. -/
theorem find?_offset_of_tiles {bs : List Block} :
    ∀ {s e : Nat}, tilesFrom s bs e → ∀ {b : Block}, b ∈ bs →
      bs.find? (fun c => c.offset == b.offset) = some b := by
  induction bs with
  | nil => intro s e _ b hb; simp at hb
  | cons c rest ih =>
    intro s e h b hb
    obtain ⟨hoff, hpos, hmod, ht⟩ := h
    rcases List.mem_cons.1 hb with rfl | hb'
    · exact List.find?_cons_of_pos _ (by simp)
    · have hbnd := tilesFrom_bounds ht b hb'
      have hco : c.offset ≠ b.offset := by omega
      rw [List.find?_cons_of_neg _ (by simpa using hco), ih ht hb']

theorem tilesFrom_offset_inj {bs : List Block} {s e : Nat}
    (h : tilesFrom s bs e) {b1 b2 : Block} (hb1 : b1 ∈ bs) (hb2 : b2 ∈ bs)
    (heq : b1.offset = b2.offset) : b1 = b2 := by
  have e1 := find?_offset_of_tiles h hb1
  have e2 := find?_offset_of_tiles h hb2
  rw [heq] at e1
  rw [e1] at e2
  exact Option.some.inj e2

/-! ## Toolbox: splitAtOffset -/

theorem splitAtOffset_sound {o : Nat} {bs p q : List Block} {x : Block} :
    splitAtOffset o bs = some (p, x, q) →
      bs = p ++ x :: q ∧ x.offset = o ∧ ∀ c ∈ p, c.offset ≠ o := by
  induction bs generalizing p with
  | nil => intro h; simp [splitAtOffset] at h
  | cons b rest ih =>
    intro h
    by_cases hb : b.offset = o
    · simp [splitAtOffset, hb] at h
      obtain ⟨rfl, rfl, rfl⟩ := h
      exact ⟨by simp, hb, by simp⟩
    · simp only [splitAtOffset, if_neg hb] at h
      cases hr : splitAtOffset o rest with
      | none => rw [hr] at h; simp at h
      | some t =>
        obtain ⟨p', x', q'⟩ := t
        rw [hr] at h; simp at h
        obtain ⟨rfl, rfl, rfl⟩ := h
        obtain ⟨h1, h2, h3⟩ := ih hr
        refine ⟨by simp [h1], h2, ?_⟩
        intro c hc
        rcases List.mem_cons.1 hc with rfl | hc'
        · exact hb
        · exact h3 c hc'

theorem splitAtOffset_isSome {o : Nat} {bs : List Block} {b : Block}
    (hb : b ∈ bs) (ho : b.offset = o) : (splitAtOffset o bs).isSome := by
  induction bs with
  | nil => simp at hb
  | cons c rest ih =>
    by_cases hc : c.offset = o
    · simp [splitAtOffset, hc]
    · rcases List.mem_cons.1 hb with rfl | hb'
      · exact absurd ho hc
      · simp only [splitAtOffset, if_neg hc]
        cases hr : splitAtOffset o rest with
        | none => have := ih hb'; rw [hr] at this; simp at this
        | some t => obtain ⟨p', x', q'⟩ := t; simp

/-! ## Toolbox: bits and size classes -/

theorem ffs_eq_zero_iff (n : Nat) : ffs n = 0 ↔ n = 0 := by
  cases n with
  | zero => simp [ffs, ffsAux]
  | succ m =>
    show ffsAux (m + 1) (m + 1) = 0 ↔ _
    unfold ffsAux
    split
    · simp_all
    · split <;> simp

theorem exists_testBit_of_ne_zero {n : Nat} (h : n ≠ 0) : ∃ i, n.testBit i := by
  by_contra hc
  push_neg at hc
  refine h (Nat.eq_of_testBit_eq fun i => ?_)
  have := hc i
  simp only [Nat.zero_testBit]
  simpa using this

theorem eq_zero_of_forall_not_testBit {n : Nat}
    (h : ∀ i, ¬n.testBit i) : n = 0 :=
  Nat.eq_of_testBit_eq fun i => by
    have := h i
    simp only [Nat.zero_testBit]
    simpa using this

theorem testBit_maskbits {b k j : Nat} :
    (BITFIELD_MASK b <<< k).testBit j ↔ k ≤ j ∧ j < k + b := by
  rw [BITFIELD_MASK, Nat.shiftLeft_eq 1 b, Nat.one_mul, Nat.testBit_shiftLeft,
    Nat.testBit_two_pow_sub_one]
  simp only [Bool.and_eq_true, decide_eq_true_eq, ge_iff_le]
  omega

theorem testBit_clear {m k j : Nat} (hj : j < 32) (hk : k < 32) :
    (m &&& (BITFIELD_MASK 32 ^^^ (1 <<< k))).testBit j =
      (m.testBit j && !(decide (j = k))) := by
  rw [Nat.testBit_land, Nat.testBit_xor, BITFIELD_MASK,
    Nat.shiftLeft_eq 1 32, Nat.one_mul, Nat.testBit_two_pow_sub_one,
    Nat.shiftLeft_eq 1 k, Nat.one_mul, Nat.testBit_two_pow]
  by_cases h : j = k
  · subst h; simp [hj]
  · have hkj : ¬k = j := fun hc => h hc.symm
    simp [hj, h, hkj]

theorem testBit_setbit {m k j : Nat} :
    (m ||| (1 <<< k)).testBit j = (m.testBit j || decide (k = j)) := by
  rw [Nat.testBit_lor, Nat.shiftLeft_eq 1 k, Nat.one_mul, Nat.testBit_two_pow]

theorem get_size_class_lt (s : Nat) (ru : Bool) :
    get_size_class s ru < RADV_SHADER_ALLOC_NUM_FREE_LISTS := by
  have h : get_size_class s ru ≤ RADV_SHADER_ALLOC_NUM_FREE_LISTS - 1 :=
    Nat.min_le_right _ _
  have h2 : (0 : Nat) < RADV_SHADER_ALLOC_NUM_FREE_LISTS := by
    norm_num [RADV_SHADER_ALLOC_NUM_FREE_LISTS]
  omega

theorem testBit_ge_of_lt {m n j : Nat} (hm : m < 2 ^ n) (hj : n ≤ j) :
    ¬m.testBit j := by
  intro h
  have := Nat.testBit_implies_ge h
  have : 2 ^ j < 2 ^ n := Nat.lt_of_le_of_lt this hm
  have := Nat.pow_lt_pow_iff_right (a := 2) (by omega) |>.1 this
  omega

/-! ## Toolbox: hole bookkeeping -/

theorem remove_hole_arenas (d : Device) (r : BlockRef) (hsz : Nat) :
    (remove_hole d r hsz).arenas = d.arenas := rfl

theorem remove_hole_pool (d : Device) (r : BlockRef) (hsz : Nat) :
    (remove_hole d r hsz).blockPool = d.blockPool := rfl

theorem remove_hole_shift (d : Device) (r : BlockRef) (hsz : Nat) :
    (remove_hole d r hsz).arenaShift = d.arenaShift := rfl

theorem remove_hole_nextId (d : Device) (r : BlockRef) (hsz : Nat) :
    (remove_hole d r hsz).nextArenaId = d.nextArenaId := rfl

theorem remove_hole_len (d : Device) (r : BlockRef) (hsz : Nat) :
    (remove_hole d r hsz).freeLists.length = d.freeLists.length := by
  simp [remove_hole]

theorem remove_hole_getD_same (d : Device) (r : BlockRef) (hsz : Nat)
    (h : get_size_class hsz false < d.freeLists.length) :
    (remove_hole d r hsz).freeLists.getD (get_size_class hsz false) [] =
      (d.freeLists.getD (get_size_class hsz false) []).erase r :=
  getD_set_self h

theorem remove_hole_getD_other (d : Device) (r : BlockRef) (hsz : Nat)
    {j : Nat} (h : get_size_class hsz false ≠ j) :
    (remove_hole d r hsz).freeLists.getD j [] = d.freeLists.getD j [] :=
  getD_set_ne h

theorem add_hole_arenas (d : Device) (r : BlockRef) (hsz : Nat) :
    (add_hole d r hsz).arenas = d.arenas := rfl

theorem add_hole_pool (d : Device) (r : BlockRef) (hsz : Nat) :
    (add_hole d r hsz).blockPool = d.blockPool := rfl

theorem add_hole_shift (d : Device) (r : BlockRef) (hsz : Nat) :
    (add_hole d r hsz).arenaShift = d.arenaShift := rfl

theorem add_hole_nextId (d : Device) (r : BlockRef) (hsz : Nat) :
    (add_hole d r hsz).nextArenaId = d.nextArenaId := rfl

theorem add_hole_len (d : Device) (r : BlockRef) (hsz : Nat) :
    (add_hole d r hsz).freeLists.length = d.freeLists.length := by
  simp [add_hole]

theorem add_hole_getD_same (d : Device) (r : BlockRef) (hsz : Nat)
    (h : get_size_class hsz false < d.freeLists.length) :
    (add_hole d r hsz).freeLists.getD (get_size_class hsz false) [] =
      (d.freeLists.getD (get_size_class hsz false) []) ++ [r] :=
  getD_set_self h

theorem add_hole_getD_other (d : Device) (r : BlockRef) (hsz : Nat)
    {j : Nat} (h : get_size_class hsz false ≠ j) :
    (add_hole d r hsz).freeLists.getD j [] = d.freeLists.getD j [] :=
  getD_set_ne h

theorem updateArena_lists (d : Device) (aid : Nat) (f : List Block → List Block) :
    (updateArena d aid f).freeLists = d.freeLists ∧
    (updateArena d aid f).freeListMask = d.freeListMask ∧
    (updateArena d aid f).blockPool = d.blockPool ∧
    (updateArena d aid f).arenaShift = d.arenaShift ∧
    (updateArena d aid f).nextArenaId = d.nextArenaId :=
  ⟨rfl, rfl, rfl, rfl, rfl⟩

theorem updateArena_map_id (d : Device) (aid : Nat)
    (f : List Block → List Block) :
    (updateArena d aid f).arenas.map Arena.id = d.arenas.map Arena.id := by
  simp only [updateArena, List.map_map]
  refine List.map_congr_left fun a _ => ?_
  by_cases h : a.id = aid <;> simp [h]

theorem num_free_lists_le_32 : RADV_SHADER_ALLOC_NUM_FREE_LISTS ≤ 32 := by
  norm_num [RADV_SHADER_ALLOC_NUM_FREE_LISTS]

theorem remove_hole_mask_cases (d : Device) (r : BlockRef) (hsz : Nat) :
    (remove_hole d r hsz).freeListMask =
      if ((d.freeLists.getD (get_size_class hsz false) []).erase r).isEmpty then
        d.freeListMask &&& (BITFIELD_MASK 32 ^^^ (1 <<< get_size_class hsz false))
      else d.freeListMask := rfl

theorem maskOK_remove_hole {d : Device} (hlen : flLenOK d) (hm : maskOK d)
    (r : BlockRef) (hsz : Nat) : maskOK (remove_hole d r hsz) := by
  obtain ⟨hbit, hhi⟩ := hm
  have h32 := num_free_lists_le_32
  have hk0lt := get_size_class_lt hsz false
  have hk0len : get_size_class hsz false < d.freeLists.length := by
    rw [hlen]; exact hk0lt
  constructor
  · intro j hj
    rw [remove_hole_mask_cases]
    by_cases hjk : get_size_class hsz false = j
    · subst hjk
      rw [remove_hole_getD_same d r hsz hk0len]
      by_cases he :
          ((d.freeLists.getD (get_size_class hsz false) []).erase r).isEmpty
      · rw [if_pos he, testBit_clear (by omega) (by omega)]
        simp only [List.isEmpty_iff] at he
        rw [he]
        simp
      · rw [if_neg he]
        simp only [List.isEmpty_iff] at he
        rw [hbit _ hj]
        constructor
        · intro _; exact he
        · intro _ hc
          exact he (by rw [hc]; rfl)
    · rw [remove_hole_getD_other d r hsz hjk]
      by_cases he :
          ((d.freeLists.getD (get_size_class hsz false) []).erase r).isEmpty
      · rw [if_pos he, testBit_clear (by omega) (by omega)]
        have hne : ¬(j = get_size_class hsz false) := fun hc => hjk hc.symm
        simp only [hne, decide_False, Bool.not_false, Bool.and_true]
        exact hbit _ hj
      · rw [if_neg he]
        exact hbit _ hj
  · rw [remove_hole_mask_cases]
    by_cases he :
        ((d.freeLists.getD (get_size_class hsz false) []).erase r).isEmpty
    · rw [if_pos he]
      exact Nat.lt_of_le_of_lt Nat.and_le_left hhi
    · rw [if_neg he]
      exact hhi

theorem maskOK_add_hole {d : Device} (hlen : flLenOK d) (hm : maskOK d)
    (r : BlockRef) (hsz : Nat) : maskOK (add_hole d r hsz) := by
  obtain ⟨hbit, hhi⟩ := hm
  have hk0lt := get_size_class_lt hsz false
  have hk0len : get_size_class hsz false < d.freeLists.length := by
    rw [hlen]; exact hk0lt
  constructor
  · intro j hj
    by_cases hjk : get_size_class hsz false = j
    · subst hjk
      rw [add_hole_getD_same d r hsz hk0len]
      show (d.freeListMask ||| _).testBit _ ↔ _
      rw [testBit_setbit]
      simp
    · rw [add_hole_getD_other d r hsz hjk]
      show (d.freeListMask ||| _).testBit _ ↔ _
      rw [testBit_setbit]
      simp only [hjk, decide_False, Bool.or_false]
      exact hbit _ hj
  · show (d.freeListMask ||| _) < _
    rw [Nat.shiftLeft_eq 1 _, Nat.one_mul]
    exact Nat.or_lt_two_pow hhi
      (Nat.pow_lt_pow_right (by norm_num) hk0lt)

theorem refsNodup_remove_hole {d : Device} (hlen : flLenOK d)
    (hnd : refsNodup d) (r : BlockRef) (hsz : Nat) :
    refsNodup (remove_hole d r hsz) := by
  have hk0len : get_size_class hsz false < d.freeLists.length := by
    rw [hlen]; exact get_size_class_lt hsz false
  unfold refsNodup at *
  show ((d.freeLists.set _ _).flatten).Nodup
  rw [flatten_set_decomp _ _ _ hk0len]
  rw [flatten_decomp d.freeLists (get_size_class hsz false) hk0len] at hnd
  refine List.Sublist.nodup ?_ hnd
  exact ((List.Sublist.refl _).append (List.erase_sublist r _)).append
    (List.Sublist.refl _)

theorem nodup_insert_middle {α : Type _} {A B C : List α} {r : α}
    (h : (A ++ B ++ C).Nodup) (hr : r ∉ A ++ B ++ C) :
    (A ++ (B ++ [r]) ++ C).Nodup := by
  have hperm : (A ++ (B ++ [r]) ++ C).Perm (A ++ B ++ C ++ [r]) := by
    have e1 : A ++ (B ++ [r]) ++ C = A ++ B ++ ([r] ++ C) := by
      simp [List.append_assoc]
    have e2 : A ++ B ++ C ++ [r] = A ++ B ++ (C ++ [r]) := by
      simp [List.append_assoc]
    rw [e1, e2]
    exact (List.Perm.refl (A ++ B)).append List.perm_append_comm
  refine hperm.nodup_iff.2 ?_
  rw [List.nodup_append]
  exact ⟨h, List.nodup_singleton r, fun x hx hc => by
    rw [List.mem_singleton.1 hc] at hx; exact hr hx⟩

theorem refsNodup_add_hole {d : Device} (hlen : flLenOK d)
    (hnd : refsNodup d) {r : BlockRef} (hsz : Nat)
    (hfresh : r ∉ d.freeLists.flatten) :
    refsNodup (add_hole d r hsz) := by
  have hk0len : get_size_class hsz false < d.freeLists.length := by
    rw [hlen]; exact get_size_class_lt hsz false
  unfold refsNodup at *
  show ((d.freeLists.set _ _).flatten).Nodup
  rw [flatten_set_decomp _ _ _ hk0len]
  rw [flatten_decomp d.freeLists (get_size_class hsz false) hk0len] at hnd hfresh
  exact nodup_insert_middle hnd hfresh

/-- Membership in a post-`remove_hole` free list implies membership before. -/
theorem mem_getD_remove_hole {d : Device} {r : BlockRef} {hsz : Nat}
    {j : Nat} {x : BlockRef}
    (hx : x ∈ (remove_hole d r hsz).freeLists.getD j []) :
    x ∈ d.freeLists.getD j [] := by
  by_cases hjk : get_size_class hsz false = j
  · subst hjk
    by_cases hk0len : get_size_class hsz false < d.freeLists.length
    · rw [remove_hole_getD_same d r hsz hk0len] at hx
      exact (List.erase_sublist r _).mem hx
    · have hset : d.freeLists.set (get_size_class hsz false)
          ((d.freeLists.getD (get_size_class hsz false) []).erase r) =
            d.freeLists :=
        List.set_eq_of_length_le (by omega)
      rw [show (remove_hole d r hsz).freeLists =
        d.freeLists.set (get_size_class hsz false)
          ((d.freeLists.getD (get_size_class hsz false) []).erase r) from rfl,
        hset] at hx
      exact hx
  · rw [remove_hole_getD_other d r hsz hjk] at hx
    exact hx

/-- Membership in a post-`add_hole` free list: either an old member, or the
added reference in the class of `hsz`. -/
theorem mem_getD_add_hole {d : Device} {r : BlockRef} {hsz : Nat}
    {j : Nat} {x : BlockRef} (hlen : flLenOK d)
    (hx : x ∈ (add_hole d r hsz).freeLists.getD j []) :
    x ∈ d.freeLists.getD j [] ∨
      (x = r ∧ j = get_size_class hsz false) := by
  have hk0len : get_size_class hsz false < d.freeLists.length := by
    rw [hlen]; exact get_size_class_lt hsz false
  by_cases hjk : get_size_class hsz false = j
  · subst hjk
    rw [add_hole_getD_same d r hsz hk0len] at hx
    rcases List.mem_append.1 hx with h | h
    · exact Or.inl h
    · exact Or.inr ⟨List.mem_singleton.1 h, rfl⟩
  · rw [add_hole_getD_other d r hsz hjk] at hx
    exact Or.inl hx

/-! ## Toolbox: reference lookup -/

theorem find?_id_of_nodup {l : List Arena} (hnd : (l.map Arena.id).Nodup)
    {a : Arena} (ha : a ∈ l) {i : Nat} (hi : i = a.id) :
    l.find? (fun x => x.id == i) = some a := by
  subst hi
  induction l with
  | nil => simp at ha
  | cons c rest ih =>
    rw [List.map_cons, List.nodup_cons] at hnd
    rcases List.mem_cons.1 ha with rfl | ha'
    · exact List.find?_cons_of_pos _ (by simp)
    · have hc : c.id ≠ a.id := by
        intro he
        exact hnd.1 (he ▸ List.mem_map_of_mem Arena.id ha')
      rw [List.find?_cons_of_neg _ (by simpa using hc)]
      exact ih hnd.2 ha'

theorem lookupRef_of_wf {d : Device} (hids : (d.arenas.map Arena.id).Nodup)
    (haren : arenasOK d) {a : Arena} (ha : a ∈ d.arenas) {b : Block}
    (hb : b ∈ a.entries) : lookupRef d (a.id, b.offset) = some b := by
  unfold lookupRef
  rw [find?_id_of_nodup hids ha rfl]
  obtain ⟨htiles, -, -⟩ := haren a ha
  exact find?_offset_of_tiles htiles hb

/-- The predicate the free-list scan applies to one reference: the referenced
hole exists and fits the request. -/
def refFits (d : Device) (size : Nat) (r : BlockRef) : Bool :=
  match lookupRef d r with
  | some b => decide (size ≤ b.size)
  | none => false

theorem findFit_sound {d : Device} {size : Nat} {r : BlockRef} {b : Block} :
    ∀ {refs : List BlockRef}, findFit d refs size = some (r, b) →
      r ∈ refs ∧ lookupRef d r = some b ∧ size ≤ b.size := by
  intro refs
  induction refs with
  | nil => intro h; simp [findFit] at h
  | cons x rest ih =>
    intro h
    unfold findFit at h
    cases hl : lookupRef d x with
    | none =>
      rw [hl] at h
      dsimp only at h
      have := ih h
      exact ⟨List.mem_cons_of_mem _ this.1, this.2⟩
    | some bx =>
      rw [hl] at h
      dsimp only at h
      by_cases hsz : bx.size < size
      · rw [if_pos hsz] at h
        have := ih h
        exact ⟨List.mem_cons_of_mem _ this.1, this.2⟩
      · rw [if_neg hsz] at h
        obtain ⟨rfl, rfl⟩ := Prod.mk.injEq .. ▸ (Option.some.inj h)
        exact ⟨List.mem_cons_self _ _, hl, by omega⟩

theorem findFit_eq_find? (d : Device) (size : Nat) :
    ∀ refs : List BlockRef,
      (findFit d refs size).map Prod.fst = refs.find? (refFits d size) := by
  intro refs
  induction refs with
  | nil => simp [findFit]
  | cons x rest ih =>
    unfold findFit
    cases hl : lookupRef d x with
    | none =>
      dsimp only
      rw [List.find?_cons_of_neg _ (by simp [refFits, hl])]
      exact ih
    | some bx =>
      dsimp only
      by_cases hsz : bx.size < size
      · rw [if_pos hsz, List.find?_cons_of_neg _ (by simp [refFits, hl]; omega)]
        exact ih
      · rw [if_neg hsz, List.find?_cons_of_pos _ (by simp [refFits, hl]; omega)]
        rfl

theorem no_block_at_interior {a : Arena} (htiles : tilesFrom 0 a.entries a.size)
    {hole : Block} (hh : hole ∈ a.entries) {o : Nat}
    (ho : hole.offset < o) (ho2 : o < hole.offset + hole.size) :
    ∀ b ∈ a.entries, b.offset ≠ o := by
  intro b hb hc
  have hbne : b.offset ≠ hole.offset := by omega
  have hd := tilesFrom_disjoint htiles b hb hole hh hbne
  have hbb := tilesFrom_bounds htiles b hb
  rcases hd with hle | hle <;> omega

/-! ## Toolbox: entry-list surgery -/

theorem tilesFrom_map_state {g : Block → Block}
    (hg : ∀ b, (g b).offset = b.offset ∧ (g b).size = b.size)
    {es : List Block} : ∀ {s e : Nat}, tilesFrom s es e → tilesFrom s (es.map g) e := by
  induction es with
  | nil => intro s e h; exact h
  | cons b rest ih =>
    intro s e h
    obtain ⟨h1, h2, h3, h4⟩ := h
    exact ⟨(hg b).1.trans h1, by rw [(hg b).2]; exact h2,
      by rw [(hg b).2]; exact h3, by rw [(hg b).2]; exact ih h4⟩

theorem noAdjFree_map {g : Block → Block}
    (hg : ∀ b, (g b).state = BlockState.free → b.state = BlockState.free)
    {es : List Block} (h : noAdjFree es) : noAdjFree (es.map g) := by
  unfold noAdjFree at *
  rw [List.chain'_map]
  exact h.imp fun a b hab => fun ⟨ha, hb⟩ => hab ⟨hg a ha, hg b hb⟩

theorem map_nomatch {g : Block → Block} {off : Nat}
    (hg : ∀ b, b.offset ≠ off → g b = b) {es : List Block}
    (hes : ∀ b ∈ es, b.offset ≠ off) : es.map g = es := by
  have := List.map_congr_left (f := g) (g := fun b => b)
    fun b hb => hg b (hes b hb)
  simpa using this

theorem splitEntries_cons (off size : Nat) (owner : Owner) (b : Block)
    (rest : List Block) :
    splitEntries off size owner (b :: rest) =
      (if b.offset = off then
        [{ offset := off, size := size, state := .allocated owner },
         { offset := off + size, size := b.size - size,
           state := BlockState.free }]
       else [b]) ++ splitEntries off size owner rest := rfl

theorem splitEntries_append (off size : Nat) (owner : Owner)
    (A B : List Block) :
    splitEntries off size owner (A ++ B) =
      splitEntries off size owner A ++ splitEntries off size owner B := by
  unfold splitEntries
  exact List.flatMap_append A B _

theorem splitEntries_nomatch {off size : Nat} {owner : Owner}
    {es : List Block} (hes : ∀ b ∈ es, b.offset ≠ off) :
    splitEntries off size owner es = es := by
  induction es with
  | nil => rfl
  | cons b rest ih =>
    rw [splitEntries_cons, if_neg (hes b (List.mem_cons_self _ _)),
      ih fun c hc => hes c (List.mem_cons_of_mem _ hc)]
    rfl

theorem splitEntries_eq {off size : Nat} {owner : Owner} {hole : Block}
    {A B : List Block} (hh : hole.offset = off)
    (hA : ∀ b ∈ A, b.offset ≠ off) (hB : ∀ b ∈ B, b.offset ≠ off) :
    splitEntries off size owner (A ++ hole :: B) =
      A ++ ({ offset := off, size := size, state := .allocated owner } ::
        { offset := off + size, size := hole.size - size,
          state := BlockState.free } :: B) := by
  rw [splitEntries_append, splitEntries_cons, if_pos hh,
    splitEntries_nomatch hA, splitEntries_nomatch hB]
  simp

/-- In a tiled decomposition `A ++ hole :: B`, no block of `A` or `B` sits at
`hole.offset`. -/
theorem tiles_decomp_offsets {a : Arena} {A B : List Block} {hole : Block}
    (htiles : tilesFrom 0 a.entries a.size) (hdec : a.entries = A ++ hole :: B) :
    (∀ b ∈ A, b.offset < hole.offset) ∧
      (∀ b ∈ B, hole.offset + hole.size ≤ b.offset) := by
  rw [hdec] at htiles
  obtain ⟨m, hA, hrest⟩ := tilesFrom_append.1 htiles
  obtain ⟨hoff, hpos, hmod, hB⟩ := hrest
  constructor
  · intro b hb
    have := tilesFrom_bounds hA b hb
    omega
  · intro b hb
    have := tilesFrom_bounds hB b hb
    omega

theorem arena_id_inj {l : List Arena} (hnd : (l.map Arena.id).Nodup)
    {x y : Arena} (hx : x ∈ l) (hy : y ∈ l) (h : x.id = y.id) : x = y := by
  have e1 := find?_id_of_nodup hnd hx rfl
  have e2 := find?_id_of_nodup (i := x.id) hnd hy h
  rw [e1] at e2
  exact Option.some.inj e2

/-! ## Toolbox: flatten uniqueness -/

theorem nodup_flatten_getD {β : Type _} {L : List (List β)}
    (h : L.flatten.Nodup) {k : Nat} : (L.getD k []).Nodup := by
  by_cases hk : k < L.length
  · rw [flatten_decomp L k hk] at h
    rw [List.nodup_append] at h
    rw [List.nodup_append] at h
    exact h.1.2.1
  · rw [List.getD_eq_getElem?_getD, List.getElem?_eq_none (by omega)]
    exact List.nodup_nil

theorem nodup_flatten_unique {β : Type _} {L : List (List β)}
    (h : L.flatten.Nodup) {k j : Nat} (hk : k < L.length) (hj : j < L.length)
    {r : β} (hrk : r ∈ L.getD k []) (hrj : r ∈ L.getD j []) : k = j := by
  rcases Nat.lt_trichotomy k j with hlt | heq | hlt
  · exfalso
    rw [flatten_decomp L k hk, List.nodup_append] at h
    refine h.2.2 (List.mem_append_right _ hrk) ?_
    have heq : L.getD j [] = (L.drop (k + 1)).getD (j - (k + 1)) [] := by
      rw [List.getD_eq_getElem?_getD, List.getD_eq_getElem?_getD,
        List.getElem?_drop]
      have hidx : k + 1 + (j - (k + 1)) = j := by omega
      rw [hidx]
    rw [heq] at hrj
    exact mem_getD_mem_flatten hrj
  · exact heq
  · exfalso
    rw [flatten_decomp L j hj, List.nodup_append] at h
    refine h.2.2 (List.mem_append_right _ hrj) ?_
    have heq : L.getD k [] = (L.drop (j + 1)).getD (k - (j + 1)) [] := by
      rw [List.getD_eq_getElem?_getD, List.getD_eq_getElem?_getD,
        List.getElem?_drop]
      have hidx : j + 1 + (k - (j + 1)) = k := by omega
      rw [hidx]
    rw [heq] at hrk
    exact mem_getD_mem_flatten hrk

/-! ## Well-formedness preservation: the hole paths of alloc -/

theorem findFit_wf {d : Device} (hwf : DeviceWF d) {k : Nat}
    (hk : k < RADV_SHADER_ALLOC_NUM_FREE_LISTS) {size : Nat} {r : BlockRef}
    {hole : Block}
    (hfind : findFit d (d.freeLists.getD k []) size = some (r, hole)) :
    r ∈ d.freeLists.getD k [] ∧ size ≤ hole.size ∧
    ∃ a ∈ d.arenas, a.id = r.1 ∧ hole ∈ a.entries ∧ hole.offset = r.2 ∧
      hole.state = BlockState.free ∧ get_size_class hole.size false = k := by
  obtain ⟨hlen, haren, hids, hrefs, hnd, hmask⟩ := hwf
  obtain ⟨hrmem, hlook, hfit⟩ := findFit_sound hfind
  obtain ⟨a, ha, haid, b, hb, hboff, hbfree, hbcls⟩ := hrefs k hk r hrmem
  have hlook2 : lookupRef d r = some b := by
    unfold lookupRef
    rw [find?_id_of_nodup hids.1 ha haid.symm]
    have hfo := find?_offset_of_tiles (haren a ha).1 hb
    rw [hboff] at hfo
    exact hfo
  have hhb : hole = b := Option.some.inj (hlook.symm.trans hlook2)
  subst hhb
  exact ⟨hrmem, hfit, a, ha, haid, hb, hboff, hbfree, hbcls⟩

theorem flipAt_offset (off : Nat) (owner : Owner) (b : Block) :
    (flipAt off owner b).offset = b.offset := by
  unfold flipAt; by_cases h : b.offset = off <;> simp [h]

theorem flipAt_size (off : Nat) (owner : Owner) (b : Block) :
    (flipAt off owner b).size = b.size := by
  unfold flipAt; by_cases h : b.offset = off <;> simp [h]

theorem flipAt_free {off : Nat} {owner : Owner} {b : Block}
    (h : (flipAt off owner b).state = BlockState.free) :
    b.state = BlockState.free := by
  unfold flipAt at h
  by_cases hb : b.offset = off
  · rw [if_pos hb] at h; exact absurd h (by simp)
  · rwa [if_neg hb] at h

theorem flipAt_of_ne {off : Nat} (owner : Owner) {b : Block}
    (h : b.offset ≠ off) : flipAt off owner b = b := if_neg h

theorem flipAt_self {off : Nat} (owner : Owner) {b : Block}
    (h : b.offset = off) :
    flipAt off owner b = { b with state := .allocated owner } := if_pos h

theorem mem_updateArena_self {d : Device} {aid : Nat}
    {f : List Block → List Block} {a : Arena} (ha : a ∈ d.arenas)
    (haid : a.id = aid) :
    ({ a with entries := f a.entries } : Arena) ∈ (updateArena d aid f).arenas := by
  have h := List.mem_map_of_mem
    (fun x : Arena => if x.id = aid then { x with entries := f x.entries } else x) ha
  dsimp only at h
  rwa [if_pos haid] at h

theorem mem_updateArena_other {d : Device} {aid : Nat}
    {f : List Block → List Block} {a : Arena} (ha : a ∈ d.arenas)
    (haid : a.id ≠ aid) : a ∈ (updateArena d aid f).arenas := by
  have h := List.mem_map_of_mem
    (fun x : Arena => if x.id = aid then { x with entries := f x.entries } else x) ha
  dsimp only at h
  rwa [if_neg haid] at h

theorem mem_updateArena_inv {d : Device} {aid : Nat}
    {f : List Block → List Block} {x : Arena}
    (hx : x ∈ (updateArena d aid f).arenas) :
    ∃ y ∈ d.arenas,
      (y.id = aid ∧ x = { y with entries := f y.entries }) ∨
      (y.id ≠ aid ∧ x = y) := by
  obtain ⟨y, hy, hfy⟩ := List.mem_map.1 hx
  refine ⟨y, hy, ?_⟩
  by_cases hyid : y.id = aid
  · rw [if_pos hyid] at hfy; exact Or.inl ⟨hyid, hfy.symm⟩
  · rw [if_neg hyid] at hfy; exact Or.inr ⟨hyid, hfy.symm⟩

theorem wf_exact_path {d : Device} (hwf : DeviceWF d) {k : Nat}
    (hk : k < RADV_SHADER_ALLOC_NUM_FREE_LISTS) {size : Nat} {r : BlockRef}
    {hole : Block}
    (hfind : findFit d (d.freeLists.getD k []) size = some (r, hole))
    (owner : Owner) :
    DeviceWF (markAllocated (remove_hole d r hole.size) r owner) := by
  obtain ⟨hrmem, hfit, a, ha, haid, hhole, hoff, hfree, hcls⟩ :=
    findFit_wf hwf hk hfind
  obtain ⟨hlen, haren, hids, hrefs, hnd, hmask⟩ := hwf
  have hklen : k < d.freeLists.length := by rw [hlen]; exact hk
  have hgpres : ∀ b : Block,
      (flipAt r.2 owner b).offset = b.offset ∧
      (flipAt r.2 owner b).size = b.size :=
    fun b => ⟨flipAt_offset _ _ _, flipAt_size _ _ _⟩
  refine ⟨?_, ?_, ?_, ?_, ?_, ?_⟩
  · show (remove_hole d r hole.size).freeLists.length = _
    rw [remove_hole_len]; exact hlen
  · -- arenasOK
    intro x hx
    obtain ⟨y, hy, hcase⟩ := mem_updateArena_inv hx
    rcases hcase with ⟨hyid, hxeq⟩ | ⟨hyid, hxeq⟩
    · have hya : y = a := arena_id_inj hids.1 hy ha (hyid.trans haid.symm)
      obtain ⟨htiles, hadj, -⟩ := haren y hy
      rw [hxeq]
      refine ⟨tilesFrom_map_state hgpres htiles,
        noAdjFree_map (fun b => flipAt_free) hadj, ?_⟩
      refine ⟨{ hole with state := .allocated owner }, ?_, by simp⟩
      have hm := List.mem_map_of_mem (flipAt r.2 owner)
        (show hole ∈ y.entries by rw [hya]; exact hhole)
      rwa [flipAt_self owner hoff] at hm
    · rw [hxeq]
      exact haren y hy
  · -- idsOK
    constructor
    · show ((updateArena _ _ _).arenas.map Arena.id).Nodup
      rw [updateArena_map_id]
      exact hids.1
    · intro x hx
      obtain ⟨y, hy, hcase⟩ := mem_updateArena_inv hx
      have hxid : x.id = y.id := by
        rcases hcase with ⟨-, hxeq⟩ | ⟨-, hxeq⟩ <;> (subst hxeq; rfl)
      rw [show (markAllocated (remove_hole d r hole.size) r owner).nextArenaId
        = d.nextArenaId from rfl, hxid]
      exact hids.2 y hy
  · -- refsOK
    intro k2 hk2 r2 hr2
    have hk2len : k2 < d.freeLists.length := by rw [hlen]; exact hk2
    have hr2pre : r2 ∈ d.freeLists.getD k2 [] := mem_getD_remove_hole hr2
    have hr2ne : r2 ≠ r := by
      intro hc
      subst hc
      by_cases hkk : get_size_class hole.size false = k2
      · rw [show (markAllocated (remove_hole d r2 hole.size) r2 owner).freeLists
          = (remove_hole d r2 hole.size).freeLists from rfl] at hr2
        rw [← hkk] at hr2
        rw [remove_hole_getD_same d r2 hole.size (by rw [hcls]; exact hklen)] at hr2
        exact ((nodup_flatten_getD hnd).mem_erase_iff.1 hr2).1 rfl
      · rw [show (markAllocated (remove_hole d r2 hole.size) r2 owner).freeLists
          = (remove_hole d r2 hole.size).freeLists from rfl,
          remove_hole_getD_other d r2 hole.size hkk] at hr2
        rw [hcls] at hkk
        exact hkk (nodup_flatten_unique hnd hk2len hklen hr2 hrmem).symm
    obtain ⟨a2, ha2, ha2id, b2, hb2, hb2off, hb2free, hb2cls⟩ :=
      hrefs k2 hk2 r2 hr2pre
    by_cases ha2r : a2.id = r.1
    · have ha2a : a2 = a := arena_id_inj hids.1 ha2 ha (ha2r.trans haid.symm)
      subst ha2a
      have hb2o2 : b2.offset ≠ r.2 := by
        intro hc
        apply hr2ne
        have h1 : r2.1 = r.1 := by rw [← ha2id, ha2r]
        have h2 : r2.2 = r.2 := by rw [← hb2off, hc]
        exact Prod.ext h1 h2
      refine ⟨{ a2 with entries := a2.entries.map (flipAt r.2 owner) }, ?_,
        ha2id, ?_⟩
      · exact mem_updateArena_self ha2 ha2r
      · refine ⟨b2, ?_, hb2off, hb2free, hb2cls⟩
        have hm := List.mem_map_of_mem (flipAt r.2 owner) hb2
        rwa [flipAt_of_ne owner hb2o2] at hm
    · refine ⟨a2, mem_updateArena_other ha2 ha2r, ha2id, b2, hb2, hb2off,
        hb2free, hb2cls⟩
  · -- refsNodup
    exact refsNodup_remove_hole hlen hnd r hole.size
  · -- maskOK
    exact maskOK_remove_hole hlen hmask r hole.size

theorem mem_flatten_getD {β : Type _} {L : List (List β)} {r : β}
    (h : r ∈ L.flatten) : ∃ j, j < L.length ∧ r ∈ L.getD j [] := by
  obtain ⟨l, hl, hrl⟩ := List.mem_flatten.1 h
  obtain ⟨j, hj, hLj⟩ := List.mem_iff_getElem.1 hl
  refine ⟨j, hj, ?_⟩
  rw [List.getD_eq_getElem?_getD, List.getElem?_eq_getElem hj, hLj]
  exact hrl

theorem wf_split_path {d : Device} (hwf : DeviceWF d) {k : Nat}
    (hk : k < RADV_SHADER_ALLOC_NUM_FREE_LISTS) {size : Nat} {r : BlockRef}
    {hole : Block}
    (hfind : findFit d (d.freeLists.getD k []) size = some (r, hole))
    (owner : Owner) (hszpos : 0 < size)
    (hszmod : size % RADV_SHADER_ALLOC_ALIGNMENT = 0)
    (hlt : size < hole.size) :
    DeviceWF (add_hole
      (updateArena (remove_hole d r hole.size) r.1 (splitEntries r.2 size owner))
      (r.1, r.2 + size) (hole.size - size)) := by
  obtain ⟨hrmem, hfit, a, ha, haid, hhole, hoff, hfree, hcls⟩ :=
    findFit_wf hwf hk hfind
  obtain ⟨hlen, haren, hids, hrefs, hnd, hmask⟩ := hwf
  have hklen : k < d.freeLists.length := by rw [hlen]; exact hk
  obtain ⟨A, B, hAB⟩ := List.append_of_mem hhole
  obtain ⟨htilesa, hadja, hallo_a⟩ := haren a ha
  obtain ⟨hAoff, hBoff⟩ := tiles_decomp_offsets htilesa hAB
  have hholemod : hole.size % RADV_SHADER_ALLOC_ALIGNMENT = 0 :=
    (tilesFrom_bounds htilesa hole hhole).2.2.2
  have hsubmod : (hole.size - size) % RADV_SHADER_ALLOC_ALIGNMENT = 0 := by
    have e : RADV_SHADER_ALLOC_ALIGNMENT = 256 := rfl
    rw [e] at hszmod hholemod ⊢
    omega
  have hAne : ∀ b ∈ A, b.offset ≠ r.2 := by
    intro b hb
    have := hAoff b hb
    omega
  have hBne : ∀ b ∈ B, b.offset ≠ r.2 := by
    intro b hb
    have h1 := hBoff b hb
    have h2 := (tilesFrom_bounds htilesa hole hhole).2.2.1
    omega
  have hsplit : splitEntries r.2 size owner a.entries =
      A ++ ({ offset := r.2, size := size, state := .allocated owner } ::
        { offset := r.2 + size, size := hole.size - size,
          state := BlockState.free } :: B) := by
    rw [hAB]
    exact splitEntries_eq hoff hAne hBne
  -- the entries of the updated arena tile and have no adjacent holes
  obtain ⟨m, htA, htrest⟩ := tilesFrom_append.1 (show tilesFrom 0 (A ++ hole :: B) a.size by rw [← hAB]; exact htilesa)
  obtain ⟨hom, hpos', hmod', htB⟩ := htrest
  have hom2 : r.2 = m := by rw [← hoff, hom]
  have htiles' : tilesFrom 0 (A ++
      ({ offset := r.2, size := size, state := .allocated owner } ::
        { offset := r.2 + size, size := hole.size - size,
          state := BlockState.free } :: B)) a.size := by
    refine tilesFrom_append.2 ⟨m, htA, ?_⟩
    refine ⟨hom2, hszpos, hszmod, ?_⟩
    refine ⟨?_, ?_, hsubmod, ?_⟩
    · show r.2 + size = m + size
      rw [hom2]
    · show 0 < hole.size - size
      omega
    · show tilesFrom (m + size + (hole.size - size)) B a.size
      have heq : m + size + (hole.size - size) = m + hole.size := by omega
      rw [heq]
      exact htB
  have hadj' : noAdjFree (A ++
      ({ offset := r.2, size := size, state := .allocated owner } ::
        { offset := r.2 + size, size := hole.size - size,
          state := BlockState.free } :: B)) := by
    have hpre : noAdjFree (A ++ hole :: B) := by rw [← hAB]; exact hadja
    unfold noAdjFree at *
    rw [List.chain'_append] at hpre ⊢
    obtain ⟨hcA, hcHB, hbord⟩ := hpre
    rw [List.chain'_cons'] at hcHB
    obtain ⟨hheadB, hcB⟩ := hcHB
    refine ⟨hcA, ?_, ?_⟩
    · rw [List.chain'_cons]
      constructor
      · intro hcon
        exact absurd hcon.1 (by simp)
      · rw [List.chain'_cons']
        refine ⟨?_, hcB⟩
        intro y hy hcon
        exact hheadB y hy ⟨hfree, hcon.2⟩
    · intro x hx y hy
      rw [List.head?_cons, Option.mem_some_iff] at hy
      subst hy
      intro hcon
      exact absurd hcon.2 (by simp)
  have hlenD2 : flLenOK (updateArena (remove_hole d r hole.size) r.1
      (splitEntries r.2 size owner)) := by
    show (remove_hole d r hole.size).freeLists.length = _
    rw [remove_hole_len]
    exact hlen
  have hndD1 : refsNodup (remove_hole d r hole.size) :=
    refsNodup_remove_hole hlen hnd r hole.size
  have hinterior : ∀ b ∈ a.entries, b.offset ≠ r.2 + size := by
    refine no_block_at_interior htilesa hhole ?_ ?_
    · omega
    · omega
  have hfresh : ((r.1, r.2 + size) : BlockRef) ∉
      (remove_hole d r hole.size).freeLists.flatten := by
    intro hmem
    obtain ⟨j, hjlen, hjmem⟩ := mem_flatten_getD hmem
    rw [remove_hole_len] at hjlen
    have hj8 : j < RADV_SHADER_ALLOC_NUM_FREE_LISTS := by rw [← hlen]; exact hjlen
    have hjd : ((r.1, r.2 + size) : BlockRef) ∈ d.freeLists.getD j [] :=
      mem_getD_remove_hole hjmem
    obtain ⟨a3, ha3, ha3id, b3, hb3, hb3off, -, -⟩ := hrefs j hj8 _ hjd
    have ha3a : a3 = a := arena_id_inj hids.1 ha3 ha (ha3id.trans haid.symm)
    subst ha3a
    exact hinterior b3 hb3 hb3off
  refine ⟨?_, ?_, ?_, ?_, ?_, ?_⟩
  · -- flLenOK
    show (add_hole _ _ _).freeLists.length = _
    rw [add_hole_len]
    show (remove_hole d r hole.size).freeLists.length = _
    rw [remove_hole_len]
    exact hlen
  · -- arenasOK
    intro x hx
    have hx2 : x ∈ (updateArena (remove_hole d r hole.size) r.1
        (splitEntries r.2 size owner)).arenas := hx
    obtain ⟨y, hy, hcase⟩ := mem_updateArena_inv hx2
    rcases hcase with ⟨hyid, hxeq⟩ | ⟨hyid, hxeq⟩
    · have hya : y = a := arena_id_inj hids.1 hy ha (hyid.trans haid.symm)
      rw [hxeq, hya, hsplit]
      refine ⟨htiles', hadj', ?_⟩
      refine ⟨{ offset := r.2, size := size, state := .allocated owner }, ?_,
        by simp⟩
      exact List.mem_append_right _ (List.mem_cons_self _ _)
    · rw [hxeq]
      exact haren y hy
  · -- idsOK
    constructor
    · show ((updateArena _ _ _).arenas.map Arena.id).Nodup
      rw [updateArena_map_id]
      exact hids.1
    · intro x hx
      have hx2 : x ∈ (updateArena (remove_hole d r hole.size) r.1
          (splitEntries r.2 size owner)).arenas := hx
      obtain ⟨y, hy, hcase⟩ := mem_updateArena_inv hx2
      have hxid : x.id = y.id := by
        rcases hcase with ⟨-, hxeq⟩ | ⟨-, hxeq⟩ <;> (rw [hxeq])
      show x.id < d.nextArenaId
      rw [hxid]
      exact hids.2 y hy
  · -- refsOK
    intro k2 hk2 r2 hr2
    have hk2len : k2 < d.freeLists.length := by rw [hlen]; exact hk2
    rcases mem_getD_add_hole hlenD2 hr2 with hr2d2 | ⟨hr2new, hk2new⟩
    · -- an old reference, still valid
      have hr2pre : r2 ∈ d.freeLists.getD k2 [] := mem_getD_remove_hole hr2d2
      have hr2ne : r2 ≠ r := by
        intro hc
        subst hc
        by_cases hkk : get_size_class hole.size false = k2
        · rw [← hkk] at hr2d2
          rw [show (updateArena (remove_hole d r2 hole.size) r2.1
            (splitEntries r2.2 size owner)).freeLists
              = (remove_hole d r2 hole.size).freeLists from rfl] at hr2d2
          rw [remove_hole_getD_same d r2 hole.size (by rw [hcls]; exact hklen)]
            at hr2d2
          exact ((nodup_flatten_getD hnd).mem_erase_iff.1 hr2d2).1 rfl
        · rw [show (updateArena (remove_hole d r2 hole.size) r2.1
            (splitEntries r2.2 size owner)).freeLists
              = (remove_hole d r2 hole.size).freeLists from rfl,
            remove_hole_getD_other d r2 hole.size hkk] at hr2d2
          rw [hcls] at hkk
          exact hkk (nodup_flatten_unique hnd hk2len hklen hr2d2 hrmem).symm
      obtain ⟨a2, ha2, ha2id, b2, hb2, hb2off, hb2free, hb2cls⟩ :=
        hrefs k2 hk2 r2 hr2pre
      by_cases ha2r : a2.id = r.1
      · have ha2a : a2 = a := arena_id_inj hids.1 ha2 ha (ha2r.trans haid.symm)
        subst ha2a
        have hb2o2 : b2.offset ≠ r.2 := by
          intro hc
          apply hr2ne
          have h1 : r2.1 = r.1 := by rw [← ha2id, ha2r]
          have h2 : r2.2 = r.2 := by rw [← hb2off, hc]
          exact Prod.ext h1 h2
        have hb2mem' : b2 ∈ splitEntries r.2 size owner a2.entries := by
          rw [hsplit]
          have hb2memAB : b2 ∈ A ++ hole :: B := by rw [← hAB]; exact hb2
          rcases List.mem_append.1 hb2memAB with hbA | hbHB
          · exact List.mem_append_left _ hbA
          · rcases List.mem_cons.1 hbHB with hbh | hbB
            · exact absurd (by rw [hbh, hoff]) hb2o2
            · exact List.mem_append_right _
                (List.mem_cons_of_mem _ (List.mem_cons_of_mem _ hbB))
        refine ⟨{ a2 with entries := splitEntries r.2 size owner a2.entries },
          ?_, ha2id, b2, hb2mem', hb2off, hb2free, hb2cls⟩
        exact mem_updateArena_self ha2 ha2r
      · exact ⟨a2, mem_updateArena_other ha2 ha2r, ha2id, b2, hb2, hb2off,
          hb2free, hb2cls⟩
    · -- the new remainder hole
      subst hk2new
      rw [hr2new]
      refine ⟨{ a with entries := splitEntries r.2 size owner a.entries },
        mem_updateArena_self ha haid, haid, ?_⟩
      refine ⟨{ offset := r.2 + size, size := hole.size - size, state := BlockState.free }, ?_, rfl, rfl, rfl⟩
      rw [hsplit]
      exact List.mem_append_right _
        (List.mem_cons_of_mem _ (List.mem_cons_self _ _))
  · -- refsNodup
    exact refsNodup_add_hole hlenD2 hndD1 (hole.size - size) hfresh
  · -- maskOK
    exact maskOK_add_hole hlenD2 (maskOK_remove_hole hlen hmask r hole.size)
      (r.1, r.2 + size) (hole.size - size)

/-! ## Well-formedness preservation: the new-arena path of alloc -/

theorem newArenaSize_mod {shift size : Nat}
    (h : size % RADV_SHADER_ALLOC_ALIGNMENT = 0) :
    newArenaSize shift size % RADV_SHADER_ALLOC_ALIGNMENT = 0 := by
  unfold newArenaSize
  have hA : (RADV_SHADER_ALLOC_MIN_ARENA_SIZE <<<
      min RADV_SHADER_ALLOC_MAX_ARENA_SIZE_SHIFT shift) %
        RADV_SHADER_ALLOC_ALIGNMENT = 0 := by
    rw [Nat.shiftLeft_eq]
    show (256 * 1024 * 2 ^ _) % 256 = 0
    rw [Nat.mul_assoc, Nat.mul_mod_right]
  rcases max_choice (RADV_SHADER_ALLOC_MIN_ARENA_SIZE <<<
      min RADV_SHADER_ALLOC_MAX_ARENA_SIZE_SHIFT shift) size with he | he <;>
    rw [he]
  · exact hA
  · exact h

theorem le_newArenaSize (shift size : Nat) : size ≤ newArenaSize shift size :=
  Nat.le_max_right _ _

theorem wf_newarena_rem {d : Device} (hwf : DeviceWF d) (base pool2 : Nat)
    (owner : Owner) {size asize : Nat} (hszpos : 0 < size)
    (hszmod : size % RADV_SHADER_ALLOC_ALIGNMENT = 0)
    (hamod : asize % RADV_SHADER_ALLOC_ALIGNMENT = 0)
    (hrem : 0 < asize - size) :
    DeviceWF (add_hole
      { d with
        arenas := d.arenas ++
          [{ id := d.nextArenaId, base := base, size := asize,
             entries :=
               [{ offset := 0, size := size, state := .allocated owner },
                { offset := size, size := asize - size, state := BlockState.free }] }]
        arenaShift := d.arenaShift + 1
        nextArenaId := d.nextArenaId + 1
        blockPool := pool2 }
      (d.nextArenaId, size) (asize - size)) := by
  obtain ⟨hlen, haren, hids, hrefs, hnd, hmask⟩ := hwf
  have e256 : RADV_SHADER_ALLOC_ALIGNMENT = 256 := rfl
  have hsubmod : (asize - size) % RADV_SHADER_ALLOC_ALIGNMENT = 0 := by
    rw [e256] at hszmod hamod ⊢
    omega
  have hfresh : ((d.nextArenaId, size) : BlockRef) ∉ d.freeLists.flatten := by
    intro hmem
    obtain ⟨j, hjlen, hjmem⟩ := mem_flatten_getD hmem
    have hj8 : j < RADV_SHADER_ALLOC_NUM_FREE_LISTS := by
      rw [← hlen]; exact hjlen
    obtain ⟨a3, ha3, ha3id, -⟩ := hrefs j hj8 _ hjmem
    have := hids.2 a3 ha3
    rw [ha3id] at this
    exact absurd this (by simp)
  refine ⟨?_, ?_, ?_, ?_, ?_, ?_⟩
  · show (add_hole _ _ _).freeLists.length = _
    rw [add_hole_len]
    exact hlen
  · -- arenasOK
    intro x hx
    rw [add_hole_arenas] at hx
    rcases List.mem_append.1 hx with hx | hx
    · exact haren x hx
    · rw [List.mem_singleton.1 hx]
      refine ⟨?_, ?_, ?_⟩
      · refine ⟨rfl, hszpos, hszmod, ?_⟩
        refine ⟨by show size = 0 + size; omega, hrem, hsubmod, ?_⟩
        show 0 + size + (asize - size) = asize
        omega
      · show List.Chain' BlocksSep [_, _]
        rw [List.chain'_cons]
        exact ⟨fun hc => by simp at hc, List.chain'_singleton _⟩
      · exact ⟨{ offset := 0, size := size, state := .allocated owner },
          List.mem_cons_self _ _, by simp⟩
  · -- idsOK
    constructor
    · show ((d.arenas ++ [_]).map Arena.id).Nodup
      rw [List.map_append, List.nodup_append]
      refine ⟨hids.1, by simp, ?_⟩
      intro i hi hci
      simp only [List.map_cons, List.map_nil, List.mem_singleton] at hci
      obtain ⟨y, hy, hyid⟩ := List.mem_map.1 hi
      have hbound := hids.2 y hy
      rw [hyid] at hbound
      rw [hci] at hbound
      simp at hbound
    · intro x hx
      rw [add_hole_arenas] at hx
      rcases List.mem_append.1 hx with hx | hx
      · have := hids.2 x hx
        show x.id < d.nextArenaId + 1
        omega
      · rw [List.mem_singleton.1 hx]
        show d.nextArenaId < d.nextArenaId + 1
        omega
  · -- refsOK
    intro k2 hk2 r2 hr2
    rcases mem_getD_add_hole hlen hr2 with hr2d | ⟨hr2new, hk2new⟩
    · obtain ⟨a2, ha2, ha2id, hb2⟩ := hrefs k2 hk2 r2 hr2d
      exact ⟨a2, List.mem_append_left _ ha2, ha2id, hb2⟩
    · subst hk2new
      rw [hr2new]
      refine ⟨_, List.mem_append_right _ (List.mem_singleton_self _), rfl, ?_⟩
      exact ⟨_, List.mem_cons_of_mem _ (List.mem_cons_self _ _), rfl, rfl, rfl⟩
  · exact refsNodup_add_hole hlen hnd (asize - size) hfresh
  · exact maskOK_add_hole hlen hmask _ (asize - size)

theorem wf_newarena_norem {d : Device} (hwf : DeviceWF d) (base pool2 : Nat)
    (owner : Owner) {size asize : Nat} (hszpos : 0 < size)
    (hszmod : size % RADV_SHADER_ALLOC_ALIGNMENT = 0)
    (hle : size ≤ asize) (hrem : ¬0 < asize - size) :
    DeviceWF
      { d with
        arenas := d.arenas ++
          [{ id := d.nextArenaId, base := base, size := asize,
             entries := [{ offset := 0, size := size, state := .allocated owner }] }]
        arenaShift := d.arenaShift + 1
        nextArenaId := d.nextArenaId + 1
        blockPool := pool2 } := by
  obtain ⟨hlen, haren, hids, hrefs, hnd, hmask⟩ := hwf
  have hsa : asize = size := by omega
  refine ⟨hlen, ?_, ?_, ?_, hnd, hmask⟩
  · -- arenasOK
    intro x hx
    rcases List.mem_append.1 hx with hx | hx
    · exact haren x hx
    · rw [List.mem_singleton.1 hx]
      refine ⟨?_, ?_, ?_⟩
      · refine ⟨rfl, hszpos, hszmod, ?_⟩
        show 0 + size = asize
        omega
      · exact List.chain'_singleton _
      · exact ⟨{ offset := 0, size := size, state := .allocated owner },
          List.mem_singleton_self _, by simp⟩
  · -- idsOK
    constructor
    · show ((d.arenas ++ [_]).map Arena.id).Nodup
      rw [List.map_append, List.nodup_append]
      refine ⟨hids.1, by simp, ?_⟩
      intro i hi hci
      simp only [List.map_cons, List.map_nil, List.mem_singleton] at hci
      obtain ⟨y, hy, hyid⟩ := List.mem_map.1 hi
      have hbound := hids.2 y hy
      rw [hyid] at hbound
      rw [hci] at hbound
      simp at hbound
    · intro x hx
      rcases List.mem_append.1 hx with hx | hx
      · have := hids.2 x hx
        show x.id < d.nextArenaId + 1
        omega
      · rw [List.mem_singleton.1 hx]
        show d.nextArenaId < d.nextArenaId + 1
        omega
  · -- refsOK
    intro k2 hk2 r2 hr2
    obtain ⟨a2, ha2, ha2id, hb2⟩ := hrefs k2 hk2 r2 hr2
    exact ⟨a2, List.mem_append_left _ ha2, ha2id, hb2⟩

theorem wf_newarena_path {d : Device} (hwf : DeviceWF d) (env : AllocEnv)
    {size : Nat} (hszpos : 0 < size)
    (hszmod : size % RADV_SHADER_ALLOC_ALIGNMENT = 0) (owner : Owner) :
    DeviceWF (allocNewArena env d size owner).2 := by
  have hwf' := hwf
  obtain ⟨hlen, haren, hids, hrefs, hnd, hmask⟩ := hwf'
  unfold allocNewArena
  simp only []
  split
  · exact hwf
  split
  · exact hwf
  split
  · exact hwf
  rcases hab1 : alloc_block_obj d.blockPool env.mallocOks with ⟨ok1, pool1, oks1⟩
  simp only []
  by_cases hrem : 0 < newArenaSize d.arenaShift size - size
  · rw [if_pos hrem]
    rcases hab2 : alloc_block_obj pool1 oks1 with ⟨ok2, pool2, oks2⟩
    simp only []
    split
    · exact hwf
    · exact wf_newarena_rem hwf env.newBase pool2 owner hszpos hszmod
        (newArenaSize_mod hszmod) hrem
  · rw [if_neg hrem]
    simp only []
    split
    · exact hwf
    · exact wf_newarena_norem hwf env.newBase pool1 owner hszpos hszmod
        (le_newArenaSize _ _) hrem

/-! ## Well-formedness preservation: alloc and free -/

theorem align_pos {v : Nat} (h : 0 < v) :
    0 < align v RADV_SHADER_ALLOC_ALIGNMENT := by
  unfold align
  show 0 < (v + 256 - 1) / 256 * 256
  have : 256 ≤ v + 256 - 1 := by omega
  have h2 : 1 ≤ (v + 256 - 1) / 256 := (Nat.le_div_iff_mul_le (by omega)).2 (by omega)
  omega

theorem align_mod (v : Nat) :
    align v RADV_SHADER_ALLOC_ALIGNMENT % RADV_SHADER_ALLOC_ALIGNMENT = 0 :=
  Nat.mul_mod_left _ _

theorem findFit_k_lt {d : Device} (hlen : flLenOK d) {k size : Nat}
    {r : BlockRef} {hole : Block}
    (hfind : findFit d (d.freeLists.getD k []) size = some (r, hole)) :
    k < RADV_SHADER_ALLOC_NUM_FREE_LISTS := by
  by_contra h
  rw [List.getD_eq_getElem?_getD, List.getElem?_eq_none (by rw [hlen]; omega)]
    at hfind
  simp [findFit] at hfind

theorem lookupRef_congr {d d' : Device} (h : d.arenas = d'.arenas)
    (r : BlockRef) : lookupRef d r = lookupRef d' r := by
  unfold lookupRef
  rw [h]

theorem findFit_congr {d d' : Device} (h : d.arenas = d'.arenas) (size : Nat) :
    ∀ refs : List BlockRef, findFit d refs size = findFit d' refs size := by
  intro refs
  induction refs with
  | nil => rfl
  | cons x rest ih =>
    unfold findFit
    rw [lookupRef_congr h, ih]

theorem wf_alloc {d : Device} (hwf : DeviceWF d) (env : AllocEnv)
    {size0 : Nat} (hszpos : 0 < size0) (owner : Owner) :
    DeviceWF (radv_alloc_shader_memory env d size0 owner).2 := by
  unfold radv_alloc_shader_memory
  simp only []
  by_cases hffs : ffs (d.freeListMask &&&
      (BITFIELD_MASK RADV_SHADER_ALLOC_NUM_FREE_LISTS <<<
        get_size_class (align size0 RADV_SHADER_ALLOC_ALIGNMENT) true)) = 0
  · rw [if_pos hffs]
    exact wf_newarena_path hwf env (align_pos hszpos) (align_mod size0) owner
  · rw [if_neg hffs]
    cases hfind : findFit d (d.freeLists.getD (ffs (d.freeListMask &&&
        (BITFIELD_MASK RADV_SHADER_ALLOC_NUM_FREE_LISTS <<<
          get_size_class (align size0 RADV_SHADER_ALLOC_ALIGNMENT) true)) - 1)
        []) (align size0 RADV_SHADER_ALLOC_ALIGNMENT) with
    | none =>
      simp only []
      exact wf_newarena_path hwf env (align_pos hszpos) (align_mod size0) owner
    | some rb =>
      obtain ⟨r, hole⟩ := rb
      have hk := findFit_k_lt hwf.1 hfind
      simp only []
      by_cases heq : hole.size = align size0 RADV_SHADER_ALLOC_ALIGNMENT
      · rw [if_pos heq]
        exact wf_exact_path hwf hk hfind owner
      · rw [if_neg heq]
        rcases hab : alloc_block_obj d.blockPool env.mallocOks with
          ⟨ok, pool1, oks'⟩
        simp only []
        cases ok with
        | false =>
          simp only [Bool.false_eq_true, if_neg]
          exact hwf
        | true =>
          simp only [if_pos]
          have hfit := (findFit_sound hfind).2.2
          have hlt : align size0 RADV_SHADER_ALLOC_ALIGNMENT < hole.size := by
            omega
          have hfind' : findFit { d with blockPool := pool1 }
              (d.freeLists.getD (ffs (d.freeListMask &&&
                (BITFIELD_MASK RADV_SHADER_ALLOC_NUM_FREE_LISTS <<<
                  get_size_class (align size0 RADV_SHADER_ALLOC_ALIGNMENT) true)) - 1)
                []) (align size0 RADV_SHADER_ALLOC_ALIGNMENT) = some (r, hole) := by
            rw [← findFit_congr (show d.arenas = ({ d with blockPool := pool1 } : Device).arenas from rfl)]
            exact hfind
          exact wf_split_path (d := { d with blockPool := pool1 }) hwf hk hfind'
            owner (align_pos hszpos) (align_mod size0) hlt

/-! ## Well-formedness preservation: free -/

theorem refsOK_remove_hole {d : Device} (h : refsOK d) (r : BlockRef)
    (hsz : Nat) : refsOK (remove_hole d r hsz) := by
  intro k2 hk2 r2 hr2
  exact h k2 hk2 r2 (mem_getD_remove_hole hr2)

theorem mem_flatten_remove_sub {d : Device} {r : BlockRef} {hsz : Nat}
    {x : BlockRef} (hx : x ∈ (remove_hole d r hsz).freeLists.flatten) :
    x ∈ d.freeLists.flatten := by
  obtain ⟨j, hj, hjmem⟩ := mem_flatten_getD hx
  exact mem_getD_mem_flatten (mem_getD_remove_hole hjmem)

/-- No free-list reference ever denotes an allocated block. -/
theorem no_ref_to_allocated {d : Device} (hwf : DeviceWF d) {a : Arena}
    (ha : a ∈ d.arenas) {b : Block} (hb : b ∈ a.entries)
    (hbstate : b.state ≠ BlockState.free) :
    ((a.id, b.offset) : BlockRef) ∉ d.freeLists.flatten := by
  obtain ⟨hlen, haren, hids, hrefs, hnd, hmask⟩ := hwf
  intro hmem
  obtain ⟨j, hjlen, hjmem⟩ := mem_flatten_getD hmem
  have hj8 : j < RADV_SHADER_ALLOC_NUM_FREE_LISTS := by rw [← hlen]; exact hjlen
  obtain ⟨a2, ha2, ha2id, b2, hb2, hb2off, hb2free, -⟩ := hrefs j hj8 _ hjmem
  have ha2a : a2 = a := arena_id_inj hids.1 ha2 ha ha2id
  subst ha2a
  have hb2b : b2 = b :=
    tilesFrom_offset_inj (haren a2 ha2).1 hb2 hb (by rw [hb2off])
  rw [hb2b] at hb2free
  exact hbstate hb2free

/-- After `remove_hole` removes the (unique) reference of a free block, that
reference is gone from every free list. -/
theorem removed_ref_gone {d : Device} (hwf : DeviceWF d) {a : Arena}
    (ha : a ∈ d.arenas) {p : Block} (hp : p ∈ a.entries) :
    ((a.id, p.offset) : BlockRef) ∉
      (remove_hole d (a.id, p.offset) p.size).freeLists.flatten := by
  obtain ⟨hlen, haren, hids, hrefs, hnd, hmask⟩ := hwf
  intro hmem
  obtain ⟨j, hjlen, hjmem⟩ := mem_flatten_getD hmem
  rw [remove_hole_len] at hjlen
  have hj8 : j < RADV_SHADER_ALLOC_NUM_FREE_LISTS := by rw [← hlen]; exact hjlen
  by_cases hjk : get_size_class p.size false = j
  · rw [← hjk] at hjmem
    rw [remove_hole_getD_same d _ p.size
      (by rw [hlen]; exact get_size_class_lt _ _)] at hjmem
    exact ((nodup_flatten_getD hnd).mem_erase_iff.1 hjmem).1 rfl
  · rw [remove_hole_getD_other d _ p.size hjk] at hjmem
    obtain ⟨a2, ha2, ha2id, b2, hb2, hb2off, hb2free, hb2cls⟩ :=
      hrefs j hj8 _ hjmem
    have ha2a : a2 = a := arena_id_inj hids.1 ha2 ha ha2id
    subst ha2a
    have hb2p : b2 = p :=
      tilesFrom_offset_inj (haren a2 ha2).1 hb2 hp (by rw [hb2off])
    rw [hb2p] at hb2cls
    exact hjk hb2cls

/-- The common tail of `radv_free_shader_memory`: `P` and `Q` are the intact
prefix and suffix of the arena's entry list, `C` the merged hole that tiles
everything between them, and `e` the state after the merged neighbors were
unlinked from their free lists. -/
theorem wf_free_core {e : Device} {r : BlockRef} {a : Arena}
    (hlen : flLenOK e) (haren : arenasOK e) (hids : idsOK e)
    (hrefs : refsOK e) (hnd : refsNodup e) (hmask : maskOK e)
    (ha : a ∈ e.arenas) (haid : a.id = r.1)
    {P Q M : List Block} {C : Block}
    (hdec : a.entries = P ++ (M ++ Q))
    (hPt : tilesFrom 0 P C.offset)
    (hQt : tilesFrom (C.offset + C.size) Q a.size)
    (hCfree : C.state = BlockState.free)
    (hCpos : 0 < C.size) (hCmod : C.size % RADV_SHADER_ALLOC_ALIGNMENT = 0)
    (hPlast : ∀ x, P.getLast? = some x → x.state ≠ BlockState.free)
    (hQhead : ∀ x, Q.head? = some x → x.state ≠ BlockState.free)
    (hPchain : noAdjFree P) (hQchain : noAdjFree Q)
    (hMgone : ∀ b3 ∈ M, b3.state = BlockState.free →
      ((r.1, b3.offset) : BlockRef) ∉ e.freeLists.flatten)
    (hCfresh : ((r.1, C.offset) : BlockRef) ∉ e.freeLists.flatten)
    (pool2 : Nat) :
    DeviceWF (if (P ++ C :: Q).length = 1 then
        { e with
          arenas := e.arenas.filter (fun a2 => a2.id != r.1),
          blockPool := pool2 }
      else add_hole (updateArena e r.1 (fun _ => P ++ C :: Q))
        (r.1, C.offset) C.size) := by
  have hPfree : ∀ b3 ∈ P, b3.state = BlockState.free → b3 ∈ P ++ C :: Q :=
    fun b3 hb3 _ => List.mem_append_left _ hb3
  -- references into arena `a` denote free blocks of `P` or `Q`
  have hrefs_a : ∀ k2, k2 < RADV_SHADER_ALLOC_NUM_FREE_LISTS →
      ∀ r2 ∈ e.freeLists.getD k2 [], r2.1 = r.1 →
      ∃ b2 ∈ a.entries, b2.offset = r2.2 ∧ b2.state = BlockState.free ∧
        get_size_class b2.size false = k2 ∧ (b2 ∈ P ∨ b2 ∈ Q) := by
    intro k2 hk2 r2 hr2 hr2id
    obtain ⟨a2, ha2, ha2id, b2, hb2, hb2off, hb2free, hb2cls⟩ :=
      hrefs k2 hk2 r2 hr2
    have ha2a : a2 = a := arena_id_inj hids.1 ha2 ha (by rw [ha2id, hr2id, haid])
    subst ha2a
    refine ⟨b2, hb2, hb2off, hb2free, hb2cls, ?_⟩
    have hb2dec : b2 ∈ P ++ (M ++ Q) := by rw [← hdec]; exact hb2
    rcases List.mem_append.1 hb2dec with hb2P | hb2MQ
    · exact Or.inl hb2P
    rcases List.mem_append.1 hb2MQ with hb2M | hb2Q
    · exfalso
      refine hMgone b2 hb2M hb2free ?_
      have : r2 = ((r.1, b2.offset) : BlockRef) := by
        refine Prod.ext hr2id ?_
        rw [hb2off]
      rw [← this]
      exact mem_getD_mem_flatten hr2
    · exact Or.inr hb2Q
  by_cases hsing : (P ++ C :: Q).length = 1
  · rw [if_pos hsing]
    have hPQnil : P = [] ∧ Q = [] := by
      rw [List.length_append, List.length_cons] at hsing
      constructor <;>
        [exact List.length_eq_zero.1 (by omega);
         exact List.length_eq_zero.1 (by omega)]
    refine ⟨hlen, ?_, ⟨?_, ?_⟩, ?_, hnd, hmask⟩
    · intro x hx
      exact haren x (List.mem_of_mem_filter hx)
    · exact ((List.filter_sublist _).map Arena.id).nodup hids.1
    · intro x hx
      exact hids.2 x (List.mem_of_mem_filter hx)
    · -- refsOK: no surviving reference can denote the destroyed arena
      intro k2 hk2 r2 hr2
      obtain ⟨a2, ha2, ha2id, b2, hb2, hb2off, hb2free, hb2cls⟩ :=
        hrefs k2 hk2 r2 hr2
      have ha2ne : a2.id ≠ r.1 := by
        intro hc
        obtain ⟨b3, hb3, -, hb3free, -, hb3PQ⟩ :=
          hrefs_a k2 hk2 r2 hr2 (by rw [← ha2id, hc])
        rcases hb3PQ with h | h
        · rw [hPQnil.1] at h; simp at h
        · rw [hPQnil.2] at h; simp at h
      refine ⟨a2, ?_, ha2id, b2, hb2, hb2off, hb2free, hb2cls⟩
      rw [List.mem_filter]
      exact ⟨ha2, by simpa using ha2ne⟩
  · rw [if_neg hsing]
    have hlenU : flLenOK (updateArena e r.1 (fun _ => P ++ C :: Q)) := hlen
    have htiles' : tilesFrom 0 (P ++ C :: Q) a.size :=
      tilesFrom_append.2 ⟨C.offset, hPt, rfl, hCpos, hCmod, hQt⟩
    have hadj' : noAdjFree (P ++ C :: Q) := by
      unfold noAdjFree at *
      rw [List.chain'_append]
      refine ⟨hPchain, ?_, ?_⟩
      · rw [List.chain'_cons']
        refine ⟨?_, hQchain⟩
        intro y hy hcon
        exact hQhead y hy hcon.2
      · intro x hx y hy
        rw [List.head?_cons, Option.mem_some_iff] at hy
        subst hy
        intro hcon
        exact hPlast x hx hcon.1
    have hallo' : ∃ b3 ∈ P ++ C :: Q, b3.state ≠ BlockState.free := by
      have hne : P ≠ [] ∨ Q ≠ [] := by
        rw [List.length_append, List.length_cons] at hsing
        by_cases hP : P = []
        · right
          intro hQ
          rw [hP, hQ] at hsing
          simp at hsing
        · exact Or.inl hP
      rcases hne with hP | hQ
      · obtain ⟨x, hx⟩ := Option.ne_none_iff_exists'.1
          (fun hc => hP (List.getLast?_eq_none_iff.1 hc))
        exact ⟨x, List.mem_append_left _ (List.mem_of_mem_getLast? hx),
          hPlast x hx⟩
      · obtain ⟨x, hx⟩ := Option.ne_none_iff_exists'.1
          (fun hc => hQ (List.head?_eq_none_iff.1 hc))
        exact ⟨x, List.mem_append_right _ (List.mem_cons_of_mem _
          (List.mem_of_mem_head? hx)), hQhead x hx⟩
    refine ⟨?_, ?_, ⟨?_, ?_⟩, ?_, ?_, ?_⟩
    · show (add_hole _ _ _).freeLists.length = _
      rw [add_hole_len]
      exact hlenU
    · -- arenasOK
      intro x hx
      rw [add_hole_arenas] at hx
      obtain ⟨y, hy, hcase⟩ := mem_updateArena_inv hx
      rcases hcase with ⟨hyid, hxeq⟩ | ⟨hyid, hxeq⟩
      · have hya : y = a := arena_id_inj hids.1 hy ha (by rw [hyid, haid])
        rw [hxeq]
        refine ⟨?_, hadj', hallo'⟩
        show tilesFrom 0 (P ++ C :: Q) y.size
        rw [hya]
        exact htiles'
      · rw [hxeq]
        exact haren y hy
    · show ((add_hole _ _ _).arenas.map Arena.id).Nodup
      rw [add_hole_arenas, updateArena_map_id]
      exact hids.1
    · intro x hx
      rw [add_hole_arenas] at hx
      obtain ⟨y, hy, hcase⟩ := mem_updateArena_inv hx
      have hxid : x.id = y.id := by
        rcases hcase with ⟨-, hxeq⟩ | ⟨-, hxeq⟩ <;> rw [hxeq]
      show x.id < e.nextArenaId
      rw [hxid]
      exact hids.2 y hy
    · -- refsOK
      intro k2 hk2 r2 hr2
      rcases mem_getD_add_hole hlenU hr2 with hr2d | ⟨hr2new, hk2new⟩
      · obtain ⟨a2, ha2, ha2id, b2, hb2, hb2off, hb2free, hb2cls⟩ :=
          hrefs k2 hk2 r2 hr2d
        by_cases ha2r : a2.id = r.1
        · have ha2a : a2 = a := arena_id_inj hids.1 ha2 ha (by rw [ha2r, haid])
          obtain ⟨b3, hb3, hb3off, hb3free, hb3cls, hb3PQ⟩ :=
            hrefs_a k2 hk2 r2 hr2d (by rw [← ha2id, ha2r])
          refine ⟨{ a with entries := P ++ C :: Q }, ?_, by rw [haid, ← ha2id, ha2r], b3, ?_, hb3off, hb3free, hb3cls⟩
          · exact mem_updateArena_self (f := fun _ => P ++ C :: Q) ha haid
          · rcases hb3PQ with h | h
            · exact List.mem_append_left _ h
            · exact List.mem_append_right _ (List.mem_cons_of_mem _ h)
        · exact ⟨a2,
            mem_updateArena_other (f := fun _ => P ++ C :: Q) ha2 ha2r,
            ha2id, b2, hb2, hb2off, hb2free, hb2cls⟩
      · subst hk2new
        rw [hr2new]
        refine ⟨{ a with entries := P ++ C :: Q },
          mem_updateArena_self (f := fun _ => P ++ C :: Q) ha haid, haid, C,
          ?_, rfl, hCfree, rfl⟩
        exact List.mem_append_right _ (List.mem_cons_self _ _)
    · exact refsNodup_add_hole hlenU hnd C.size hCfresh
    · exact maskOK_add_hole hlenU hmask _ C.size

theorem isFreeB_true_iff {b : Block} :
    isFreeB b = true ↔ b.state = BlockState.free := by
  unfold isFreeB
  cases hb : b.state <;> simp

theorem isFreeB_false_iff {b : Block} :
    isFreeB b = false ↔ b.state ≠ BlockState.free := by
  rw [← Bool.not_eq_true, isFreeB_true_iff]

theorem get_hole_eq_some {o : Option Block} {x : Block} :
    get_hole o = some x ↔ o = some x ∧ isFreeB x = true := by
  cases o with
  | none => simp [get_hole]
  | some b =>
    unfold get_hole
    dsimp only
    by_cases hb : isFreeB b
    · rw [if_pos hb]
      constructor
      · intro h
        obtain rfl := Option.some.inj h
        exact ⟨rfl, hb⟩
      · rintro ⟨h1, -⟩
        rw [Option.some.inj h1]
    · rw [if_neg hb]
      constructor
      · intro h; simp at h
      · rintro ⟨h1, h2⟩
        obtain rfl := Option.some.inj h1
        exact absurd h2 hb

theorem get_hole_eq_none {o : Option Block} :
    get_hole o = none ↔ ∀ x, o = some x → isFreeB x = false := by
  cases o with
  | none => simp [get_hole]
  | some b =>
    unfold get_hole
    dsimp only
    by_cases hb : isFreeB b
    · rw [if_pos hb]
      simp [hb]
    · rw [if_neg hb]
      simp [hb]

theorem wf_remove_hole {d : Device} (hwf : DeviceWF d) (r' : BlockRef)
    (hsz : Nat) : DeviceWF (remove_hole d r' hsz) := by
  obtain ⟨hlen, haren, hids, hrefs, hnd, hmask⟩ := hwf
  refine ⟨?_, haren, hids, refsOK_remove_hole hrefs r' hsz,
    refsNodup_remove_hole hlen hnd r' hsz, maskOK_remove_hole hlen hmask r' hsz⟩
  show (remove_hole d r' hsz).freeLists.length = _
  rw [remove_hole_len]
  exact hlen

theorem wf_free {d : Device} (hwf : DeviceWF d) {r : BlockRef}
    (hv : validFree d r) : DeviceWF (radv_free_shader_memory d r) := by
  obtain ⟨a, ha, haid, b0, hb0, hb0off, hb0alloc⟩ := hv
  have hwf' := hwf
  obtain ⟨hlen, haren, hids, hrefs, hnd, hmask⟩ := hwf'
  obtain ⟨htilesa, hadja, -⟩ := haren a ha
  unfold radv_free_shader_memory
  rw [find?_id_of_nodup hids.1 ha haid.symm]
  simp only []
  have hsome := splitAtOffset_isSome hb0 hb0off
  cases hsplit : splitAtOffset r.2 a.entries with
  | none => rw [hsplit] at hsome; simp at hsome
  | some t =>
    obtain ⟨pre, b, post⟩ := t
    obtain ⟨hdec, hboff, hprene⟩ := splitAtOffset_sound hsplit
    have hbmem : b ∈ a.entries := by
      rw [hdec]
      exact List.mem_append_right _ (List.mem_cons_self _ _)
    have hbb0 : b = b0 :=
      tilesFrom_offset_inj htilesa hbmem hb0 (by rw [hboff, hb0off])
    have hballoc : b.state ≠ BlockState.free := by rw [hbb0]; exact hb0alloc
    obtain ⟨m, htpre, hrest⟩ := tilesFrom_append.1
      (show tilesFrom 0 (pre ++ b :: post) a.size by rw [← hdec]; exact htilesa)
    obtain ⟨hbm, hbpos, hbmod, htpost⟩ := hrest
    have hchain : List.Chain' BlocksSep (pre ++ b :: post) := by
      show noAdjFree _
      rw [← hdec]
      exact hadja
    rw [List.chain'_append] at hchain
    obtain ⟨hcpre, hcbpost, hbound⟩ := hchain
    rw [List.chain'_cons'] at hcbpost
    obtain ⟨hposthead, hcpost⟩ := hcbpost
    simp only []
    cases hgl : get_hole pre.getLast? with
    | none =>
      cases hgr : get_hole post.head? with
      | none =>
        simp only []
        refine wf_free_core hlen haren hids hrefs hnd hmask ha haid
          (M := [b]) (P := pre) (Q := post)
          (C := { offset := b.offset, size := b.size, state := BlockState.free })
          ?_ ?_ ?_ rfl hbpos hbmod ?_ ?_ hcpre hcpost ?_ ?_
          (d.blockPool + 1)
        · rw [hdec]
          rfl
        · show tilesFrom 0 pre b.offset
          rw [hbm]
          exact htpre
        · show tilesFrom (b.offset + b.size) post a.size
          rw [hbm]
          exact htpost
        · intro x hx
          rw [get_hole_eq_none] at hgl
          exact isFreeB_false_iff.1 (hgl x hx)
        · intro x hx
          rw [get_hole_eq_none] at hgr
          exact isFreeB_false_iff.1 (hgr x hx)
        · intro b3 hb3 hb3free
          rw [List.mem_singleton.1 hb3] at hb3free
          exact absurd hb3free hballoc
        · show ((r.1, b.offset) : BlockRef) ∉ d.freeLists.flatten
          have hno := no_ref_to_allocated hwf ha hbmem hballoc
          rwa [haid] at hno
      | some n =>
        simp only []
        rw [get_hole_eq_some] at hgr
        obtain ⟨hn1, hn2⟩ := hgr
        have hnfree : n.state = BlockState.free := isFreeB_true_iff.1 hn2
        obtain ⟨t, hpost⟩ : ∃ t, post = n :: t := by
          cases post with
          | nil => simp at hn1
          | cons x t' =>
            rw [List.head?_cons] at hn1
            exact ⟨t', by rw [Option.some.inj hn1]⟩
        subst hpost
        obtain ⟨hnoff, hnpos, hnmod, htT⟩ := htpost
        rw [List.chain'_cons'] at hcpost
        obtain ⟨hthead, hcT⟩ := hcpost
        have hnmem : n ∈ a.entries := by
          rw [hdec]
          exact List.mem_append_right _
            (List.mem_cons_of_mem _ (List.mem_cons_self _ _))
        have hwf0 : DeviceWF (remove_hole d (r.1, n.offset) n.size) :=
          wf_remove_hole hwf _ _
        have e256 : RADV_SHADER_ALLOC_ALIGNMENT = 256 := rfl
        have hCo : n.offset - b.size = b.offset := by omega
        have hbgone : ((r.1, b.offset) : BlockRef) ∉
            (remove_hole d (r.1, n.offset) n.size).freeLists.flatten := by
          intro hmem
          have hm2 := mem_flatten_remove_sub hmem
          have hno := no_ref_to_allocated hwf ha hbmem hballoc
          rw [haid] at hno
          exact hno hm2
        have hngone : ((r.1, n.offset) : BlockRef) ∉
            (remove_hole d (r.1, n.offset) n.size).freeLists.flatten := by
          have hg := removed_ref_gone hwf ha hnmem
          rwa [haid] at hg
        refine wf_free_core
          (e := { remove_hole d (r.1, n.offset) n.size with
            blockPool := (remove_hole d (r.1, n.offset) n.size).blockPool + 1 })
          hwf0.1 hwf0.2.1 hwf0.2.2.1 hwf0.2.2.2.1 hwf0.2.2.2.2.1
          hwf0.2.2.2.2.2 ha haid
          (M := [b, n]) (P := pre) (Q := t)
          (C := { offset := n.offset - b.size, size := n.size + b.size, state := BlockState.free })
          ?_ ?_ ?_ rfl ?_ ?_ ?_ ?_ hcpre hcT ?_ ?_
          ((remove_hole d (r.1, n.offset) n.size).blockPool + 1 + 1)
        · rw [hdec]
          rfl
        · show tilesFrom 0 pre (n.offset - b.size)
          rw [hCo, hbm]
          exact htpre
        · show tilesFrom (n.offset - b.size + (n.size + b.size)) t a.size
          have heq : n.offset - b.size + (n.size + b.size) =
              m + b.size + n.size := by omega
          rw [heq]
          exact htT
        · show 0 < n.size + b.size
          omega
        · show (n.size + b.size) % RADV_SHADER_ALLOC_ALIGNMENT = 0
          rw [e256] at hnmod hbmod ⊢
          omega
        · intro x hx
          rw [get_hole_eq_none] at hgl
          exact isFreeB_false_iff.1 (hgl x hx)
        · intro x hx
          intro hxfree
          exact hthead x hx ⟨hnfree, hxfree⟩
        · intro b3 hb3 hb3free
          rcases List.mem_cons.1 hb3 with rfl | hb3'
          · exact absurd hb3free hballoc
          · rw [List.mem_singleton.1 hb3']
            exact hngone
        · show ((r.1, n.offset - b.size) : BlockRef) ∉ _
          rw [hCo]
          exact hbgone
    | some p =>
      rw [get_hole_eq_some] at hgl
      obtain ⟨hp1, hp2⟩ := hgl
      have hpfree : p.state = BlockState.free := isFreeB_true_iff.1 hp2
      have hpmemopt : p ∈ pre.getLast? := by rw [hp1]; rfl
      have hpre_eq : pre.dropLast ++ [p] = pre :=
        List.dropLast_append_getLast? p hpmemopt
      have hpmem : p ∈ a.entries := by
        rw [hdec]
        exact List.mem_append_left _ (List.mem_of_mem_getLast? hpmemopt)
      have htpre' : tilesFrom 0 (pre.dropLast ++ [p]) m := by
        rw [hpre_eq]
        exact htpre
      obtain ⟨m2, htP, hrest2⟩ := tilesFrom_append.1 htpre'
      obtain ⟨hpoff, hppos, hpmod, hm2⟩ := hrest2
      have hm2' : m2 + p.size = m := hm2
      have hcpre' : List.Chain' BlocksSep (pre.dropLast ++ [p]) := by
        rw [hpre_eq]
        exact hcpre
      rw [List.chain'_append] at hcpre'
      obtain ⟨hcP, -, hbP⟩ := hcpre'
      have hPlast2 : ∀ x, pre.dropLast.getLast? = some x →
          x.state ≠ BlockState.free := by
        intro x hx hxfree
        exact hbP x (by rw [hx]; rfl) p rfl ⟨hxfree, hpfree⟩
      have hwf1 : DeviceWF (remove_hole d (r.1, p.offset) p.size) :=
        wf_remove_hole hwf _ _
      have hpgone : ((r.1, p.offset) : BlockRef) ∉
          (remove_hole d (r.1, p.offset) p.size).freeLists.flatten := by
        have hg := removed_ref_gone hwf ha hpmem
        rwa [haid] at hg
      have hbgone1 : ((r.1, b.offset) : BlockRef) ∉
          (remove_hole d (r.1, p.offset) p.size).freeLists.flatten := by
        intro hmem
        have hno := no_ref_to_allocated hwf ha hbmem hballoc
        rw [haid] at hno
        exact hno (mem_flatten_remove_sub hmem)
      have e256 : RADV_SHADER_ALLOC_ALIGNMENT = 256 := rfl
      cases hgr : get_hole post.head? with
      | none =>
        simp only []
        refine wf_free_core
          (e := { remove_hole d (r.1, p.offset) p.size with
            blockPool := (remove_hole d (r.1, p.offset) p.size).blockPool + 1 })
          hwf1.1 hwf1.2.1 hwf1.2.2.1 hwf1.2.2.2.1 hwf1.2.2.2.2.1
          hwf1.2.2.2.2.2 ha haid
          (M := [p, b]) (P := pre.dropLast) (Q := post)
          (C := { offset := p.offset, size := p.size + b.size, state := BlockState.free })
          ?_ ?_ ?_ rfl ?_ ?_ hPlast2 ?_ hcP hcpost ?_ ?_
          ((remove_hole d (r.1, p.offset) p.size).blockPool + 1 + 1)
        · rw [hdec]
          conv_lhs => rw [← hpre_eq]
          simp [List.append_assoc]
        · show tilesFrom 0 pre.dropLast p.offset
          rw [hpoff]
          exact htP
        · show tilesFrom (p.offset + (p.size + b.size)) post a.size
          have heq : p.offset + (p.size + b.size) = m + b.size := by omega
          rw [heq]
          exact htpost
        · show 0 < p.size + b.size
          omega
        · show (p.size + b.size) % RADV_SHADER_ALLOC_ALIGNMENT = 0
          rw [e256] at hpmod hbmod ⊢
          omega
        · intro x hx
          rw [get_hole_eq_none] at hgr
          exact isFreeB_false_iff.1 (hgr x hx)
        · intro b3 hb3 hb3free
          rcases List.mem_cons.1 hb3 with rfl | hb3'
          · exact hpgone
          · rw [List.mem_singleton.1 hb3']
            rw [List.mem_singleton.1 hb3'] at hb3free
            exact absurd hb3free hballoc
        · show ((r.1, p.offset) : BlockRef) ∉ _
          exact hpgone
      | some n =>
        simp only []
        rw [get_hole_eq_some] at hgr
        obtain ⟨hn1, hn2⟩ := hgr
        have hnfree : n.state = BlockState.free := isFreeB_true_iff.1 hn2
        obtain ⟨t, hpost⟩ : ∃ t, post = n :: t := by
          cases post with
          | nil => simp at hn1
          | cons x t' =>
            rw [List.head?_cons] at hn1
            exact ⟨t', by rw [Option.some.inj hn1]⟩
        subst hpost
        obtain ⟨hnoff, hnpos, hnmod, htT⟩ := htpost
        rw [List.chain'_cons'] at hcpost
        obtain ⟨hthead, hcT⟩ := hcpost
        have hnmem : n ∈ a.entries := by
          rw [hdec]
          exact List.mem_append_right _
            (List.mem_cons_of_mem _ (List.mem_cons_self _ _))
        have hwf1b : DeviceWF { remove_hole d (r.1, p.offset) p.size with
            blockPool := (remove_hole d (r.1, p.offset) p.size).blockPool + 1 } :=
          hwf1
        have hwf2 : DeviceWF (remove_hole
            { remove_hole d (r.1, p.offset) p.size with
              blockPool := (remove_hole d (r.1, p.offset) p.size).blockPool + 1 }
            (r.1, n.offset) n.size) :=
          wf_remove_hole hwf1b _ _
        have hCo4 : n.offset - (p.size + b.size) = p.offset := by omega
        have hpgone2 : ((r.1, p.offset) : BlockRef) ∉
            (remove_hole
              { remove_hole d (r.1, p.offset) p.size with
                blockPool := (remove_hole d (r.1, p.offset) p.size).blockPool + 1 }
              (r.1, n.offset) n.size).freeLists.flatten := by
          intro hmem
          exact hpgone (mem_flatten_remove_sub hmem)
        have hbgone2 : ((r.1, b.offset) : BlockRef) ∉
            (remove_hole
              { remove_hole d (r.1, p.offset) p.size with
                blockPool := (remove_hole d (r.1, p.offset) p.size).blockPool + 1 }
              (r.1, n.offset) n.size).freeLists.flatten := by
          intro hmem
          exact hbgone1 (mem_flatten_remove_sub hmem)
        have hngone2 : ((r.1, n.offset) : BlockRef) ∉
            (remove_hole
              { remove_hole d (r.1, p.offset) p.size with
                blockPool := (remove_hole d (r.1, p.offset) p.size).blockPool + 1 }
              (r.1, n.offset) n.size).freeLists.flatten := by
          have hg := removed_ref_gone (d := { remove_hole d (r.1, p.offset) p.size with
            blockPool := (remove_hole d (r.1, p.offset) p.size).blockPool + 1 })
            hwf1b ha hnmem
          rwa [haid] at hg
        refine wf_free_core
          (e := { (remove_hole
              { remove_hole d (r.1, p.offset) p.size with
                blockPool := (remove_hole d (r.1, p.offset) p.size).blockPool + 1 }
              (r.1, n.offset) n.size) with
            blockPool := (remove_hole
              { remove_hole d (r.1, p.offset) p.size with
                blockPool := (remove_hole d (r.1, p.offset) p.size).blockPool + 1 }
              (r.1, n.offset) n.size).blockPool + 1 })
          hwf2.1 hwf2.2.1 hwf2.2.2.1 hwf2.2.2.2.1 hwf2.2.2.2.2.1
          hwf2.2.2.2.2.2 ha haid
          (M := [p, b, n]) (P := pre.dropLast) (Q := t)
          (C := { offset := n.offset - (p.size + b.size), size := n.size + (p.size + b.size), state := BlockState.free })
          ?_ ?_ ?_ rfl ?_ ?_ hPlast2 ?_ hcP hcT ?_ ?_
          ((remove_hole
              { remove_hole d (r.1, p.offset) p.size with
                blockPool := (remove_hole d (r.1, p.offset) p.size).blockPool + 1 }
              (r.1, n.offset) n.size).blockPool + 1 + 1)
        · rw [hdec]
          conv_lhs => rw [← hpre_eq]
          simp [List.append_assoc]
        · show tilesFrom 0 pre.dropLast (n.offset - (p.size + b.size))
          rw [hCo4, hpoff]
          exact htP
        · show tilesFrom (n.offset - (p.size + b.size) +
            (n.size + (p.size + b.size))) t a.size
          have heq : n.offset - (p.size + b.size) +
              (n.size + (p.size + b.size)) = m + b.size + n.size := by omega
          rw [heq]
          exact htT
        · show 0 < n.size + (p.size + b.size)
          omega
        · show (n.size + (p.size + b.size)) % RADV_SHADER_ALLOC_ALIGNMENT = 0
          rw [e256] at hpmod hbmod hnmod ⊢
          omega
        · intro x hx
          intro hxfree
          exact hthead x hx ⟨hnfree, hxfree⟩
        · intro b3 hb3 hb3free
          rcases List.mem_cons.1 hb3 with rfl | hb3'
          · exact hpgone2
          · rcases List.mem_cons.1 hb3' with rfl | hb3''
            · exact absurd hb3free hballoc
            · rw [List.mem_singleton.1 hb3'']
              exact hngone2
        · show ((r.1, n.offset - (p.size + b.size)) : BlockRef) ∉ _
          rw [hCo4]
          exact hpgone2

theorem wf_init : DeviceWF radv_init_shader_arenas := by decide

theorem wf_reachable {d : Device} (h : Reachable d) : DeviceWF d := by
  induction h with
  | init => exact wf_init
  | alloc env size owner hd hs ih => exact wf_alloc ih env hs owner
  | free r hd hv ih => exact wf_free ih hv

/-! ## Path characterization of alloc -/

/-- The masked free-list word examined by one `alloc` call for an (already
aligned) size. -/
def scanWord (d : Device) (size : Nat) : Nat :=
  d.freeListMask &&&
    (BITFIELD_MASK RADV_SHADER_ALLOC_NUM_FREE_LISTS <<< get_size_class size true)

/-- Exhaustive description of the paths of `radv_alloc_shader_memory` and the
exact state each produces. -/
theorem alloc_cases (env : AllocEnv) (d : Device) (size0 : Nat) (owner : Owner) :
    (ffs (scanWord d (align size0 RADV_SHADER_ALLOC_ALIGNMENT)) ≠ 0 ∧
      ∃ r hole,
        findFit d (d.freeLists.getD
          (ffs (scanWord d (align size0 RADV_SHADER_ALLOC_ALIGNMENT)) - 1) [])
          (align size0 RADV_SHADER_ALLOC_ALIGNMENT) = some (r, hole) ∧
        ((hole.size = align size0 RADV_SHADER_ALLOC_ALIGNMENT ∧
          radv_alloc_shader_memory env d size0 owner =
            (some r, markAllocated (remove_hole d r hole.size) r owner)) ∨
         (hole.size ≠ align size0 RADV_SHADER_ALLOC_ALIGNMENT ∧
          ∃ ok pool1 oks1,
            alloc_block_obj d.blockPool env.mallocOks = (ok, pool1, oks1) ∧
            ((ok = true ∧
              radv_alloc_shader_memory env d size0 owner =
                (some r, add_hole
                  (updateArena (remove_hole { d with blockPool := pool1 } r
                    hole.size) r.1
                    (splitEntries r.2 (align size0 RADV_SHADER_ALLOC_ALIGNMENT)
                      owner))
                  (r.1, r.2 + align size0 RADV_SHADER_ALLOC_ALIGNMENT)
                  (hole.size - align size0 RADV_SHADER_ALLOC_ALIGNMENT))) ∨
             (ok = false ∧
              radv_alloc_shader_memory env d size0 owner =
                (none, { d with blockPool := pool1 })))))) ∨
    ((ffs (scanWord d (align size0 RADV_SHADER_ALLOC_ALIGNMENT)) = 0 ∨
      findFit d (d.freeLists.getD
        (ffs (scanWord d (align size0 RADV_SHADER_ALLOC_ALIGNMENT)) - 1) [])
        (align size0 RADV_SHADER_ALLOC_ALIGNMENT) = none) ∧
      radv_alloc_shader_memory env d size0 owner =
        allocNewArena env d (align size0 RADV_SHADER_ALLOC_ALIGNMENT) owner) := by
  unfold radv_alloc_shader_memory scanWord
  simp only []
  by_cases hffs : ffs (d.freeListMask &&&
      (BITFIELD_MASK RADV_SHADER_ALLOC_NUM_FREE_LISTS <<<
        get_size_class (align size0 RADV_SHADER_ALLOC_ALIGNMENT) true)) = 0
  · rw [if_pos hffs]
    exact Or.inr ⟨Or.inl hffs, rfl⟩
  · rw [if_neg hffs]
    cases hfind : findFit d (d.freeLists.getD (ffs (d.freeListMask &&&
        (BITFIELD_MASK RADV_SHADER_ALLOC_NUM_FREE_LISTS <<<
          get_size_class (align size0 RADV_SHADER_ALLOC_ALIGNMENT) true)) - 1)
        []) (align size0 RADV_SHADER_ALLOC_ALIGNMENT) with
    | none =>
      simp only []
      exact Or.inr ⟨Or.inr (by simp), trivial⟩
    | some rb =>
      obtain ⟨r, hole⟩ := rb
      simp only []
      by_cases heq : hole.size = align size0 RADV_SHADER_ALLOC_ALIGNMENT
      · rw [if_pos heq]
        exact Or.inl ⟨hffs, r, hole, rfl, Or.inl ⟨heq, by rw [heq]⟩⟩
      · rw [if_neg heq]
        rcases hab : alloc_block_obj d.blockPool env.mallocOks with
          ⟨ok, pool1, oks1⟩
        simp only []
        cases ok with
        | false =>
          simp only [Bool.false_eq_true, if_neg]
          exact Or.inl ⟨hffs, r, hole, rfl,
            Or.inr ⟨heq, false, pool1, oks1, rfl, Or.inr ⟨rfl, rfl⟩⟩⟩
        | true =>
          simp only [if_pos]
          exact Or.inl ⟨hffs, r, hole, rfl,
            Or.inr ⟨heq, true, pool1, oks1, rfl, Or.inl ⟨rfl, rfl⟩⟩⟩

/-- `alloc_block_obj` never grows the pool. -/
theorem alloc_block_obj_le (pool : Nat) (oks : List Bool) :
    (alloc_block_obj pool oks).2.1 ≤ pool := by
  unfold alloc_block_obj
  by_cases h : 0 < pool
  · rw [if_pos h]; exact Nat.sub_le pool 1
  · rw [if_neg h]
    cases oks with
    | nil => exact Nat.zero_le pool
    | cons ok rest => exact Nat.zero_le pool

/-- Exhaustive description of the new-arena path: either it fails, leaving
everything but the descriptor pool unchanged (and the pool never grows), or
it appends exactly one fresh arena, carved into the allocated block and an
optional trailing hole. -/
theorem allocNewArena_cases (env : AllocEnv) (d : Device) (size : Nat)
    (owner : Owner) :
    (∃ pool2, pool2 ≤ d.blockPool ∧
      allocNewArena env d size owner = (none, { d with blockPool := pool2 })) ∨
    (∃ pool2, pool2 ≤ d.blockPool ∧
      allocNewArena env d size owner = (some (d.nextArenaId, 0),
        let asize := newArenaSize d.arenaShift size
        let newA : Arena :=
          { id := d.nextArenaId, base := env.newBase, size := asize,
            entries := if 0 < asize - size then
                [{ offset := 0, size := size, state := .allocated owner },
                 { offset := size, size := asize - size, state := .free }]
              else [{ offset := 0, size := size, state := .allocated owner }] }
        let d1 := { d with
          arenas := d.arenas ++ [newA]
          blockPool := pool2
          arenaShift := d.arenaShift + 1
          nextArenaId := d.nextArenaId + 1 }
        if 0 < asize - size then add_hole d1 (d.nextArenaId, size) (asize - size)
        else d1)) := by
  unfold allocNewArena
  cases hc : env.arenaCallocOk with
  | false =>
    simp only [Bool.not_false, Bool.not_true, if_pos]
    exact Or.inl ⟨d.blockPool, Nat.le_refl _, rfl⟩
  | true =>
    simp only [Bool.not_true, Bool.not_false, if_neg, Bool.false_eq_true,
      not_false_eq_true, if_false]
    cases hb : env.bufferCreateOk with
    | false =>
      simp only [Bool.not_false, if_pos]
      exact Or.inl ⟨d.blockPool, Nat.le_refl _, rfl⟩
    | true =>
      simp only [Bool.not_true, Bool.false_eq_true, not_false_eq_true,
        if_false]
      cases hm : env.bufferMapOk with
      | false =>
        simp only [Bool.not_false, if_pos]
        exact Or.inl ⟨d.blockPool, Nat.le_refl _, rfl⟩
      | true =>
        simp only [Bool.not_true, Bool.false_eq_true, not_false_eq_true,
          if_false]
        rcases h1 : alloc_block_obj d.blockPool env.mallocOks with
          ⟨ok1, pool1, oks1⟩
        have hp1 : pool1 ≤ d.blockPool := by
          have := alloc_block_obj_le d.blockPool env.mallocOks
          rw [h1] at this; exact this
        simp only []
        by_cases hrem : 0 < newArenaSize d.arenaShift size - size
        · rw [if_pos hrem]
          rcases h2 : alloc_block_obj pool1 oks1 with ⟨ok2, pool2, oks2⟩
          have hp2 : pool2 ≤ pool1 := by
            have := alloc_block_obj_le pool1 oks1
            rw [h2] at this; exact this
          simp only []
          cases ok1 with
          | false =>
            simp only [Bool.not_false, Bool.true_or, if_pos]
            exact Or.inl ⟨pool2, Nat.le_trans hp2 hp1, rfl⟩
          | true =>
            cases ok2 with
            | false =>
              simp only [Bool.not_true, Bool.not_false, Bool.or_true, if_pos]
              exact Or.inl ⟨pool2, Nat.le_trans hp2 hp1, rfl⟩
            | true =>
              simp only [Bool.not_true, Bool.or_self, Bool.false_eq_true,
                not_false_eq_true, if_false]
              refine Or.inr ⟨pool2, Nat.le_trans hp2 hp1, ?_⟩
              simp only [if_pos hrem]
        · rw [if_neg hrem]
          simp only []
          cases ok1 with
          | false =>
            simp only [Bool.not_false, Bool.or_self, if_pos]
            exact Or.inl ⟨pool1, hp1, rfl⟩
          | true =>
            simp only [Bool.not_true, Bool.or_self, Bool.false_eq_true,
              not_false_eq_true, if_false]
            refine Or.inr ⟨pool1, hp1, ?_⟩
            simp only [if_neg hrem]

/-- `free` never touches the growth shift. -/
theorem free_shift (d : Device) (r : BlockRef) :
    (radv_free_shader_memory d r).arenaShift = d.arenaShift := by
  unfold radv_free_shader_memory
  cases hfa : d.arenas.find? (fun a => a.id == r.1) with
  | none => rfl
  | some a =>
    simp only []
    cases hsp : splitAtOffset r.2 a.entries with
    | none => rfl
    | some t =>
      obtain ⟨pre, b, post⟩ := t
      simp only []
      cases hgl : get_hole pre.getLast? with
      | none =>
        simp only []
        cases hgr : get_hole post.head? with
        | none => simp only []; split <;> rfl
        | some n => simp only []; split <;> rfl
      | some p =>
        simp only []
        cases hgr : get_hole post.head? with
        | none => simp only []; split <;> rfl
        | some n => simp only []; split <;> rfl

/-- `free` never touches the fresh-id counter. -/
theorem free_nextId (d : Device) (r : BlockRef) :
    (radv_free_shader_memory d r).nextArenaId = d.nextArenaId := by
  unfold radv_free_shader_memory
  cases hfa : d.arenas.find? (fun a => a.id == r.1) with
  | none => rfl
  | some a =>
    simp only []
    cases hsp : splitAtOffset r.2 a.entries with
    | none => rfl
    | some t =>
      obtain ⟨pre, b, post⟩ := t
      simp only []
      cases hgl : get_hole pre.getLast? with
      | none =>
        simp only []
        cases hgr : get_hole post.head? with
        | none => simp only []; split <;> rfl
        | some n => simp only []; split <;> rfl
      | some p =>
        simp only []
        cases hgr : get_hole post.head? with
        | none => simp only []; split <;> rfl
        | some n => simp only []; split <;> rfl

/-! ## Sample states used to instantiate the verified properties -/

/-- One 256-byte allocation performed on the initial state. -/
def sampleAllocState : Device :=
  (radv_alloc_shader_memory {} radv_init_shader_arenas 256 7).2

/-- A further 512-byte allocation on `sampleAllocState`. -/
def sampleAllocState2 : Device :=
  (radv_alloc_shader_memory {} sampleAllocState 512 9).2

/-- The single arena of `sampleAllocState`. -/
def sampleArena : Arena :=
  sampleAllocState.arenas.getD 0
    { id := 0, base := 0, size := 0, entries := [] }

/-! ## The claims -/

/-- C1: Tiling invariant: starting from the initialized empty state, after
every sequence of alloc/free calls, every arena's ordered block sequence
exactly tiles `[0, arena.size)`: the first block's offset is 0, each block's
`offset + size` equals the next block's offset, and the last block ends at
`arena.size` — hence no gaps and no overlaps within an arena. -/
theorem C1_tiling_invariant {d : Device} (h : Reachable d) :
    ∀ a ∈ d.arenas, tilesFrom 0 a.entries a.size :=
  fun a ha => ((wf_reachable h).2.1 a ha).1

/-- C1, instantiated: the tiling invariant holds for the single arena of the
concrete reachable state obtained by one 256-byte allocation from the
initial state. -/
theorem C1_tiling_invariant_witness :
    sampleArena ∈ sampleAllocState.arenas ∧
      tilesFrom 0 sampleArena.entries sampleArena.size :=
  ⟨by decide,
    C1_tiling_invariant (Reachable.alloc {} 256 7 Reachable.init (by decide))
      sampleArena (by decide)⟩

/-- C3: Eager coalescing: after `free` returns (called on a valid allocated
block of a well-formed state), no two adjacent free blocks coexist in any
arena. -/
theorem C3_eager_coalescing {d : Device} (hwf : DeviceWF d) {r : BlockRef}
    (hv : validFree d r) :
    ∀ a ∈ (radv_free_shader_memory d r).arenas, noAdjFree a.entries :=
  fun a ha => ((wf_free hwf hv).2.1 a ha).2.1

/-- C3, instantiated: freeing the first of two live allocations leaves no
pair of adjacent free blocks. -/
theorem C3_eager_coalescing_witness :
    DeviceWF sampleAllocState2 ∧ validFree sampleAllocState2 (0, 0) ∧
      ∀ a ∈ (radv_free_shader_memory sampleAllocState2 (0, 0)).arenas,
        noAdjFree a.entries :=
  ⟨by decide, by decide, C3_eager_coalescing (by decide) (by decide)⟩

/-- The arena appended by a successful new-arena path, as a function of the
pre-state and the (aligned) request. -/
def newArenaOf (env : AllocEnv) (d : Device) (size : Nat) (owner : Owner) :
    Arena :=
  { id := d.nextArenaId, base := env.newBase
    size := newArenaSize d.arenaShift size
    entries := if 0 < newArenaSize d.arenaShift size - size then
        [{ offset := 0, size := size, state := .allocated owner },
         { offset := size, size := newArenaSize d.arenaShift size - size,
           state := .free }]
      else [{ offset := 0, size := size, state := .allocated owner }] }

/-- C8: Arena growth policy: every arena created by `alloc` has backing size
exactly `max(BASE << min(shift, MAX_SHIFT), min_size)` where `min_size` is
the rounded request; the growth shift is incremented by one exactly when an
arena is created, and `free` never decreases it — not even when it destroys
an arena. -/
theorem C8_growth_policy :
    (∀ (env : AllocEnv) (d : Device) (size0 : Nat) (owner : Owner),
      ((radv_alloc_shader_memory env d size0 owner).2.arenas.map Arena.id =
          d.arenas.map Arena.id ∧
        (radv_alloc_shader_memory env d size0 owner).2.arenaShift =
          d.arenaShift) ∨
      (∃ A, (radv_alloc_shader_memory env d size0 owner).2.arenas =
          d.arenas ++ [A] ∧
        A.size = max (RADV_SHADER_ALLOC_MIN_ARENA_SIZE <<<
            min RADV_SHADER_ALLOC_MAX_ARENA_SIZE_SHIFT d.arenaShift)
          (align size0 RADV_SHADER_ALLOC_ALIGNMENT) ∧
        (radv_alloc_shader_memory env d size0 owner).2.arenaShift =
          d.arenaShift + 1)) ∧
    (∀ (d : Device) (r : BlockRef),
      (radv_free_shader_memory d r).arenaShift = d.arenaShift) := by
  constructor
  · intro env d size0 owner
    rcases alloc_cases env d size0 owner with
      ⟨-, r, hole, -, ⟨-, hres⟩ | ⟨-, ok, pool1, oks1, -, ⟨-, hres⟩ | ⟨-, hres⟩⟩⟩ |
      ⟨-, hres⟩
    · rw [hres]
      refine Or.inl ⟨?_, ?_⟩
      · show (markAllocated (remove_hole d r hole.size) r owner).arenas.map
          Arena.id = d.arenas.map Arena.id
        unfold markAllocated
        rw [updateArena_map_id, remove_hole_arenas]
      · show (markAllocated (remove_hole d r hole.size) r owner).arenaShift =
          d.arenaShift
        rfl
    · rw [hres]
      refine Or.inl ⟨?_, ?_⟩
      · show (add_hole (updateArena (remove_hole { d with blockPool := pool1 }
            r hole.size) r.1 (splitEntries r.2
            (align size0 RADV_SHADER_ALLOC_ALIGNMENT) owner))
            (r.1, r.2 + align size0 RADV_SHADER_ALLOC_ALIGNMENT)
            (hole.size - align size0 RADV_SHADER_ALLOC_ALIGNMENT)).arenas.map
            Arena.id = d.arenas.map Arena.id
        rw [add_hole_arenas, updateArena_map_id, remove_hole_arenas]
      · rw [add_hole_shift]
        rfl
    · rw [hres]
      exact Or.inl ⟨rfl, rfl⟩
    · rw [hres]
      rcases allocNewArena_cases env d
          (align size0 RADV_SHADER_ALLOC_ALIGNMENT) owner with
        ⟨pool2, -, hna⟩ | ⟨pool2, -, hna⟩
      · rw [hna]
        exact Or.inl ⟨rfl, rfl⟩
      · rw [hna]
        simp only []
        refine Or.inr ⟨newArenaOf env d
          (align size0 RADV_SHADER_ALLOC_ALIGNMENT) owner, ?_, ?_, ?_⟩
        · by_cases hrem : 0 < newArenaSize d.arenaShift
              (align size0 RADV_SHADER_ALLOC_ALIGNMENT) -
              align size0 RADV_SHADER_ALLOC_ALIGNMENT
          · rw [if_pos hrem, add_hole_arenas]; rfl
          · rw [if_neg hrem]; rfl
        · show newArenaSize d.arenaShift
            (align size0 RADV_SHADER_ALLOC_ALIGNMENT) = _
          unfold newArenaSize
          rfl
        · by_cases hrem : 0 < newArenaSize d.arenaShift
              (align size0 RADV_SHADER_ALLOC_ALIGNMENT) -
              align size0 RADV_SHADER_ALLOC_ALIGNMENT
          · rw [if_pos hrem, add_hole_shift]
          · rw [if_neg hrem]
  · exact free_shift

/-- C10: Free-list mask invariant: in every reachable state, bit `k` of
`shader_free_list_mask` is set iff size-class list `k` is non-empty; hence
the single bit-scan in `alloc` (ffs of the mask restricted to classes at or
above the wanted one) finds a class exactly when some class at or above the
wanted class holds at least one free block. -/
theorem C10_mask_invariant {d : Device} (h : Reachable d) :
    (∀ k, k < RADV_SHADER_ALLOC_NUM_FREE_LISTS →
      (d.freeListMask.testBit k ↔ d.freeLists.getD k [] ≠ [])) ∧
    (∀ w, ffs (d.freeListMask &&&
        (BITFIELD_MASK RADV_SHADER_ALLOC_NUM_FREE_LISTS <<< w)) ≠ 0 ↔
      ∃ k, w ≤ k ∧ k < RADV_SHADER_ALLOC_NUM_FREE_LISTS ∧
        d.freeLists.getD k [] ≠ []) := by
  have hm := (wf_reachable h).2.2.2.2.2
  refine ⟨hm.1, fun w => ?_⟩
  constructor
  · intro hne
    have hX : d.freeListMask &&&
        (BITFIELD_MASK RADV_SHADER_ALLOC_NUM_FREE_LISTS <<< w) ≠ 0 :=
      fun h0 => hne ((ffs_eq_zero_iff _).2 h0)
    obtain ⟨j, hj⟩ := exists_testBit_of_ne_zero hX
    rw [Nat.testBit_land, Bool.and_eq_true] at hj
    obtain ⟨hjm, hjw⟩ := hj
    obtain ⟨hwj, -⟩ := testBit_maskbits.1 hjw
    by_cases hjlt : j < RADV_SHADER_ALLOC_NUM_FREE_LISTS
    · exact ⟨j, hwj, hjlt, (hm.1 j hjlt).1 hjm⟩
    · exact absurd hjm
        (by simpa using testBit_ge_of_lt hm.2 (Nat.le_of_not_lt hjlt))
  · rintro ⟨k, hwk, hk, hne⟩
    intro h0
    have hX0 : d.freeListMask &&&
        (BITFIELD_MASK RADV_SHADER_ALLOC_NUM_FREE_LISTS <<< w) = 0 :=
      (ffs_eq_zero_iff _).1 h0
    have hbit : (d.freeListMask &&&
        (BITFIELD_MASK RADV_SHADER_ALLOC_NUM_FREE_LISTS <<< w)).testBit k := by
      rw [Nat.testBit_land, Bool.and_eq_true]
      exact ⟨(hm.1 k hk).2 hne, testBit_maskbits.2
        ⟨hwk, Nat.lt_of_lt_of_le hk (Nat.le_add_left _ _)⟩⟩
    rw [hX0] at hbit
    simp at hbit

/-- C10, instantiated: the mask invariant and the bit-scan characterization
at a concrete reachable state with one allocation. -/
theorem C10_mask_invariant_witness :
    (∀ k, k < RADV_SHADER_ALLOC_NUM_FREE_LISTS →
      (sampleAllocState.freeListMask.testBit k ↔
        sampleAllocState.freeLists.getD k [] ≠ [])) ∧
    (∀ w, ffs (sampleAllocState.freeListMask &&&
        (BITFIELD_MASK RADV_SHADER_ALLOC_NUM_FREE_LISTS <<< w)) ≠ 0 ↔
      ∃ k, w ≤ k ∧ k < RADV_SHADER_ALLOC_NUM_FREE_LISTS ∧
        sampleAllocState.freeLists.getD k [] ≠ []) :=
  C10_mask_invariant (Reachable.alloc {} 256 7 Reachable.init (by decide))

/-- C6 counterexample: with one pooled descriptor and a failing `malloc`, a
failing allocation consumes the pooled descriptor: the failure path frees the
popped descriptors to the host allocator instead of returning them to the
pool, so the visible state is NOT identical to the state before the call —
the pool shrinks from 1 to 0. -/
theorem C6_failure_not_identical :
    (radv_alloc_shader_memory { mallocOks := [false] }
      { radv_init_shader_arenas with blockPool := 1 } 256 7).1 = none ∧
    ({ radv_init_shader_arenas with blockPool := 1 } : Device).blockPool = 1 ∧
    (radv_alloc_shader_memory { mallocOks := [false] }
      { radv_init_shader_arenas with blockPool := 1 } 256 7).2.blockPool = 0 := by
  refine ⟨?_, rfl, ?_⟩ <;> decide

/-- C6 (amended): when `alloc` fails, the arena set, every size-class free
list, the non-emptiness mask, the growth shift and the id counter are exactly
as before the call; the descriptor pool does not grow, but may shrink
(descriptors popped from the pool on the failing path are `free()`d to the
host allocator, not returned to the pool). -/
theorem C6_failure_atomicity {env : AllocEnv} {d : Device} {size0 : Nat}
    {owner : Owner}
    (hfail : (radv_alloc_shader_memory env d size0 owner).1 = none) :
    (radv_alloc_shader_memory env d size0 owner).2.arenas = d.arenas ∧
    (radv_alloc_shader_memory env d size0 owner).2.freeLists = d.freeLists ∧
    (radv_alloc_shader_memory env d size0 owner).2.freeListMask =
      d.freeListMask ∧
    (radv_alloc_shader_memory env d size0 owner).2.arenaShift = d.arenaShift ∧
    (radv_alloc_shader_memory env d size0 owner).2.nextArenaId =
      d.nextArenaId ∧
    (radv_alloc_shader_memory env d size0 owner).2.blockPool ≤ d.blockPool := by
  rcases alloc_cases env d size0 owner with
    ⟨-, r, hole, -, ⟨-, hres⟩ | ⟨-, ok, pool1, oks1, hab, ⟨-, hres⟩ | ⟨-, hres⟩⟩⟩ |
    ⟨-, hres⟩
  · rw [hres] at hfail; exact absurd hfail (by simp)
  · rw [hres] at hfail; exact absurd hfail (by simp)
  · rw [hres]
    refine ⟨rfl, rfl, rfl, rfl, rfl, ?_⟩
    have := alloc_block_obj_le d.blockPool env.mallocOks
    rw [hab] at this
    exact this
  · rw [hres]
    rcases allocNewArena_cases env d
        (align size0 RADV_SHADER_ALLOC_ALIGNMENT) owner with
      ⟨pool2, hp2, hna⟩ | ⟨pool2, -, hna⟩
    · rw [hna]
      exact ⟨rfl, rfl, rfl, rfl, rfl, hp2⟩
    · rw [hres, hna] at hfail
      exact absurd hfail (by simp)

/-- C6 (amended), instantiated: the failing allocation of the counterexample
leaves arenas, free lists, mask, shift and id counter unchanged and does not
grow the pool. -/
theorem C6_failure_atomicity_witness :
    (radv_alloc_shader_memory { mallocOks := [false] }
        { radv_init_shader_arenas with blockPool := 1 } 256 7).1 = none ∧
    ((radv_alloc_shader_memory { mallocOks := [false] }
        { radv_init_shader_arenas with blockPool := 1 } 256 7).2.arenas =
      ({ radv_init_shader_arenas with blockPool := 1 } : Device).arenas ∧
    (radv_alloc_shader_memory { mallocOks := [false] }
        { radv_init_shader_arenas with blockPool := 1 } 256 7).2.freeLists =
      ({ radv_init_shader_arenas with blockPool := 1 } : Device).freeLists ∧
    (radv_alloc_shader_memory { mallocOks := [false] }
        { radv_init_shader_arenas with blockPool := 1 } 256 7).2.freeListMask =
      ({ radv_init_shader_arenas with blockPool := 1 } : Device).freeListMask ∧
    (radv_alloc_shader_memory { mallocOks := [false] }
        { radv_init_shader_arenas with blockPool := 1 } 256 7).2.arenaShift =
      ({ radv_init_shader_arenas with blockPool := 1 } : Device).arenaShift ∧
    (radv_alloc_shader_memory { mallocOks := [false] }
        { radv_init_shader_arenas with blockPool := 1 } 256 7).2.nextArenaId =
      ({ radv_init_shader_arenas with blockPool := 1 } : Device).nextArenaId ∧
    (radv_alloc_shader_memory { mallocOks := [false] }
        { radv_init_shader_arenas with blockPool := 1 } 256 7).2.blockPool ≤
      ({ radv_init_shader_arenas with blockPool := 1 } : Device).blockPool) :=
  ⟨by decide, C6_failure_atomicity (by decide)⟩

/-- An allocated block descriptor. -/
def allocBlock (off size : Nat) (owner : Owner) : Block :=
  { offset := off, size := size, state := .allocated owner }

/-- A free block descriptor. -/
def freeBlock (off size : Nat) : Block :=
  { offset := off, size := size, state := .free }

/-- C5 counterexample: with one arena holding a 261888-byte hole (size class
7), a request for 524288 bytes also lands in the clamped top class 7, so the
bit-scan finds a non-empty class — yet the call is NOT satisfied from that
class's first block: the scan skips the too-small hole and a new arena is
created. -/
theorem C5_new_arena_despite_nonempty_class :
    ffs (scanWord sampleAllocState
      (align 524288 RADV_SHADER_ALLOC_ALIGNMENT)) ≠ 0 ∧
    sampleAllocState.arenas.map Arena.id = [0] ∧
    (radv_alloc_shader_memory {} sampleAllocState 524288 9).1 =
      some (1, 0) ∧
    (radv_alloc_shader_memory {} sampleAllocState 524288 9).2.arenas.map
      Arena.id = [0, 1] := by
  exact ⟨by decide, by decide, by decide, by decide⟩

/-- C5 (amended): the scan examines only the single class found by the
bit-scan and skips blocks that are too small; when some block of that class
fits, the request is satisfied from the FIRST FITTING block of that class's
list (given that the descriptor allocation oracle succeeds): the block is
returned whole when its size equals the rounded request, otherwise it is
split into an allocated block and a smaller free remainder, and no new arena
is created by that call. -/
theorem C5_good_fit {d : Device} (hwf : DeviceWF d) (env : AllocEnv)
    (size0 : Nat) (hszpos : 0 < size0) (owner : Owner)
    (henv : (alloc_block_obj d.blockPool env.mallocOks).1 = true)
    (hffs : ffs (scanWord d (align size0 RADV_SHADER_ALLOC_ALIGNMENT)) ≠ 0)
    {r : BlockRef}
    (hfirst : (d.freeLists.getD
        (ffs (scanWord d (align size0 RADV_SHADER_ALLOC_ALIGNMENT)) - 1)
        []).find? (refFits d (align size0 RADV_SHADER_ALLOC_ALIGNMENT)) =
      some r) :
    (radv_alloc_shader_memory env d size0 owner).1 = some r ∧
    (radv_alloc_shader_memory env d size0 owner).2.arenas.map Arena.id =
      d.arenas.map Arena.id ∧
    ∃ hole, lookupRef d r = some hole ∧
      align size0 RADV_SHADER_ALLOC_ALIGNMENT ≤ hole.size ∧
      (∃ b, lookupRef (radv_alloc_shader_memory env d size0 owner).2 r =
        some b ∧ b.offset = r.2 ∧
        b.size = align size0 RADV_SHADER_ALLOC_ALIGNMENT ∧
        b.state = BlockState.allocated owner) ∧
      (align size0 RADV_SHADER_ALLOC_ALIGNMENT < hole.size →
        ∃ h2, lookupRef (radv_alloc_shader_memory env d size0 owner).2
          (r.1, r.2 + align size0 RADV_SHADER_ALLOC_ALIGNMENT) = some h2 ∧
        h2.offset = r.2 + align size0 RADV_SHADER_ALLOC_ALIGNMENT ∧
        h2.size = hole.size - align size0 RADV_SHADER_ALLOC_ALIGNMENT ∧
        h2.state = BlockState.free) := by
  cases hfd : findFit d (d.freeLists.getD
      (ffs (scanWord d (align size0 RADV_SHADER_ALLOC_ALIGNMENT)) - 1) [])
      (align size0 RADV_SHADER_ALLOC_ALIGNMENT) with
  | none =>
    have hmap := findFit_eq_find? d (align size0 RADV_SHADER_ALLOC_ALIGNMENT)
      (d.freeLists.getD
        (ffs (scanWord d (align size0 RADV_SHADER_ALLOC_ALIGNMENT)) - 1) [])
    rw [hfd, hfirst] at hmap
    exact absurd hmap (by simp)
  | some p =>
    obtain ⟨r0, hole⟩ := p
    have hmap := findFit_eq_find? d (align size0 RADV_SHADER_ALLOC_ALIGNMENT)
      (d.freeLists.getD
        (ffs (scanWord d (align size0 RADV_SHADER_ALLOC_ALIGNMENT)) - 1) [])
    rw [hfd, hfirst] at hmap
    have hr0 : r = r0 := by
      have := hmap
      simp at this
      exact this.symm
    subst hr0
    have hk := findFit_k_lt hwf.1 hfd
    obtain ⟨-, hfit, a, ha, haid, hmemhole, hoff, -, -⟩ :=
      findFit_wf hwf hk hfd
    have hlook : lookupRef d r = some hole :=
      (findFit_sound hfd).2.1
    have hpost := wf_alloc hwf env hszpos owner
    rcases alloc_cases env d size0 owner with
      ⟨-, r1, hole1, hfind1, hcases⟩ | ⟨hcond, -⟩
    · rw [hfd] at hfind1
      obtain ⟨hr1, hhole1⟩ := Prod.mk.injEq .. ▸ Option.some.inj hfind1
      rw [← hr1, ← hhole1] at hcases
      rcases hcases with ⟨heq, hres⟩ |
        ⟨heq, ok, pool1, oks1, hab, ⟨-, hres⟩ | ⟨hok, hres⟩⟩
      · -- exact fit: the hole is returned whole
        rw [hres] at hpost ⊢
        refine ⟨rfl, ?_, hole, hlook, hfit, ?_, ?_⟩
        · show (markAllocated (remove_hole d r hole.size) r
            owner).arenas.map Arena.id = d.arenas.map Arena.id
          unfold markAllocated
          rw [updateArena_map_id, remove_hole_arenas]
        · have ha2 : a ∈ (remove_hole d r hole.size).arenas := by
            rw [remove_hole_arenas]; exact ha
          have ha' := mem_updateArena_self
            (f := fun es => es.map (flipAt r.2 owner)) ha2 haid
          have hb' : flipAt r.2 owner hole ∈
              a.entries.map (flipAt r.2 owner) :=
            List.mem_map_of_mem _ hmemhole
          have hl := lookupRef_of_wf hpost.2.2.1.1 hpost.2.1 ha' hb'
          refine ⟨flipAt r.2 owner hole, ?_, ?_, ?_, ?_⟩
          · have hl2 : lookupRef (markAllocated (remove_hole d r hole.size)
                r owner) (a.id, (flipAt r.2 owner hole).offset) =
                some (flipAt r.2 owner hole) := hl
            rw [flipAt_offset, hoff, haid] at hl2
            exact hl2
          · rw [flipAt_offset, hoff]
          · rw [flipAt_size, heq]
          · rw [flipAt_self owner hoff]
        · intro hlt
          rw [heq] at hlt
          exact absurd hlt (by omega)
      · -- split: allocated block inserted before the shrunk hole
        rw [hres] at hpost ⊢
        have hlt : align size0 RADV_SHADER_ALLOC_ALIGNMENT < hole.size := by
          omega
        obtain ⟨A, B, hdec⟩ := List.append_of_mem hmemhole
        have htiles := (hwf.2.1 a ha).1
        obtain ⟨hAlt, hBge⟩ := tiles_decomp_offsets htiles hdec
        have hApos : 0 < align size0 RADV_SHADER_ALLOC_ALIGNMENT :=
          align_pos hszpos
        have hA : ∀ c ∈ A, c.offset ≠ r.2 := fun c hc => by
          have := hAlt c hc; omega
        have hB : ∀ c ∈ B, c.offset ≠ r.2 := fun c hc => by
          have := hBge c hc; omega
        have hsplit : splitEntries r.2
            (align size0 RADV_SHADER_ALLOC_ALIGNMENT) owner a.entries =
            A ++ (allocBlock r.2 (align size0 RADV_SHADER_ALLOC_ALIGNMENT)
                owner ::
              freeBlock (r.2 + align size0 RADV_SHADER_ALLOC_ALIGNMENT)
                (hole.size - align size0 RADV_SHADER_ALLOC_ALIGNMENT) :: B) := by
          rw [hdec]
          exact splitEntries_eq hoff hA hB
        have ha2 : a ∈ (remove_hole { d with blockPool := pool1 } r
            hole.size).arenas := by
          rw [remove_hole_arenas]; exact ha
        have ha' := mem_updateArena_self
          (f := splitEntries r.2 (align size0 RADV_SHADER_ALLOC_ALIGNMENT)
            owner) ha2 haid
        have ha'' := (add_hole_arenas (updateArena (remove_hole
            { d with blockPool := pool1 } r hole.size) r.1
            (splitEntries r.2 (align size0 RADV_SHADER_ALLOC_ALIGNMENT)
              owner))
            (r.1, r.2 + align size0 RADV_SHADER_ALLOC_ALIGNMENT)
            (hole.size - align size0 RADV_SHADER_ALLOC_ALIGNMENT)).symm ▸ ha'
        refine ⟨rfl, ?_, hole, hlook, hfit, ?_, fun _ => ?_⟩
        · rw [add_hole_arenas, updateArena_map_id, remove_hole_arenas]
        · have hballoc : allocBlock r.2
              (align size0 RADV_SHADER_ALLOC_ALIGNMENT) owner ∈
              splitEntries r.2 (align size0 RADV_SHADER_ALLOC_ALIGNMENT)
                owner a.entries := by
            rw [hsplit]
            exact List.mem_append_right _ (List.mem_cons_self _ _)
          have hl := lookupRef_of_wf hpost.2.2.1.1 hpost.2.1 ha'' hballoc
          refine ⟨allocBlock r.2 (align size0 RADV_SHADER_ALLOC_ALIGNMENT)
            owner, ?_, rfl, rfl, rfl⟩
          have hl2 : lookupRef (add_hole (updateArena (remove_hole
              { d with blockPool := pool1 } r hole.size) r.1
              (splitEntries r.2 (align size0 RADV_SHADER_ALLOC_ALIGNMENT)
                owner))
              (r.1, r.2 + align size0 RADV_SHADER_ALLOC_ALIGNMENT)
              (hole.size - align size0 RADV_SHADER_ALLOC_ALIGNMENT))
              (a.id, r.2) =
              some (allocBlock r.2
                (align size0 RADV_SHADER_ALLOC_ALIGNMENT) owner) := hl
          rw [haid] at hl2
          exact hl2
        · have hbrest : freeBlock
              (r.2 + align size0 RADV_SHADER_ALLOC_ALIGNMENT)
              (hole.size - align size0 RADV_SHADER_ALLOC_ALIGNMENT) ∈
              splitEntries r.2 (align size0 RADV_SHADER_ALLOC_ALIGNMENT)
                owner a.entries := by
            rw [hsplit]
            exact List.mem_append_right _
              (List.mem_cons_of_mem _ (List.mem_cons_self _ _))
          have hl := lookupRef_of_wf hpost.2.2.1.1 hpost.2.1 ha'' hbrest
          refine ⟨freeBlock (r.2 + align size0 RADV_SHADER_ALLOC_ALIGNMENT)
            (hole.size - align size0 RADV_SHADER_ALLOC_ALIGNMENT),
            ?_, rfl, rfl, rfl⟩
          have hl2 : lookupRef (add_hole (updateArena (remove_hole
              { d with blockPool := pool1 } r hole.size) r.1
              (splitEntries r.2 (align size0 RADV_SHADER_ALLOC_ALIGNMENT)
                owner))
              (r.1, r.2 + align size0 RADV_SHADER_ALLOC_ALIGNMENT)
              (hole.size - align size0 RADV_SHADER_ALLOC_ALIGNMENT))
              (a.id, r.2 + align size0 RADV_SHADER_ALLOC_ALIGNMENT) =
              some (freeBlock
                (r.2 + align size0 RADV_SHADER_ALLOC_ALIGNMENT)
                (hole.size - align size0 RADV_SHADER_ALLOC_ALIGNMENT)) := hl
          rw [haid] at hl2
          exact hl2
      · -- descriptor allocation failed: contradicts the oracle hypothesis
        rw [hab] at henv
        simp at henv
        exact absurd henv (by rw [hok]; simp)
    · rcases hcond with h0 | hnone
      · exact absurd h0 hffs
      · rw [hfd] at hnone
        exact absurd hnone (by simp)

/-- C5 (amended), instantiated: a 512-byte request on the one-arena state
finds class 7 non-empty; its first (and only) hole fits and is split in
place; no new arena appears. -/
theorem C5_good_fit_witness :
    DeviceWF sampleAllocState ∧
    ffs (scanWord sampleAllocState
      (align 512 RADV_SHADER_ALLOC_ALIGNMENT)) ≠ 0 ∧
    (sampleAllocState.freeLists.getD
      (ffs (scanWord sampleAllocState
        (align 512 RADV_SHADER_ALLOC_ALIGNMENT)) - 1) []).find?
      (refFits sampleAllocState (align 512 RADV_SHADER_ALLOC_ALIGNMENT)) =
      some (0, 256) ∧
    ((radv_alloc_shader_memory {} sampleAllocState 512 11).1 =
        some (0, 256) ∧
      (radv_alloc_shader_memory {} sampleAllocState 512 11).2.arenas.map
        Arena.id = sampleAllocState.arenas.map Arena.id ∧
      ∃ hole, lookupRef sampleAllocState (0, 256) = some hole ∧
        align 512 RADV_SHADER_ALLOC_ALIGNMENT ≤ hole.size ∧
        (∃ b, lookupRef
          (radv_alloc_shader_memory {} sampleAllocState 512 11).2 (0, 256) =
          some b ∧ b.offset = (0, 256).2 ∧
          b.size = align 512 RADV_SHADER_ALLOC_ALIGNMENT ∧
          b.state = BlockState.allocated 11) ∧
        (align 512 RADV_SHADER_ALLOC_ALIGNMENT < hole.size →
          ∃ h2, lookupRef
            (radv_alloc_shader_memory {} sampleAllocState 512 11).2
            ((0, 256).1, (0, 256).2 +
              align 512 RADV_SHADER_ALLOC_ALIGNMENT) = some h2 ∧
          h2.offset = (0, 256).2 + align 512 RADV_SHADER_ALLOC_ALIGNMENT ∧
          h2.size = hole.size - align 512 RADV_SHADER_ALLOC_ALIGNMENT ∧
          h2.state = BlockState.free)) :=
  ⟨by decide, by decide, by decide,
    C5_good_fit (by decide) {} 512 (by decide) 11 (by decide) (by decide)
      (by decide)⟩

/-- C9: Owner resolution: for a well-formed state whose arena buffers occupy
disjoint device-address ranges, `radv_find_shader` returns `some w` exactly
when some currently allocated block owned by `w` contains the address in its
absolute byte range (and that block is unique); it returns `none` when no
allocated block contains the address. -/
theorem C9_owner_resolution {d : Device} (hwf : DeviceWF d)
    (hb : basesDisjoint d) (pc : Nat) (w : Owner) :
    radv_find_shader d pc = some w ↔
      ∃ a ∈ d.arenas, ∃ b ∈ a.entries, b.state = BlockState.allocated w ∧
        a.base + b.offset ≤ pc ∧ pc < a.base + b.offset + b.size := by
  have hinner : ∀ (a : Arena) (b : Block) (w' : Owner),
      (match b.state with
        | .free => none
        | .allocated o =>
          if a.base + b.offset ≤ pc ∧ pc < a.base + b.offset + b.size then
            some o
          else none) = some w' ↔
      b.state = BlockState.allocated w' ∧
        a.base + b.offset ≤ pc ∧ pc < a.base + b.offset + b.size := by
    intro a b w'
    cases hst : b.state with
    | free => simp
    | allocated o =>
      dsimp only
      constructor
      · intro hsome
        by_cases hrange : a.base + b.offset ≤ pc ∧
            pc < a.base + b.offset + b.size
        · rw [if_pos hrange] at hsome
          obtain rfl := Option.some.inj hsome
          exact ⟨rfl, hrange⟩
        · rw [if_neg hrange] at hsome
          exact absurd hsome (by simp)
      · rintro ⟨hso, hrange⟩
        obtain rfl := BlockState.allocated.inj hso
        rw [if_pos hrange]
  constructor
  · intro hfind
    obtain ⟨a, ha, hfa⟩ := List.exists_of_findSome?_eq_some hfind
    obtain ⟨b, hbmem, hfb⟩ := List.exists_of_findSome?_eq_some hfa
    obtain ⟨hst, hrange⟩ := (hinner a b w).1 hfb
    exact ⟨a, ha, b, hbmem, hst, hrange⟩
  · rintro ⟨a, ha, b, hbmem, hst, hrange⟩
    cases hfind : radv_find_shader d pc with
    | none =>
      have hall := List.findSome?_eq_none_iff.1 hfind a ha
      have hallb := List.findSome?_eq_none_iff.1 hall b hbmem
      exact absurd ((hinner a b w).2 ⟨hst, hrange⟩) (by rw [hallb]; simp)
    | some w0 =>
      obtain ⟨a0, ha0, hfa0⟩ := List.exists_of_findSome?_eq_some hfind
      obtain ⟨b0, hb0mem, hfb0⟩ := List.exists_of_findSome?_eq_some hfa0
      obtain ⟨hst0, hrange0⟩ := (hinner a0 b0 w0).1 hfb0
      have htiles := (hwf.2.1 a ha).1
      have htiles0 := (hwf.2.1 a0 ha0).1
      have hbnd := tilesFrom_bounds htiles b hbmem
      have hbnd0 := tilesFrom_bounds htiles0 b0 hb0mem
      by_cases haa : a = a0
      · subst haa
        have hbb : b = b0 := by
          by_cases hbo : b.offset = b0.offset
          · exact tilesFrom_offset_inj htiles hbmem hb0mem hbo
          · have := tilesFrom_disjoint htiles b hbmem b0 hb0mem hbo
            omega
        rw [hbb, hst0] at hst
        exact congrArg Option.some (BlockState.allocated.inj hst)
      · have hdisj := List.Pairwise.forall
          (fun x y h => h.symm) hb ha ha0 haa
        exact absurd hdisj (by omega)

/-- General no-aliasing: in a well-formed state with disjoint arena buffers,
two distinct blocks (distinct arena id or distinct offset) occupy disjoint
absolute byte ranges. -/
theorem no_overlap {d : Device} (hwf : DeviceWF d) (hb : basesDisjoint d)
    {a : Arena} (ha : a ∈ d.arenas) {b : Block} (hbm : b ∈ a.entries)
    {a2 : Arena} (ha2 : a2 ∈ d.arenas) {b2 : Block} (hb2 : b2 ∈ a2.entries)
    (hne : ¬(a2.id = a.id ∧ b2.offset = b.offset)) :
    a2.base + b2.offset + b2.size ≤ a.base + b.offset ∨
      a.base + b.offset + b.size ≤ a2.base + b2.offset := by
  have htiles := (hwf.2.1 a ha).1
  have htiles2 := (hwf.2.1 a2 ha2).1
  have hbnd := tilesFrom_bounds htiles b hbm
  have hbnd2 := tilesFrom_bounds htiles2 b2 hb2
  by_cases hid : a2.id = a.id
  · have haa : a2 = a := arena_id_inj hwf.2.2.1.1 ha2 ha hid
    subst haa
    have hoffne : b2.offset ≠ b.offset := fun h => hne ⟨rfl, h⟩
    have := tilesFrom_disjoint htiles2 b2 hb2 b hbm hoffne
    omega
  · have hane : a2 ≠ a := fun h => hid (congrArg Arena.id h)
    have hdisj := List.Pairwise.forall (fun x y h => h.symm) hb ha2 ha hane
    omega

/-- `updateArena` does not change arena ids, bases or sizes, so it preserves
buffer-range disjointness. -/
theorem basesDisjoint_updateArena {d : Device} (hb : basesDisjoint d)
    (aid : Nat) (f : List Block → List Block) :
    basesDisjoint (updateArena d aid f) := by
  have hgb : ∀ x : Arena,
      (if x.id = aid then { x with entries := f x.entries } else x).base =
        x.base := fun x => by by_cases h : x.id = aid <;> simp [h]
  have hgs : ∀ x : Arena,
      (if x.id = aid then { x with entries := f x.entries } else x).size =
        x.size := fun x => by by_cases h : x.id = aid <;> simp [h]
  show (d.arenas.map fun x =>
      if x.id = aid then { x with entries := f x.entries } else x).Pairwise
    fun a b => a.base + a.size ≤ b.base ∨ b.base + b.size ≤ a.base
  refine List.Pairwise.map _ (fun x y h => ?_) hb
  rcases h with h | h
  · exact Or.inl (by rw [hgb x, hgs x, hgb y]; exact h)
  · exact Or.inr (by rw [hgb y, hgs y, hgb x]; exact h)

/-- `basesDisjoint` depends only on the arena list. -/
theorem basesDisjoint_congr {d d' : Device} (h : d.arenas = d'.arenas)
    (hb : basesDisjoint d) : basesDisjoint d' := by
  unfold basesDisjoint at hb ⊢
  rw [← h]
  exact hb

/-- `alloc` preserves buffer-range disjointness, provided any freshly created
buffer is placed disjointly from the existing ones. -/
theorem basesDisjoint_alloc {d : Device} (hbases : basesDisjoint d)
    (env : AllocEnv) (size0 : Nat) (owner : Owner)
    (hfresh : ∀ a ∈ d.arenas, a.base + a.size ≤ env.newBase ∨
      env.newBase + newArenaSize d.arenaShift
        (align size0 RADV_SHADER_ALLOC_ALIGNMENT) ≤ a.base) :
    basesDisjoint (radv_alloc_shader_memory env d size0 owner).2 := by
  rcases alloc_cases env d size0 owner with
    ⟨-, r, hole, -, ⟨-, hres⟩ | ⟨-, ok, pool1, oks1, -, ⟨-, hres⟩ | ⟨-, hres⟩⟩⟩ |
    ⟨-, hres⟩
  · rw [hres]
    exact basesDisjoint_updateArena
      (basesDisjoint_congr (remove_hole_arenas d r hole.size).symm hbases) _ _
  · rw [hres]
    refine basesDisjoint_congr (add_hole_arenas _ _ _).symm ?_
    exact basesDisjoint_updateArena
      (basesDisjoint_congr (remove_hole_arenas _ r hole.size).symm hbases) _ _
  · rw [hres]
    exact hbases
  · rw [hres]
    rcases allocNewArena_cases env d
        (align size0 RADV_SHADER_ALLOC_ALIGNMENT) owner with
      ⟨pool2, -, hna⟩ | ⟨pool2, -, hna⟩
    · rw [hna]
      exact hbases
    · rw [hna]
      simp only []
      have happ : basesDisjoint { d with
          arenas := d.arenas ++ [newArenaOf env d
            (align size0 RADV_SHADER_ALLOC_ALIGNMENT) owner]
          blockPool := pool2
          arenaShift := d.arenaShift + 1
          nextArenaId := d.nextArenaId + 1 } := by
        unfold basesDisjoint
        simp only []
        rw [List.pairwise_append]
        refine ⟨hbases, List.pairwise_singleton _ _, ?_⟩
        intro x hx y hy
        rw [List.mem_singleton] at hy
        subst hy
        exact hfresh x hx
      by_cases hrem : 0 < newArenaSize d.arenaShift
          (align size0 RADV_SHADER_ALLOC_ALIGNMENT) -
          align size0 RADV_SHADER_ALLOC_ALIGNMENT
      · rw [if_pos hrem]
        exact basesDisjoint_congr (add_hole_arenas _ _ _).symm happ
      · rw [if_neg hrem]
        exact happ

/-- The block returned by a successful `alloc` exists in the post state:
allocated to the requester, at the returned offset, with the rounded size. -/
theorem alloc_block_exists {d : Device} (hwf : DeviceWF d) (env : AllocEnv)
    (size0 : Nat) (hszpos : 0 < size0) (owner : Owner) {r : BlockRef}
    {d1 : Device}
    (halloc : radv_alloc_shader_memory env d size0 owner = (some r, d1)) :
    ∃ a ∈ d1.arenas, a.id = r.1 ∧ ∃ b ∈ a.entries, b.offset = r.2 ∧
      b.state = BlockState.allocated owner ∧
      b.size = align size0 RADV_SHADER_ALLOC_ALIGNMENT := by
  rcases alloc_cases env d size0 owner with
    ⟨-, r0, hole, hfind, ⟨heq, hres⟩ |
      ⟨heq, ok, pool1, oks1, -, ⟨-, hres⟩ | ⟨-, hres⟩⟩⟩ |
    ⟨-, hres⟩
  · rw [hres] at halloc
    obtain ⟨hr0, hd1⟩ := Prod.mk.injEq .. ▸ halloc
    obtain rfl : r = r0 := (Option.some.inj hr0).symm
    have hk := findFit_k_lt hwf.1 hfind
    obtain ⟨-, hfit, a, ha, haid, hmemhole, hoff, -, -⟩ :=
      findFit_wf hwf hk hfind
    have ha2 : a ∈ (remove_hole d r hole.size).arenas := by
      rw [remove_hole_arenas]; exact ha
    have ha' := mem_updateArena_self
      (f := fun es => es.map (flipAt r.2 owner)) ha2 haid
    refine ⟨{ a with entries := a.entries.map (flipAt r.2 owner) },
      by rw [← hd1]; exact ha', haid, flipAt r.2 owner hole,
      List.mem_map_of_mem _ hmemhole, ?_, ?_, ?_⟩
    · rw [flipAt_offset, hoff]
    · rw [flipAt_self owner hoff]
    · rw [flipAt_size, heq]
  · rw [hres] at halloc
    obtain ⟨hr0, hd1⟩ := Prod.mk.injEq .. ▸ halloc
    obtain rfl : r = r0 := (Option.some.inj hr0).symm
    have hk := findFit_k_lt hwf.1 hfind
    obtain ⟨-, hfit, a, ha, haid, hmemhole, hoff, -, -⟩ :=
      findFit_wf hwf hk hfind
    obtain ⟨A, B, hdec⟩ := List.append_of_mem hmemhole
    have htiles := (hwf.2.1 a ha).1
    obtain ⟨hAlt, hBge⟩ := tiles_decomp_offsets htiles hdec
    have hApos : 0 < align size0 RADV_SHADER_ALLOC_ALIGNMENT :=
      align_pos hszpos
    have hA : ∀ c ∈ A, c.offset ≠ r.2 := fun c hc => by
      have := hAlt c hc; omega
    have hB : ∀ c ∈ B, c.offset ≠ r.2 := fun c hc => by
      have := hBge c hc; omega
    have hsplit : splitEntries r.2
        (align size0 RADV_SHADER_ALLOC_ALIGNMENT) owner a.entries =
        A ++ (allocBlock r.2 (align size0 RADV_SHADER_ALLOC_ALIGNMENT)
            owner ::
          freeBlock (r.2 + align size0 RADV_SHADER_ALLOC_ALIGNMENT)
            (hole.size - align size0 RADV_SHADER_ALLOC_ALIGNMENT) :: B) := by
      rw [hdec]
      exact splitEntries_eq hoff hA hB
    have ha2 : a ∈ (remove_hole { d with blockPool := pool1 } r
        hole.size).arenas := by
      rw [remove_hole_arenas]; exact ha
    have ha' := mem_updateArena_self
      (f := splitEntries r.2 (align size0 RADV_SHADER_ALLOC_ALIGNMENT)
        owner) ha2 haid
    have ha'' := (add_hole_arenas (updateArena (remove_hole
        { d with blockPool := pool1 } r hole.size) r.1
        (splitEntries r.2 (align size0 RADV_SHADER_ALLOC_ALIGNMENT)
          owner))
        (r.1, r.2 + align size0 RADV_SHADER_ALLOC_ALIGNMENT)
        (hole.size - align size0 RADV_SHADER_ALLOC_ALIGNMENT)).symm ▸ ha'
    refine ⟨{ a with entries := splitEntries r.2 (align size0 RADV_SHADER_ALLOC_ALIGNMENT) owner a.entries },
      by rw [← hd1]; exact ha'', haid,
      allocBlock r.2 (align size0 RADV_SHADER_ALLOC_ALIGNMENT) owner,
      ?_, rfl, rfl, rfl⟩
    show allocBlock r.2 (align size0 RADV_SHADER_ALLOC_ALIGNMENT) owner ∈
      splitEntries r.2 (align size0 RADV_SHADER_ALLOC_ALIGNMENT) owner
        a.entries
    rw [hsplit]
    exact List.mem_append_right _ (List.mem_cons_self _ _)
  · rw [hres] at halloc
    exact absurd (Prod.mk.injEq .. ▸ halloc).1 (by simp)
  · rw [hres] at halloc
    rcases allocNewArena_cases env d
        (align size0 RADV_SHADER_ALLOC_ALIGNMENT) owner with
      ⟨pool2, -, hna⟩ | ⟨pool2, -, hna⟩
    · rw [hna] at halloc
      exact absurd (Prod.mk.injEq .. ▸ halloc).1 (by simp)
    · rw [hna] at halloc
      obtain ⟨hr0, hd1⟩ := Prod.mk.injEq .. ▸ halloc
      obtain rfl : (d.nextArenaId, 0) = r := Option.some.inj hr0
      simp only [] at hd1
      have hmemA : newArenaOf env d
          (align size0 RADV_SHADER_ALLOC_ALIGNMENT) owner ∈ d1.arenas := by
        rw [← hd1]
        by_cases hrem : 0 < newArenaSize d.arenaShift
            (align size0 RADV_SHADER_ALLOC_ALIGNMENT) -
            align size0 RADV_SHADER_ALLOC_ALIGNMENT
        · rw [if_pos hrem, add_hole_arenas]
          exact List.mem_append_right _ (List.mem_singleton.2 rfl)
        · rw [if_neg hrem]
          exact List.mem_append_right _ (List.mem_singleton.2 rfl)
      refine ⟨_, hmemA, rfl,
        allocBlock 0 (align size0 RADV_SHADER_ALLOC_ALIGNMENT) owner,
        ?_, rfl, rfl, rfl⟩
      show allocBlock 0 (align size0 RADV_SHADER_ALLOC_ALIGNMENT) owner ∈
        (if 0 < newArenaSize d.arenaShift
            (align size0 RADV_SHADER_ALLOC_ALIGNMENT) -
            align size0 RADV_SHADER_ALLOC_ALIGNMENT then _ else _)
      by_cases hrem : 0 < newArenaSize d.arenaShift
          (align size0 RADV_SHADER_ALLOC_ALIGNMENT) -
          align size0 RADV_SHADER_ALLOC_ALIGNMENT
      · rw [if_pos hrem]
        exact List.mem_cons_self _ _
      · rw [if_neg hrem]
        exact List.mem_cons_self _ _

/-- C9, instantiated: on the two-allocation state, address 300 falls in the
second allocation (owner 9), and `radv_find_shader` resolves it. -/
theorem C9_owner_resolution_witness :
    DeviceWF sampleAllocState2 ∧ basesDisjoint sampleAllocState2 ∧
      (radv_find_shader sampleAllocState2 300 = some 9 ↔
        ∃ a ∈ sampleAllocState2.arenas, ∃ b ∈ a.entries,
          b.state = BlockState.allocated 9 ∧
          a.base + b.offset ≤ 300 ∧ 300 < a.base + b.offset + b.size) :=
  ⟨by decide, by decide, C9_owner_resolution (by decide) (by decide) 300 9⟩

/-- C2: Alloc postcondition: every successful `alloc(size0, owner)` with
`size0 > 0`, on a well-formed state with disjoint arena buffers (and a fresh
buffer placed disjointly, if one is created), returns a block whose absolute
byte range does not overlap any other live allocated block in any arena;
its size is the request rounded up to the allocation alignment, and its
offset is a multiple of the alignment. -/
theorem C2_alloc_postcondition (d : Device) (hwf : DeviceWF d) (env : AllocEnv)
    (size0 : Nat) (hszpos : 0 < size0) (owner : Owner) {r : BlockRef}
    {d1 : Device}
    (halloc : radv_alloc_shader_memory env d size0 owner = (some r, d1))
    (hbases : basesDisjoint d)
    (hfresh : ∀ a ∈ d.arenas, a.base + a.size ≤ env.newBase ∨
      env.newBase + newArenaSize d.arenaShift
        (align size0 RADV_SHADER_ALLOC_ALIGNMENT) ≤ a.base) :
    ∃ a ∈ d1.arenas, a.id = r.1 ∧ ∃ b ∈ a.entries,
      b.offset = r.2 ∧ b.state = BlockState.allocated owner ∧
      b.size = align size0 RADV_SHADER_ALLOC_ALIGNMENT ∧
      b.offset % RADV_SHADER_ALLOC_ALIGNMENT = 0 ∧
      ∀ a2 ∈ d1.arenas, ∀ b2 ∈ a2.entries, b2.state ≠ BlockState.free →
        ¬(a2.id = a.id ∧ b2.offset = b.offset) →
        (a2.base + b2.offset + b2.size ≤ a.base + b.offset ∨
          a.base + b.offset + b.size ≤ a2.base + b2.offset) := by
  have hpost := wf_alloc hwf env hszpos owner
  rw [halloc] at hpost
  have hbd1 : basesDisjoint d1 := by
    have h := basesDisjoint_alloc hbases env size0 owner hfresh
    rw [halloc] at h
    exact h
  obtain ⟨a, ha, haid, b, hbm, hboff, hbst, hbsz⟩ :=
    alloc_block_exists hwf env size0 hszpos owner halloc
  refine ⟨a, ha, haid, b, hbm, hboff, hbst, hbsz, ?_, ?_⟩
  · have htiles := (hpost.2.1 a ha).1
    exact tilesFrom_offset_mod htiles (Nat.zero_mod _) b hbm
  · intro a2 ha2 b2 hb2 hb2st hne
    exact no_overlap hpost hbd1 ha hbm ha2 hb2 hne

/-- C2, instantiated: the first 256-byte allocation from the initial state
returns offset 0 of arena 0, sized 256, aligned and non-overlapping. -/
theorem C2_alloc_postcondition_witness :
    radv_alloc_shader_memory {} radv_init_shader_arenas 256 7 =
      (some (0, 0), sampleAllocState) ∧
    basesDisjoint radv_init_shader_arenas ∧
    (∃ a ∈ sampleAllocState.arenas, a.id = ((0 : Nat), (0 : Nat)).1 ∧
      ∃ b ∈ a.entries,
      b.offset = ((0 : Nat), (0 : Nat)).2 ∧
      b.state = BlockState.allocated 7 ∧
      b.size = align 256 RADV_SHADER_ALLOC_ALIGNMENT ∧
      b.offset % RADV_SHADER_ALLOC_ALIGNMENT = 0 ∧
      ∀ a2 ∈ sampleAllocState.arenas, ∀ b2 ∈ a2.entries,
        b2.state ≠ BlockState.free → ¬(a2.id = a.id ∧ b2.offset = b.offset) →
        (a2.base + b2.offset + b2.size ≤ a.base + b.offset ∨
          a.base + b.offset + b.size ≤ a2.base + b2.offset)) :=
  ⟨by decide, by decide,
    C2_alloc_postcondition radv_init_shader_arenas (by decide) {} 256
      (by decide) 7 (by decide) (by decide) (by decide)⟩

/-- When the freed block is the only allocated block of its arena, `free`
takes the destroy branch: the arena is filtered out of the set and every
descriptor of the arena (the merged neighbors and the spanning block) is
released to the pool. -/
theorem free_destroys {d : Device} (hwf : DeviceWF d) {r : BlockRef}
    {a : Arena} (ha : a ∈ d.arenas) (haid : a.id = r.1)
    (hblk : ∃ b ∈ a.entries, b.offset = r.2 ∧ b.state ≠ BlockState.free)
    (hlast : ∀ c ∈ a.entries, c.state ≠ BlockState.free → c.offset = r.2) :
    (radv_free_shader_memory d r).arenas =
      d.arenas.filter (fun a2 => a2.id != r.1) ∧
    (radv_free_shader_memory d r).blockPool =
      d.blockPool + a.entries.length := by
  obtain ⟨b0, hb0, hb0off, hb0alloc⟩ := hblk
  have hwf2 := hwf
  obtain ⟨hlen, haren, hids, hrefs, hnd, hmask⟩ := hwf2
  obtain ⟨htilesa, hadja, -⟩ := haren a ha
  unfold radv_free_shader_memory
  rw [find?_id_of_nodup hids.1 ha haid.symm]
  simp only []
  have hsome := splitAtOffset_isSome hb0 hb0off
  cases hsplit : splitAtOffset r.2 a.entries with
  | none => rw [hsplit] at hsome; simp at hsome
  | some t =>
    obtain ⟨pre, b, post⟩ := t
    obtain ⟨hdec, hboff, hprene⟩ := splitAtOffset_sound hsplit
    obtain ⟨m, htpre, hrest⟩ := tilesFrom_append.1
      (show tilesFrom 0 (pre ++ b :: post) a.size by
        rw [← hdec]; exact htilesa)
    obtain ⟨hbm, hbpos, hbmod, htpost⟩ := hrest
    have hprefree : ∀ c ∈ pre, c.state = BlockState.free := by
      intro c hc
      by_contra hcf
      have hco := hlast c (by rw [hdec]; exact List.mem_append_left _ hc) hcf
      have hbnd := tilesFrom_bounds htpre c hc
      omega
    have hpostfree : ∀ c ∈ post, c.state = BlockState.free := by
      intro c hc
      by_contra hcf
      have hco := hlast c (by
        rw [hdec]
        exact List.mem_append_right _ (List.mem_cons_of_mem _ hc)) hcf
      have hbnd := tilesFrom_bounds htpost c hc
      omega
    have hchain : List.Chain' BlocksSep (pre ++ b :: post) := by
      show noAdjFree _
      rw [← hdec]
      exact hadja
    rw [List.chain'_append] at hchain
    obtain ⟨hcpre, hcbpost, hbound⟩ := hchain
    rw [List.chain'_cons'] at hcbpost
    obtain ⟨hposthead, hcpost⟩ := hcbpost
    simp only []
    cases hgl : get_hole pre.getLast? with
    | none =>
      have hpre0 : pre = [] := by
        cases hgL : pre.getLast? with
        | none => exact List.getLast?_eq_none_iff.1 hgL
        | some y =>
          exfalso
          have hymem : y ∈ pre :=
            List.mem_of_mem_getLast? (by rw [hgL]; rfl)
          have hyfree := hprefree y hymem
          rw [hgL, get_hole_eq_none] at hgl
          exact isFreeB_false_iff.1 (hgl y rfl) hyfree
      subst hpre0
      simp only []
      cases hgr : get_hole post.head? with
      | none =>
        have hpost0 : post = [] := by
          cases hgR : post.head? with
          | none => exact List.head?_eq_none_iff.1 hgR
          | some y =>
            exfalso
            have hymem : y ∈ post :=
              List.mem_of_mem_head? (by rw [hgR]; rfl)
            have hyfree := hpostfree y hymem
            rw [hgR, get_hole_eq_none] at hgr
            exact isFreeB_false_iff.1 (hgr y rfl) hyfree
        subst hpost0
        simp only []
        rw [if_pos (by simp)]
        refine ⟨rfl, ?_⟩
        show d.blockPool + 1 = d.blockPool + a.entries.length
        rw [hdec]
        simp
      | some n =>
        simp only []
        rw [get_hole_eq_some] at hgr
        obtain ⟨hn1, hn2⟩ := hgr
        have hnfree : n.state = BlockState.free := isFreeB_true_iff.1 hn2
        obtain ⟨t, hpost⟩ : ∃ t, post = n :: t := by
          cases post with
          | nil => simp at hn1
          | cons x t' =>
            rw [List.head?_cons] at hn1
            exact ⟨t', by rw [Option.some.inj hn1]⟩
        subst hpost
        rw [List.chain'_cons'] at hcpost
        obtain ⟨hthead, hcT⟩ := hcpost
        have ht0 : t = [] := by
          cases hgT : t.head? with
          | none => exact List.head?_eq_none_iff.1 hgT
          | some y =>
            exfalso
            have hymem : y ∈ t := List.mem_of_mem_head? (by rw [hgT]; rfl)
            have hyfree := hpostfree y
              (List.mem_cons_of_mem _ hymem)
            exact hthead y (by rw [hgT]; rfl) ⟨hnfree, hyfree⟩
        subst ht0
        rw [if_pos (by rfl)]
        refine ⟨?_, ?_⟩
        · show ((remove_hole d (r.1, n.offset) n.size).arenas.filter
            fun a2 => a2.id != r.1) = d.arenas.filter fun a2 => a2.id != r.1
          rw [remove_hole_arenas]
        · show (remove_hole d (r.1, n.offset) n.size).blockPool + 1 + 1 =
            d.blockPool + a.entries.length
          rw [remove_hole_pool, hdec]
          simp
    | some p =>
      simp only []
      rw [get_hole_eq_some] at hgl
      obtain ⟨hp1, hp2⟩ := hgl
      have hpfree : p.state = BlockState.free := isFreeB_true_iff.1 hp2
      have hpmemopt : p ∈ pre.getLast? := by rw [hp1]; rfl
      have hpre_eq : pre.dropLast ++ [p] = pre :=
        List.dropLast_append_getLast? p hpmemopt
      have hdl0 : pre.dropLast = [] := by
        cases hgDL : pre.dropLast.getLast? with
        | none => exact List.getLast?_eq_none_iff.1 hgDL
        | some x =>
          exfalso
          have hxmem : x ∈ pre.dropLast :=
            List.mem_of_mem_getLast? (by rw [hgDL]; rfl)
          have hxfree := hprefree x (List.mem_of_mem_dropLast hxmem)
          have hcpre' : List.Chain' BlocksSep (pre.dropLast ++ [p]) := by
            rw [hpre_eq]
            exact hcpre
          rw [List.chain'_append] at hcpre'
          obtain ⟨-, -, hbP⟩ := hcpre'
          exact hbP x (by rw [hgDL]; rfl) p rfl ⟨hxfree, hpfree⟩
      have hpre1 : pre = [p] := by rw [← hpre_eq, hdl0]; rfl
      subst hpre1
      simp only [List.dropLast_single]
      cases hgr : get_hole post.head? with
      | none =>
        have hpost0 : post = [] := by
          cases hgR : post.head? with
          | none => exact List.head?_eq_none_iff.1 hgR
          | some y =>
            exfalso
            have hymem : y ∈ post :=
              List.mem_of_mem_head? (by rw [hgR]; rfl)
            have hyfree := hpostfree y hymem
            rw [hgR, get_hole_eq_none] at hgr
            exact isFreeB_false_iff.1 (hgr y rfl) hyfree
        subst hpost0
        simp only []
        rw [if_pos (by simp)]
        refine ⟨?_, ?_⟩
        · show ((remove_hole d (r.1, p.offset) p.size).arenas.filter
            fun a2 => a2.id != r.1) = d.arenas.filter fun a2 => a2.id != r.1
          rw [remove_hole_arenas]
        · show (remove_hole d (r.1, p.offset) p.size).blockPool + 1 + 1 =
            d.blockPool + a.entries.length
          rw [remove_hole_pool, hdec]
          simp
      | some n =>
        simp only []
        rw [get_hole_eq_some] at hgr
        obtain ⟨hn1, hn2⟩ := hgr
        have hnfree : n.state = BlockState.free := isFreeB_true_iff.1 hn2
        obtain ⟨t, hpost⟩ : ∃ t, post = n :: t := by
          cases post with
          | nil => simp at hn1
          | cons x t' =>
            rw [List.head?_cons] at hn1
            exact ⟨t', by rw [Option.some.inj hn1]⟩
        subst hpost
        rw [List.chain'_cons'] at hcpost
        obtain ⟨hthead, hcT⟩ := hcpost
        have ht0 : t = [] := by
          cases hgT : t.head? with
          | none => exact List.head?_eq_none_iff.1 hgT
          | some y =>
            exfalso
            have hymem : y ∈ t := List.mem_of_mem_head? (by rw [hgT]; rfl)
            have hyfree := hpostfree y
              (List.mem_cons_of_mem _ hymem)
            exact hthead y (by rw [hgT]; rfl) ⟨hnfree, hyfree⟩
        subst ht0
        rw [if_pos (by rfl)]
        refine ⟨?_, ?_⟩
        · show ((remove_hole (remove_hole d (r.1, p.offset) p.size)
              (r.1, n.offset) n.size).arenas.filter
            fun a2 => a2.id != r.1) = d.arenas.filter fun a2 => a2.id != r.1
          rw [remove_hole_arenas, remove_hole_arenas]
        · show (remove_hole (remove_hole d (r.1, p.offset) p.size)
              (r.1, n.offset) n.size).blockPool + 1 + 1 + 1 =
            d.blockPool + a.entries.length
          rw [remove_hole_pool, remove_hole_pool, hdec]
          simp

/-- C4: Arena reclamation: when the freed block is the last allocated block
of its arena (every other block is already free), the `free` call destroys
the arena: no arena with its id remains in the set, no free-list entry
references it (the merged spanning block is not filed into any size class),
and every descriptor of the arena is released to the block pool. -/
theorem C4_arena_reclamation {d : Device} (hwf : DeviceWF d) {r : BlockRef}
    {a : Arena} (ha : a ∈ d.arenas) (haid : a.id = r.1)
    (hblk : ∃ b ∈ a.entries, b.offset = r.2 ∧ b.state ≠ BlockState.free)
    (hlast : ∀ c ∈ a.entries, c.state ≠ BlockState.free → c.offset = r.2) :
    (∀ a2 ∈ (radv_free_shader_memory d r).arenas, a2.id ≠ r.1) ∧
    (∀ l ∈ (radv_free_shader_memory d r).freeLists, ∀ r2 ∈ l, r2.1 ≠ r.1) ∧
    (radv_free_shader_memory d r).blockPool =
      d.blockPool + a.entries.length := by
  obtain ⟨b0, hb0, hb0off, hb0alloc⟩ := hblk
  have hv : validFree d r := ⟨a, ha, haid, b0, hb0, hb0off, hb0alloc⟩
  have hpostwf := wf_free hwf hv
  have hfd := free_destroys hwf ha haid ⟨b0, hb0, hb0off, hb0alloc⟩ hlast
  have harr : ∀ a2 ∈ (radv_free_shader_memory d r).arenas, a2.id ≠ r.1 := by
    intro a2 ha2
    rw [hfd.1] at ha2
    have hm := List.mem_filter.1 ha2
    simpa using hm.2
  refine ⟨harr, ?_, hfd.2⟩
  intro l hl r2 hr2 hc
  obtain ⟨k, hk, hLk⟩ := List.mem_iff_getElem.1 hl
  have hk8 : k < RADV_SHADER_ALLOC_NUM_FREE_LISTS := by
    have hfl := hpostwf.1
    rw [flLenOK] at hfl
    omega
  have hget : (radv_free_shader_memory d r).freeLists.getD k [] = l := by
    rw [List.getD_eq_getElem?_getD, List.getElem?_eq_getElem hk]
    exact hLk
  obtain ⟨a2, ha2, ha2id, -⟩ :=
    hpostwf.2.2.2.1 k hk8 r2 (by rw [hget]; exact hr2)
  exact harr a2 ha2 (ha2id.trans hc)

/-- C4, instantiated: freeing the only allocation of the single arena
destroys the arena, leaves no reference to it and returns both of its
descriptors to the pool. -/
theorem C4_arena_reclamation_witness :
    sampleArena ∈ sampleAllocState.arenas ∧
    sampleArena.id = ((0 : Nat), (0 : Nat)).1 ∧
    (∃ b ∈ sampleArena.entries, b.offset = ((0 : Nat), (0 : Nat)).2 ∧
      b.state ≠ BlockState.free) ∧
    (∀ c ∈ sampleArena.entries, c.state ≠ BlockState.free →
      c.offset = ((0 : Nat), (0 : Nat)).2) ∧
    ((∀ a2 ∈ (radv_free_shader_memory sampleAllocState (0, 0)).arenas,
        a2.id ≠ ((0 : Nat), (0 : Nat)).1) ∧
      (∀ l ∈ (radv_free_shader_memory sampleAllocState (0, 0)).freeLists,
        ∀ r2 ∈ l, r2.1 ≠ ((0 : Nat), (0 : Nat)).1) ∧
      (radv_free_shader_memory sampleAllocState (0, 0)).blockPool =
        sampleAllocState.blockPool + sampleArena.entries.length) :=
  ⟨by decide, by decide, by decide, by decide,
    C4_arena_reclamation (by decide) (by decide) (by decide) (by decide)
      (by decide)⟩

/-! ## Toolbox for the round-trip property -/

theorem splitAtOffset_decomp {o : Nat} {A B : List Block} {x : Block}
    (hx : x.offset = o) (hA : ∀ c ∈ A, c.offset ≠ o) :
    splitAtOffset o (A ++ x :: B) = some (A, x, B) := by
  induction A with
  | nil => simp [splitAtOffset, hx]
  | cons c cs ih =>
    have hc := hA c (List.mem_cons_self _ _)
    show splitAtOffset o (c :: (cs ++ x :: B)) = _
    unfold splitAtOffset
    rw [if_neg hc, ih fun c2 hc2 => hA c2 (List.mem_cons_of_mem _ hc2)]

theorem or_bit_of_testBit {m k : Nat} (h : m.testBit k) :
    m ||| (1 <<< k) = m := by
  apply Nat.eq_of_testBit_eq
  intro j
  rw [testBit_setbit]
  by_cases hj : k = j
  · subst hj; simp [h]
  · simp [hj]

theorem clear_then_set_of_testBit {m k : Nat} (hk : k < 32) (hm : m < 2 ^ 32)
    (h : m.testBit k) :
    (m &&& (BITFIELD_MASK 32 ^^^ (1 <<< k))) ||| (1 <<< k) = m := by
  apply Nat.eq_of_testBit_eq
  intro j
  rw [testBit_setbit]
  by_cases hj32 : j < 32
  · rw [testBit_clear hj32 hk]
    by_cases hj : j = k
    · subst hj
      simp [h]
    · have hkj : ¬(k = j) := fun hh => hj hh.symm
      simp [hj, hkj]
  · have hmj : m.testBit j = false := by
      have := testBit_ge_of_lt hm (Nat.le_of_not_lt hj32)
      simpa using this
    have hXj : (m &&& (BITFIELD_MASK 32 ^^^ (1 <<< k))).testBit j = false := by
      rw [Nat.testBit_land, hmj]
      simp
    have hkj : ¬(k = j) := by omega
    rw [hXj, hmj]
    simp [hkj]

theorem no_ref_at_missing {d : Device} (hwf : DeviceWF d) {ρ : BlockRef}
    (hno : ∀ a ∈ d.arenas, a.id = ρ.1 → ∀ c ∈ a.entries, c.offset ≠ ρ.2) :
    ∀ j, ρ ∉ d.freeLists.getD j [] := by
  intro j hmem
  by_cases hj : j < RADV_SHADER_ALLOC_NUM_FREE_LISTS
  · obtain ⟨a, ha, haid, c, hc, hcoff, -, -⟩ := hwf.2.2.2.1 j hj ρ hmem
    exact hno a ha haid c hc hcoff
  · have hlen : d.freeLists.length = RADV_SHADER_ALLOC_NUM_FREE_LISTS := hwf.1
    rw [List.getD_eq_getElem?_getD, List.getElem?_eq_none
      (by rw [hlen]; omega)] at hmem
    simp at hmem

theorem updateArena_restore {d : Device} {aid : Nat}
    (f g : List Block → List Block)
    (hfg : ∀ a ∈ d.arenas, a.id = aid → g (f a.entries) = a.entries) :
    (updateArena (updateArena d aid f) aid g).arenas = d.arenas := by
  unfold updateArena
  simp only []
  rw [List.map_map]
  have h : ∀ a ∈ d.arenas,
      ((fun x : Arena =>
          if x.id = aid then { x with entries := g x.entries } else x) ∘
        fun x : Arena =>
          if x.id = aid then { x with entries := f x.entries } else x) a =
        a := by
    intro a ha
    by_cases hx : a.id = aid
    · show (fun x : Arena =>
        if x.id = aid then { x with entries := g x.entries } else x)
        (if a.id = aid then { a with entries := f a.entries } else a) = a
      rw [if_pos hx]
      simp only []
      rw [if_pos (show Arena.id { a with entries := f a.entries } = aid
        from hx), hfg a ha hx]
    · show (fun x : Arena =>
        if x.id = aid then { x with entries := g x.entries } else x)
        (if a.id = aid then { a with entries := f a.entries } else a) = a
      rw [if_neg hx]
      simp only []
      rw [if_neg hx]
  rw [List.map_congr_left h, List.map_id']

theorem filter_ne_append_singleton {l : List Arena} {A : Arena}
    (h : ∀ x ∈ l, x.id ≠ A.id) :
    (l ++ [A]).filter (fun x => x.id != A.id) = l := by
  rw [List.filter_append]
  have h1 : l.filter (fun x => x.id != A.id) = l :=
    List.filter_eq_self.2 fun x hx => by simpa using h x hx
  have h2 : ([A] : List Arena).filter (fun x => x.id != A.id) = [] := by simp
  rw [h1, h2, List.append_nil]

theorem perm_erase_append {α : Type _} [BEq α] [LawfulBEq α] {l : List α}
    {x : α} (h : x ∈ l) : l.Perm (l.erase x ++ [x]) := by
  induction l with
  | nil => simp at h
  | cons y ys ih =>
    rw [List.erase_cons]
    by_cases hxy : y == x
    · rw [if_pos hxy]
      have : y = x := eq_of_beq hxy
      subst this
      exact (List.perm_append_singleton y ys).symm
    · rw [if_neg hxy]
      have hx : x ∈ ys := by
        rcases List.mem_cons.1 h with rfl | hm
        · exact absurd (beq_self_eq_true x) (by simpa using hxy)
        · exact hm
      exact (ih hx).cons y

theorem block_eq_of_fields {b : Block} {o s : Nat} {st : BlockState}
    (ho : b.offset = o) (hs : b.size = s) (hst : b.state = st) :
    b = { offset := o, size := s, state := st } := by
  cases b with
  | mk x y z =>
    have h1 : x = o := ho
    have h2 : y = s := hs
    have h3 : z = st := hst
    subst h1
    subst h2
    subst h3
    rfl

/-- Round trip through the exact-fit path: freeing the block right after the
allocation restores the original state observably. -/
theorem round_trip_exact {d : Device} (hwf : DeviceWF d) {k : Nat}
    (hk : k < RADV_SHADER_ALLOC_NUM_FREE_LISTS) {size : Nat} {r : BlockRef}
    {hole : Block}
    (hfind : findFit d (d.freeLists.getD k []) size = some (r, hole))
    (owner : Owner) :
    ObsEquiv d (radv_free_shader_memory
      (markAllocated (remove_hole d r hole.size) r owner) r) := by
  obtain ⟨hrmem, hfit, a, ha, haid, hmemhole, hoff, hfree, hbcls⟩ :=
    findFit_wf hwf hk hfind
  have hpost := wf_exact_path hwf hk hfind owner
  obtain ⟨A, B, hdec⟩ := List.append_of_mem hmemhole
  have htiles := (hwf.2.1 a ha).1
  have hadja := (hwf.2.1 a ha).2.1
  obtain ⟨hAlt, hBge⟩ := tiles_decomp_offsets htiles hdec
  have hbndhole := tilesFrom_bounds htiles hole hmemhole
  have hA : ∀ c ∈ A, c.offset ≠ r.2 := fun c hc => by
    have := hAlt c hc; omega
  have hB : ∀ c ∈ B, c.offset ≠ r.2 := fun c hc => by
    have := hBge c hc; omega
  have ha2 : a ∈ (remove_hole d r hole.size).arenas := by
    rw [remove_hole_arenas]; exact ha
  have ha1 := mem_updateArena_self
    (f := fun es => es.map (flipAt r.2 owner)) ha2 haid
  have hmapA : A.map (flipAt r.2 owner) = A :=
    map_nomatch (fun c hc => flipAt_of_ne owner hc) hA
  have hmapB : B.map (flipAt r.2 owner) = B :=
    map_nomatch (fun c hc => flipAt_of_ne owner hc) hB
  have hentries1 : a.entries.map (flipAt r.2 owner) =
      A ++ flipAt r.2 owner hole :: B := by
    rw [hdec, List.map_append, List.map_cons, hmapA, hmapB]
  have hchain : List.Chain' BlocksSep (A ++ hole :: B) := by
    show noAdjFree _
    rw [← hdec]
    exact hadja
  rw [List.chain'_append] at hchain
  obtain ⟨-, hchole, hbound⟩ := hchain
  rw [List.chain'_cons'] at hchole
  obtain ⟨hposthead, -⟩ := hchole
  have hfind1 : (markAllocated (remove_hole d r hole.size) r
      owner).arenas.find? (fun x => x.id == r.1) =
      some { a with entries := a.entries.map (flipAt r.2 owner) } :=
    find?_id_of_nodup hpost.2.2.1.1 ha1 haid.symm
  have hcur : ({ flipAt r.2 owner hole with state := BlockState.free } :
      Block) = hole :=
    (block_eq_of_fields (flipAt_offset r.2 owner hole).symm
      (flipAt_size r.2 owner hole).symm hfree).symm
  have hlen1 : ¬((A ++ hole :: B).length = 1) := by
    obtain ⟨bx, hbx, hbxal⟩ := (hwf.2.1 a ha).2.2
    intro h1
    rw [List.length_append, List.length_cons] at h1
    have hA0 : A = [] := List.length_eq_zero.1 (by omega)
    have hB0 : B = [] := List.length_eq_zero.1 (by omega)
    rw [hA0, hB0] at hdec
    rw [hdec] at hbx
    have := List.mem_singleton.1 hbx
    rw [this] at hbxal
    exact hbxal hfree
  have hfreeq : radv_free_shader_memory
      (markAllocated (remove_hole d r hole.size) r owner) r =
      add_hole (updateArena (markAllocated (remove_hole d r hole.size) r
        owner) r.1 (fun _ => A ++ hole :: B)) (r.1, hole.offset)
        hole.size := by
    unfold radv_free_shader_memory
    rw [hfind1]
    simp only []
    have hsp : splitAtOffset r.2
        ({ a with entries := a.entries.map (flipAt r.2 owner) } :
          Arena).entries = some (A, flipAt r.2 owner hole, B) := by
      show splitAtOffset r.2 (a.entries.map (flipAt r.2 owner)) = _
      rw [hentries1]
      exact splitAtOffset_decomp (by rw [flipAt_offset]; exact hoff) hA
    rw [hsp]
    simp only []
    have hglA : get_hole A.getLast? = none := by
      rw [get_hole_eq_none]
      intro x hx
      refine isFreeB_false_iff.2 fun hxfree => ?_
      exact hbound x hx hole rfl ⟨hxfree, hfree⟩
    rw [hglA]
    simp only []
    have hgrB : get_hole B.head? = none := by
      rw [get_hole_eq_none]
      intro y hy
      refine isFreeB_false_iff.2 fun hyfree => ?_
      exact hposthead y hy ⟨hfree, hyfree⟩
    rw [hgrB]
    simp only []
    rw [hcur, if_neg hlen1, flipAt_offset, flipAt_size]
  rw [hfreeq]
  have hlists1 : (updateArena (markAllocated (remove_hole d r hole.size) r
      owner) r.1 (fun _ => A ++ hole :: B)).freeLists =
      (remove_hole d r hole.size).freeLists := rfl
  have hmask1 : (updateArena (markAllocated (remove_hole d r hole.size) r
      owner) r.1 (fun _ => A ++ hole :: B)).freeListMask =
      (remove_hole d r hole.size).freeListMask := rfl
  have hlen8 : d.freeLists.length = RADV_SHADER_ALLOC_NUM_FREE_LISTS := hwf.1
  have hclsk : get_size_class hole.size false < d.freeLists.length := by
    rw [hlen8, hbcls]
    exact hk
  have hclslen2 : get_size_class hole.size false <
      (updateArena (markAllocated (remove_hole d r hole.size) r
        owner) r.1 (fun _ => A ++ hole :: B)).freeLists.length := by
    rw [hlists1, remove_hole_len]
    exact hclsk
  have hrcls : r ∈ d.freeLists.getD (get_size_class hole.size false) [] := by
    rw [hbcls]
    exact hrmem
  refine ⟨?_, ?_, ?_, ?_⟩
  · refine ((updateArena_restore (d := remove_hole d r hole.size)
      (fun es => es.map (flipAt r.2 owner))
      (fun _ => A ++ hole :: B) ?_).trans
      (remove_hole_arenas d r hole.size)).symm
    intro x hx hxid
    rw [remove_hole_arenas] at hx
    have hxa : x = a := arena_id_inj hwf.2.2.1.1 hx ha (hxid.trans haid.symm)
    rw [hxa, ← hdec]
  · rw [add_hole_len, hlists1, remove_hole_len]
  · intro j
    by_cases hj : get_size_class hole.size false = j
    · subst hj
      rw [add_hole_getD_same _ _ _ hclslen2, hlists1,
        remove_hole_getD_same _ _ _ hclsk, hoff]
      exact perm_erase_append hrcls
    · rw [add_hole_getD_other _ _ _ hj, hlists1,
        remove_hole_getD_other _ _ _ hj]
  · show d.freeListMask =
      (remove_hole d r hole.size).freeListMask |||
        (1 <<< get_size_class hole.size false)
    have hbit : d.freeListMask.testBit (get_size_class hole.size false) := by
      refine ((hwf.2.2.2.2.2.1 (get_size_class hole.size false)
        (by rw [hbcls]; exact hk)).2 ?_)
      intro hnil
      rw [hnil] at hrcls
      simp at hrcls
    have hm32 : d.freeListMask < 2 ^ 32 := by
      have h1 := hwf.2.2.2.2.2.2
      have h2 : (2 : Nat) ^ RADV_SHADER_ALLOC_NUM_FREE_LISTS ≤ 2 ^ 32 := by
        norm_num [RADV_SHADER_ALLOC_NUM_FREE_LISTS]
      omega
    have hk32 : get_size_class hole.size false < 32 := by
      have h1 := get_size_class_lt hole.size false
      have h2 := num_free_lists_le_32
      omega
    by_cases hemp : ((d.freeLists.getD
        (get_size_class hole.size false) []).erase r).isEmpty
    · rw [remove_hole_mask_cases, if_pos hemp,
        clear_then_set_of_testBit hk32 hm32 hbit]
    · rw [remove_hole_mask_cases, if_neg hemp, or_bit_of_testBit hbit]

/-- The arenas after `updateArena` depend only on the arenas before. -/
theorem updateArena_arenas_congr {Y Z : Device} (h : Y.arenas = Z.arenas)
    (aid : Nat) (g : List Block → List Block) :
    (updateArena Y aid g).arenas = (updateArena Z aid g).arenas := by
  unfold updateArena
  simp only []
  rw [h]

/-- Two states with per-class permuted free lists and valid masks have equal
masks. -/
theorem mask_eq_of_perm {d e : Device} (hd : maskOK d) (he : maskOK e)
    (hp : ∀ j, List.Perm (d.freeLists.getD j []) (e.freeLists.getD j [])) :
    d.freeListMask = e.freeListMask := by
  apply Nat.eq_of_testBit_eq
  intro j
  by_cases hj : j < RADV_SHADER_ALLOC_NUM_FREE_LISTS
  · have h1 := hd.1 j hj
    have h2 := he.1 j hj
    by_cases hne : d.freeLists.getD j [] = []
    · have hne2 : e.freeLists.getD j [] = [] := by
        have := (hp j).symm
        rw [hne] at this
        exact this.eq_nil
      cases hb1 : d.freeListMask.testBit j with
      | true => exact absurd hne (h1.1 hb1)
      | false =>
        cases hb2 : e.freeListMask.testBit j with
        | true => exact absurd hne2 (h2.1 hb2)
        | false => rfl
    · have hne2 : e.freeLists.getD j [] ≠ [] := by
        intro h0
        have := hp j
        rw [h0] at this
        exact hne this.eq_nil
      cases hb1 : d.freeListMask.testBit j with
      | true =>
        cases hb2 : e.freeListMask.testBit j with
        | true => rfl
        | false => exact absurd (h2.2 hne2) (by rw [hb2]; simp)
      | false => exact absurd (h1.2 hne) (by rw [hb1]; simp)
  · have hj8 : RADV_SHADER_ALLOC_NUM_FREE_LISTS ≤ j := Nat.le_of_not_lt hj
    have hc1 : ¬d.freeListMask.testBit j := testBit_ge_of_lt hd.2 hj8
    have hc2 : ¬e.freeListMask.testBit j := testBit_ge_of_lt he.2 hj8
    simp only [Bool.not_eq_true] at hc1 hc2
    rw [hc1, hc2]

/-- Removing a hole right after adding it (same reference and size class)
restores every free list, provided the reference was fresh. -/
theorem remove_add_hole_lists {X : Device} {ρ : BlockRef} {s : Nat}
    (hfresh : ∀ j, ρ ∉ X.freeLists.getD j [])
    (hlen : get_size_class s false < X.freeLists.length) :
    ∀ j, (remove_hole (add_hole X ρ s) ρ s).freeLists.getD j [] =
      X.freeLists.getD j [] := by
  intro j
  by_cases hj : get_size_class s false = j
  · subst hj
    have hlen2 : get_size_class s false < (add_hole X ρ s).freeLists.length := by
      rw [add_hole_len]; exact hlen
    rw [remove_hole_getD_same _ _ _ hlen2, add_hole_getD_same _ _ _ hlen,
      List.erase_append_right _ (hfresh _)]
    simp
  · rw [remove_hole_getD_other _ _ _ hj, add_hole_getD_other _ _ _ hj]

/-- Round trip through the split path: freeing the block right after the
allocation merges it back with the split-off remainder and restores the
original state observably. -/
theorem round_trip_split {d : Device} (hwf : DeviceWF d) {k : Nat}
    (hk : k < RADV_SHADER_ALLOC_NUM_FREE_LISTS) {size : Nat} {r : BlockRef}
    {hole : Block}
    (hfind : findFit d (d.freeLists.getD k []) size = some (r, hole))
    (owner : Owner) (hpos : 0 < size)
    (hmod : size % RADV_SHADER_ALLOC_ALIGNMENT = 0)
    (hlt : size < hole.size) :
    ObsEquiv d (radv_free_shader_memory
      (add_hole (updateArena (remove_hole d r hole.size) r.1
        (splitEntries r.2 size owner)) (r.1, r.2 + size)
        (hole.size - size)) r) := by
  obtain ⟨hrmem, hfit, a, ha, haid, hmemhole, hoff, hfree, hbcls⟩ :=
    findFit_wf hwf hk hfind
  have hpost := wf_split_path hwf hk hfind owner hpos hmod hlt
  obtain ⟨A, B, hdec⟩ := List.append_of_mem hmemhole
  have htiles := (hwf.2.1 a ha).1
  have hadja := (hwf.2.1 a ha).2.1
  obtain ⟨hAlt, hBge⟩ := tiles_decomp_offsets htiles hdec
  have hbndhole := tilesFrom_bounds htiles hole hmemhole
  have hA : ∀ c ∈ A, c.offset ≠ r.2 := fun c hc => by
    have := hAlt c hc; omega
  have hB : ∀ c ∈ B, c.offset ≠ r.2 := fun c hc => by
    have := hBge c hc; omega
  have hsplitE : splitEntries r.2 size owner a.entries =
      A ++ allocBlock r.2 size owner ::
        freeBlock (r.2 + size) (hole.size - size) :: B := by
    rw [hdec]
    exact splitEntries_eq hoff hA hB
  have hchain : List.Chain' BlocksSep (A ++ hole :: B) := by
    show noAdjFree _
    rw [← hdec]
    exact hadja
  rw [List.chain'_append] at hchain
  obtain ⟨-, -, hbound⟩ := hchain
  have ha2 : a ∈ (remove_hole d r hole.size).arenas := by
    rw [remove_hole_arenas]; exact ha
  have ha1 := mem_updateArena_self
    (f := splitEntries r.2 size owner) ha2 haid
  have ha1' : ({ a with entries := splitEntries r.2 size owner a.entries } :
      Arena) ∈ (add_hole (updateArena (remove_hole d r hole.size) r.1
        (splitEntries r.2 size owner)) (r.1, r.2 + size)
        (hole.size - size)).arenas := by
    rw [add_hole_arenas]; exact ha1
  have hfind1 : (add_hole (updateArena (remove_hole d r hole.size) r.1
      (splitEntries r.2 size owner)) (r.1, r.2 + size)
      (hole.size - size)).arenas.find? (fun x => x.id == r.1) =
      some { a with entries := splitEntries r.2 size owner a.entries } :=
    find?_id_of_nodup hpost.2.2.1.1 ha1' haid.symm
  have hnoblk : ∀ c ∈ a.entries, c.offset ≠ r.2 + size :=
    no_block_at_interior htiles hmemhole (by omega) (by omega)
  have hfresh : ∀ j, ((r.1, r.2 + size) : BlockRef) ∉
      d.freeLists.getD j [] := by
    refine no_ref_at_missing hwf fun x hx hxid c hc => ?_
    have hxa : x = a := arena_id_inj hwf.2.2.1.1 hx ha (hxid.trans haid.symm)
    rw [hxa] at hc
    exact hnoblk c hc
  have hABpos : 0 < A.length + B.length := by
    obtain ⟨bx, hbx, hbxal⟩ := (hwf.2.1 a ha).2.2
    rw [hdec] at hbx
    rcases List.mem_append.1 hbx with hbxA | hbxC
    · have := List.length_pos.2 (List.ne_nil_of_mem hbxA)
      omega
    · rcases List.mem_cons.1 hbxC with rfl | hbxB
      · exact absurd hfree hbxal
      · have := List.length_pos.2 (List.ne_nil_of_mem hbxB)
        omega
  have hv1 : validFree (add_hole (updateArena (remove_hole d r hole.size)
      r.1 (splitEntries r.2 size owner)) (r.1, r.2 + size)
      (hole.size - size)) r := by
    refine ⟨_, ha1', haid, allocBlock r.2 size owner, ?_, rfl, ?_⟩
    · show allocBlock r.2 size owner ∈ splitEntries r.2 size owner a.entries
      rw [hsplitE]
      exact List.mem_append_right _ (List.mem_cons_self _ _)
    · intro h
      exact BlockState.noConfusion h
  have hfinwf := wf_free hpost hv1
  have hfreeq : radv_free_shader_memory
      (add_hole (updateArena (remove_hole d r hole.size) r.1
        (splitEntries r.2 size owner)) (r.1, r.2 + size)
        (hole.size - size)) r =
      add_hole (updateArena
        { remove_hole (add_hole (updateArena (remove_hole d r hole.size) r.1
            (splitEntries r.2 size owner)) (r.1, r.2 + size)
            (hole.size - size)) (r.1, r.2 + size) (hole.size - size) with
          blockPool := (remove_hole (add_hole (updateArena
            (remove_hole d r hole.size) r.1
            (splitEntries r.2 size owner)) (r.1, r.2 + size)
            (hole.size - size)) (r.1, r.2 + size)
            (hole.size - size)).blockPool + 1 }
        r.1 (fun _ => A ++ hole :: B)) (r.1, hole.offset) hole.size := by
    unfold radv_free_shader_memory
    rw [hfind1]
    simp only []
    have hsp : splitAtOffset r.2
        ({ a with entries := splitEntries r.2 size owner a.entries } :
          Arena).entries = some (A, allocBlock r.2 size owner,
          freeBlock (r.2 + size) (hole.size - size) :: B) := by
      show splitAtOffset r.2 (splitEntries r.2 size owner a.entries) = _
      rw [hsplitE]
      exact splitAtOffset_decomp rfl hA
    rw [hsp]
    simp only []
    have hglA : get_hole A.getLast? = none := by
      rw [get_hole_eq_none]
      intro x hx
      refine isFreeB_false_iff.2 fun hxfree => ?_
      exact hbound x hx hole rfl ⟨hxfree, hfree⟩
    rw [hglA]
    simp only []
    have hgr : get_hole ((freeBlock (r.2 + size) (hole.size - size) ::
        B).head?) = some (freeBlock (r.2 + size) (hole.size - size)) :=
      get_hole_eq_some.2 ⟨List.head?_cons, isFreeB_true_iff.2 rfl⟩
    rw [hgr]
    simp only []
    rw [show (freeBlock (r.2 + size) (hole.size - size)).offset =
        r.2 + size from rfl,
      show (freeBlock (r.2 + size) (hole.size - size)).size =
        hole.size - size from rfl,
      show ({ allocBlock r.2 size owner with state := BlockState.free } :
        Block).size = size from rfl]
    rw [(by omega : r.2 + size - size = r.2),
      (by omega : hole.size - size + size = hole.size)]
    have hcurEq : ({ offset := r.2, size := hole.size, state := BlockState.free } : Block) = hole :=
      (block_eq_of_fields hoff rfl hfree).symm
    rw [hcurEq]
    rw [if_neg (by simp [List.length_append]; omega)]
    simp only [List.tail_cons]
    rw [hoff]
  rw [hfreeq] at hfinwf ⊢
  have hlenfin : (updateArena
      { remove_hole (add_hole (updateArena (remove_hole d r hole.size) r.1
          (splitEntries r.2 size owner)) (r.1, r.2 + size)
          (hole.size - size)) (r.1, r.2 + size) (hole.size - size) with
        blockPool := (remove_hole (add_hole (updateArena
          (remove_hole d r hole.size) r.1
          (splitEntries r.2 size owner)) (r.1, r.2 + size)
          (hole.size - size)) (r.1, r.2 + size)
          (hole.size - size)).blockPool + 1 }
      r.1 (fun _ => A ++ hole :: B)).freeLists.length =
      d.freeLists.length := by
    show (remove_hole (add_hole (updateArena (remove_hole d r hole.size) r.1
        (splitEntries r.2 size owner)) (r.1, r.2 + size)
        (hole.size - size)) (r.1, r.2 + size)
        (hole.size - size)).freeLists.length = d.freeLists.length
    rw [remove_hole_len, add_hole_len]
    show (remove_hole d r hole.size).freeLists.length = d.freeLists.length
    rw [remove_hole_len]
  have hlen8 : d.freeLists.length = RADV_SHADER_ALLOC_NUM_FREE_LISTS := hwf.1
  have hXfresh : ∀ j, ((r.1, r.2 + size) : BlockRef) ∉
      (updateArena (remove_hole d r hole.size) r.1
        (splitEntries r.2 size owner)).freeLists.getD j [] := by
    intro j hmem
    have hmem2 : ((r.1, r.2 + size) : BlockRef) ∈
        (remove_hole d r hole.size).freeLists.getD j [] := hmem
    exact hfresh j (mem_getD_remove_hole hmem2)
  have hremlists : ∀ j, (remove_hole (add_hole (updateArena
      (remove_hole d r hole.size) r.1
      (splitEntries r.2 size owner)) (r.1, r.2 + size)
      (hole.size - size)) (r.1, r.2 + size)
      (hole.size - size)).freeLists.getD j [] =
      (remove_hole d r hole.size).freeLists.getD j [] := by
    intro j
    refine (remove_add_hole_lists hXfresh ?_ j)
    show get_size_class (hole.size - size) false <
      (remove_hole d r hole.size).freeLists.length
    rw [remove_hole_len, hlen8]
    exact get_size_class_lt _ _
  have hclsk : get_size_class hole.size false < d.freeLists.length := by
    rw [hlen8, hbcls]
    exact hk
  have hrcls : r ∈ d.freeLists.getD (get_size_class hole.size false) [] := by
    rw [hbcls]
    exact hrmem
  have hperm : ∀ j, List.Perm (d.freeLists.getD j [])
      ((add_hole (updateArena
        { remove_hole (add_hole (updateArena (remove_hole d r hole.size) r.1
            (splitEntries r.2 size owner)) (r.1, r.2 + size)
            (hole.size - size)) (r.1, r.2 + size) (hole.size - size) with
          blockPool := (remove_hole (add_hole (updateArena
            (remove_hole d r hole.size) r.1
            (splitEntries r.2 size owner)) (r.1, r.2 + size)
            (hole.size - size)) (r.1, r.2 + size)
            (hole.size - size)).blockPool + 1 }
        r.1 (fun _ => A ++ hole :: B)) (r.1, hole.offset)
        hole.size).freeLists.getD j []) := by
    intro j
    by_cases hj : get_size_class hole.size false = j
    · subst hj
      rw [add_hole_getD_same _ _ _ (by rw [hlenfin]; exact hclsk)]
      have hinner : (updateArena
          { remove_hole (add_hole (updateArena (remove_hole d r hole.size)
              r.1 (splitEntries r.2 size owner)) (r.1, r.2 + size)
              (hole.size - size)) (r.1, r.2 + size) (hole.size - size) with
            blockPool := (remove_hole (add_hole (updateArena
              (remove_hole d r hole.size) r.1
              (splitEntries r.2 size owner)) (r.1, r.2 + size)
              (hole.size - size)) (r.1, r.2 + size)
              (hole.size - size)).blockPool + 1 }
          r.1 (fun _ => A ++ hole :: B)).freeLists.getD
            (get_size_class hole.size false) [] =
          (d.freeLists.getD (get_size_class hole.size false) []).erase r := by
        show (remove_hole (add_hole (updateArena (remove_hole d r hole.size)
            r.1 (splitEntries r.2 size owner)) (r.1, r.2 + size)
            (hole.size - size)) (r.1, r.2 + size)
            (hole.size - size)).freeLists.getD
              (get_size_class hole.size false) [] = _
        rw [hremlists]
        exact remove_hole_getD_same _ _ _ hclsk
      rw [hinner, hoff]
      exact perm_erase_append hrcls
    · rw [add_hole_getD_other _ _ _ hj]
      have hinner : (updateArena
          { remove_hole (add_hole (updateArena (remove_hole d r hole.size)
              r.1 (splitEntries r.2 size owner)) (r.1, r.2 + size)
              (hole.size - size)) (r.1, r.2 + size) (hole.size - size) with
            blockPool := (remove_hole (add_hole (updateArena
              (remove_hole d r hole.size) r.1
              (splitEntries r.2 size owner)) (r.1, r.2 + size)
              (hole.size - size)) (r.1, r.2 + size)
              (hole.size - size)).blockPool + 1 }
          r.1 (fun _ => A ++ hole :: B)).freeLists.getD j [] =
          d.freeLists.getD j [] := by
        show (remove_hole (add_hole (updateArena (remove_hole d r hole.size)
            r.1 (splitEntries r.2 size owner)) (r.1, r.2 + size)
            (hole.size - size)) (r.1, r.2 + size)
            (hole.size - size)).freeLists.getD j [] = _
        rw [hremlists]
        exact remove_hole_getD_other _ _ _ hj
      rw [hinner]
  refine ⟨?_, ?_, hperm, ?_⟩
  · refine ((updateArena_restore (d := remove_hole d r hole.size)
      (splitEntries r.2 size owner)
      (fun _ => A ++ hole :: B) ?_).trans
      (remove_hole_arenas d r hole.size)).symm
    intro x hx hxid
    rw [remove_hole_arenas] at hx
    have hxa : x = a := arena_id_inj hwf.2.2.1.1 hx ha (hxid.trans haid.symm)
    rw [hxa, ← hdec]
  · rw [add_hole_len, hlenfin]
  · exact mask_eq_of_perm hwf.2.2.2.2.2 hfinwf.2.2.2.2.2 hperm

/-- The state produced by a successful new-arena allocation. -/
def newArenaState (env : AllocEnv) (d : Device) (size : Nat) (owner : Owner)
    (pool2 : Nat) : Device :=
  let d1 : Device := { d with
    arenas := d.arenas ++ [newArenaOf env d size owner]
    blockPool := pool2
    arenaShift := d.arenaShift + 1
    nextArenaId := d.nextArenaId + 1 }
  if 0 < newArenaSize d.arenaShift size - size then
    add_hole d1 (d.nextArenaId, size) (newArenaSize d.arenaShift size - size)
  else d1

/-- Round trip through the new-arena path: freeing the block right after the
allocation destroys the fresh arena and restores the original state
observably. -/
theorem round_trip_newarena {d : Device} (hwf : DeviceWF d) (env : AllocEnv)
    {size : Nat} (hpos : 0 < size) (owner : Owner) (pool2 : Nat)
    (hD1wf : DeviceWF (newArenaState env d size owner pool2)) :
    ObsEquiv d (radv_free_shader_memory
      (newArenaState env d size owner pool2) (d.nextArenaId, 0)) := by
  have hidlt : ∀ x ∈ d.arenas, x.id ≠ d.nextArenaId :=
    fun x hx => Nat.ne_of_lt (hwf.2.2.1.2 x hx)
  have hfnone : d.arenas.find?
      (fun x => x.id == (d.nextArenaId, (0 : Nat)).1) = none :=
    List.find?_eq_none.2 fun x hx => by
      simpa using hidlt x hx
  have hfreshnew : ∀ j, ((d.nextArenaId, size) : BlockRef) ∉
      d.freeLists.getD j [] := by
    refine no_ref_at_missing hwf fun x hx hxid c hc => ?_
    exact absurd hxid (hidlt x hx)
  by_cases hrem : 0 < newArenaSize d.arenaShift size - size
  · -- a trailing hole was split off the new arena
    have hD1 : newArenaState env d size owner pool2 =
        add_hole { d with
          arenas := d.arenas ++ [newArenaOf env d size owner]
          blockPool := pool2
          arenaShift := d.arenaShift + 1
          nextArenaId := d.nextArenaId + 1 }
          (d.nextArenaId, size) (newArenaSize d.arenaShift size - size) := by
      unfold newArenaState
      simp only []
      rw [if_pos hrem]
    have hentA : (newArenaOf env d size owner).entries =
        [allocBlock 0 size owner,
         freeBlock size (newArenaSize d.arenaShift size - size)] := by
      show (if 0 < newArenaSize d.arenaShift size - size then _ else _) = _
      rw [if_pos hrem]
      rfl
    have hanew : newArenaOf env d size owner ∈
        (newArenaState env d size owner pool2).arenas := by
      rw [hD1, add_hole_arenas]
      exact List.mem_append_right _ (List.mem_singleton.2 rfl)
    have hfind1 : (newArenaState env d size owner pool2).arenas.find?
        (fun x => x.id == (d.nextArenaId, (0 : Nat)).1) =
        some (newArenaOf env d size owner) := by
      rw [hD1, add_hole_arenas]
      show (d.arenas ++ [newArenaOf env d size owner]).find? _ = _
      rw [List.find?_append, hfnone]
      simp only [Option.none_or]
      exact List.find?_cons_of_pos _ (by simp [newArenaOf])
    have hfreeq : radv_free_shader_memory
        (newArenaState env d size owner pool2) (d.nextArenaId, 0) =
        { remove_hole (newArenaState env d size owner pool2)
            (d.nextArenaId, size)
            (newArenaSize d.arenaShift size - size) with
          arenas := (remove_hole (newArenaState env d size owner pool2)
            (d.nextArenaId, size)
            (newArenaSize d.arenaShift size - size)).arenas.filter
              (fun a2 => a2.id != (d.nextArenaId, (0 : Nat)).1)
          blockPool := (remove_hole (newArenaState env d size owner pool2)
            (d.nextArenaId, size)
            (newArenaSize d.arenaShift size - size)).blockPool + 1 + 1 } := by
      unfold radv_free_shader_memory
      rw [hfind1]
      simp only []
      have hsp : splitAtOffset (d.nextArenaId, (0 : Nat)).2
          (newArenaOf env d size owner).entries =
          some ([], allocBlock 0 size owner,
            [freeBlock size (newArenaSize d.arenaShift size - size)]) := by
        rw [hentA]
        exact splitAtOffset_decomp rfl fun c hc =>
          absurd hc (List.not_mem_nil c)
      rw [hsp]
      simp only []
      have hgr : get_hole (([freeBlock size
          (newArenaSize d.arenaShift size - size)] : List Block).head?) =
          some (freeBlock size (newArenaSize d.arenaShift size - size)) :=
        get_hole_eq_some.2 ⟨List.head?_cons, isFreeB_true_iff.2 rfl⟩
      rw [hgr]
      simp only []
      rw [if_pos (by rfl)]
      rw [show (freeBlock size
          (newArenaSize d.arenaShift size - size)).offset = size from rfl,
        show (freeBlock size (newArenaSize d.arenaShift size - size)).size =
          newArenaSize d.arenaShift size - size from rfl]
      rfl
    rw [hfreeq]
    have hd1lists : ∀ j, (remove_hole (newArenaState env d size owner pool2)
        (d.nextArenaId, size)
        (newArenaSize d.arenaShift size - size)).freeLists.getD j [] =
        d.freeLists.getD j [] := by
      intro j
      rw [hD1]
      refine remove_add_hole_lists ?_ ?_ j
      · intro j2 hmem
        exact hfreshnew j2 hmem
      · show get_size_class (newArenaSize d.arenaShift size - size) false <
          d.freeLists.length
        have h8 : d.freeLists.length = RADV_SHADER_ALLOC_NUM_FREE_LISTS :=
          hwf.1
        rw [h8]
        exact get_size_class_lt _ _
    have hv1 : validFree (newArenaState env d size owner pool2)
        (d.nextArenaId, 0) := by
      refine ⟨newArenaOf env d size owner, hanew, rfl,
        allocBlock 0 size owner, ?_, rfl, ?_⟩
      · rw [hentA]
        exact List.mem_cons_self _ _
      · intro h
        exact BlockState.noConfusion h
    have hfinwf := wf_free hD1wf hv1
    rw [hfreeq] at hfinwf
    have hperm : ∀ j, List.Perm (d.freeLists.getD j [])
        (({ remove_hole (newArenaState env d size owner pool2)
            (d.nextArenaId, size)
            (newArenaSize d.arenaShift size - size) with
          arenas := (remove_hole (newArenaState env d size owner pool2)
            (d.nextArenaId, size)
            (newArenaSize d.arenaShift size - size)).arenas.filter
              (fun a2 => a2.id != (d.nextArenaId, (0 : Nat)).1)
          blockPool := (remove_hole (newArenaState env d size owner pool2)
            (d.nextArenaId, size)
            (newArenaSize d.arenaShift size - size)).blockPool + 1 + 1 } :
          Device).freeLists.getD j []) := by
      intro j
      show List.Perm (d.freeLists.getD j [])
        ((remove_hole (newArenaState env d size owner pool2)
          (d.nextArenaId, size)
          (newArenaSize d.arenaShift size - size)).freeLists.getD j [])
      rw [hd1lists]
    refine ⟨?_, ?_, hperm, ?_⟩
    · show d.arenas = (remove_hole (newArenaState env d size owner pool2)
        (d.nextArenaId, size)
        (newArenaSize d.arenaShift size - size)).arenas.filter
          (fun a2 => a2.id != (d.nextArenaId, (0 : Nat)).1)
      rw [remove_hole_arenas, hD1, add_hole_arenas]
      exact (filter_ne_append_singleton (l := d.arenas)
        (A := newArenaOf env d size owner)
        (fun x hx => hidlt x hx)).symm
    · show d.freeLists.length = (remove_hole
        (newArenaState env d size owner pool2) (d.nextArenaId, size)
        (newArenaSize d.arenaShift size - size)).freeLists.length
      rw [remove_hole_len, hD1, add_hole_len]
    · exact mask_eq_of_perm hwf.2.2.2.2.2 hfinwf.2.2.2.2.2 hperm
  · -- the new arena consists of the allocated block alone
    have hD1 : newArenaState env d size owner pool2 =
        { d with
          arenas := d.arenas ++ [newArenaOf env d size owner]
          blockPool := pool2
          arenaShift := d.arenaShift + 1
          nextArenaId := d.nextArenaId + 1 } := by
      unfold newArenaState
      simp only []
      rw [if_neg hrem]
    have hentA : (newArenaOf env d size owner).entries =
        [allocBlock 0 size owner] := by
      show (if 0 < newArenaSize d.arenaShift size - size then _ else _) = _
      rw [if_neg hrem]
      rfl
    have hfind1 : (newArenaState env d size owner pool2).arenas.find?
        (fun x => x.id == (d.nextArenaId, (0 : Nat)).1) =
        some (newArenaOf env d size owner) := by
      rw [hD1]
      show (d.arenas ++ [newArenaOf env d size owner]).find? _ = _
      rw [List.find?_append, hfnone]
      simp only [Option.none_or]
      exact List.find?_cons_of_pos _ (by simp [newArenaOf])
    have hfreeq : radv_free_shader_memory
        (newArenaState env d size owner pool2) (d.nextArenaId, 0) =
        { newArenaState env d size owner pool2 with
          arenas := (newArenaState env d size owner
            pool2).arenas.filter
              (fun a2 => a2.id != (d.nextArenaId, (0 : Nat)).1)
          blockPool := (newArenaState env d size owner
            pool2).blockPool + 1 } := by
      unfold radv_free_shader_memory
      rw [hfind1]
      simp only []
      have hsp : splitAtOffset (d.nextArenaId, (0 : Nat)).2
          (newArenaOf env d size owner).entries =
          some ([], allocBlock 0 size owner, []) := by
        rw [hentA]
        exact splitAtOffset_decomp rfl fun c hc =>
          absurd hc (List.not_mem_nil c)
      rw [hsp]
      simp only []
      rw [show get_hole (([] : List Block).getLast?) = none from rfl]
      simp only []
      rw [show get_hole (([] : List Block).head?) = none from rfl]
      simp only []
      rw [if_pos (by rfl)]
    rw [hfreeq]
    refine ⟨?_, ?_, ?_, ?_⟩
    · show d.arenas = (newArenaState env d size owner pool2).arenas.filter
        (fun a2 => a2.id != (d.nextArenaId, (0 : Nat)).1)
      rw [hD1]
      exact (filter_ne_append_singleton (l := d.arenas)
        (A := newArenaOf env d size owner)
        (fun x hx => hidlt x hx)).symm
    · show d.freeLists.length =
        (newArenaState env d size owner pool2).freeLists.length
      rw [hD1]
    · intro j
      show List.Perm (d.freeLists.getD j [])
        ((newArenaState env d size owner pool2).freeLists.getD j [])
      rw [hD1]
    · show d.freeListMask =
        (newArenaState env d size owner pool2).freeListMask
      rw [hD1]

/-- C7: Round trip: on a well-formed state, a successful `alloc(size0, owner)`
followed immediately by `free` of the returned block restores a state
observably equivalent to the original: the same arenas, per-class free-list
contents equal up to order within a class, and the same mask — modulo the
identity of pooled descriptors (the pool counter is not observable). -/
theorem C7_round_trip {d : Device} (hwf : DeviceWF d) (env : AllocEnv)
    (size0 : Nat) (hszpos : 0 < size0) (owner : Owner) {r : BlockRef}
    {d1 : Device}
    (halloc : radv_alloc_shader_memory env d size0 owner = (some r, d1)) :
    ObsEquiv d (radv_free_shader_memory d1 r) := by
  have hwfd1 := wf_alloc hwf env hszpos owner
  rw [halloc] at hwfd1
  rcases alloc_cases env d size0 owner with
    ⟨-, r0, hole, hfind, ⟨heq, hres⟩ |
      ⟨heq, ok, pool1, oks1, hab, ⟨-, hres⟩ | ⟨-, hres⟩⟩⟩ |
    ⟨-, hres⟩
  · rw [hres] at halloc
    obtain ⟨hr0, hd1⟩ := Prod.mk.injEq .. ▸ halloc
    obtain rfl : r = r0 := (Option.some.inj hr0).symm
    rw [← hd1]
    exact round_trip_exact hwf (findFit_k_lt hwf.1 hfind) hfind owner
  · rw [hres] at halloc
    obtain ⟨hr0, hd1⟩ := Prod.mk.injEq .. ▸ halloc
    obtain rfl : r = r0 := (Option.some.inj hr0).symm
    rw [← hd1]
    have hfit := (findFit_sound hfind).2.2
    have hfind' : findFit { d with blockPool := pool1 }
        (d.freeLists.getD
          (ffs (scanWord d (align size0 RADV_SHADER_ALLOC_ALIGNMENT)) - 1) [])
        (align size0 RADV_SHADER_ALLOC_ALIGNMENT) = some (r, hole) := by
      rw [← findFit_congr (show d.arenas = ({ d with blockPool := pool1 } : Device).arenas from rfl)]
      exact hfind
    exact round_trip_split (d := { d with blockPool := pool1 }) hwf
      (findFit_k_lt hwf.1 hfind) hfind' owner
      (align_pos hszpos) (align_mod size0) (by omega)
  · rw [hres] at halloc
    exact absurd (Prod.mk.injEq .. ▸ halloc).1 (by simp)
  · rw [hres] at halloc
    rcases allocNewArena_cases env d
        (align size0 RADV_SHADER_ALLOC_ALIGNMENT) owner with
      ⟨pool2, -, hna⟩ | ⟨pool2, -, hna⟩
    · rw [hna] at halloc
      exact absurd (Prod.mk.injEq .. ▸ halloc).1 (by simp)
    · rw [hna] at halloc
      obtain ⟨hr0, hd1⟩ := Prod.mk.injEq .. ▸ halloc
      obtain rfl := Option.some.inj hr0
      rw [← hd1]
      rw [← hd1] at hwfd1
      exact round_trip_newarena hwf env (align_pos hszpos) owner pool2 hwfd1

/-- C7, instantiated: allocating 512 bytes on the one-arena state and freeing
the result restores the state observably. -/
theorem C7_round_trip_witness :
    DeviceWF sampleAllocState ∧
    radv_alloc_shader_memory {} sampleAllocState 512 11 =
      (some (0, 256),
        (radv_alloc_shader_memory {} sampleAllocState 512 11).2) ∧
    ObsEquiv sampleAllocState (radv_free_shader_memory
      (radv_alloc_shader_memory {} sampleAllocState 512 11).2 (0, 256)) :=
  ⟨by decide, by decide,
    C7_round_trip (by decide) {} 512 (by decide) 11 (by decide)⟩

end Radv
